import Mathlib

/-!
# Panasonic MN8647xx bridge driver: the ICC command-queue codec

A shallow embedding of the command-queue builder and executor of
`drivers/gpu/drm/bridge/panasonic-mn8647xx.c` (`cq_init`, `cq_cmd`, `cq_exec`,
`cq_read`, `cq_writereg`, `cq_mask`, `cq_delay`, `cq_wait_set`,
`cq_wait_clear`) and of the bridge callbacks that use it
(`ps4_bridge_pre_enable`, `ps4_bridge_enable`, `ps4_bridge_disable`,
`ps4_bridge_detect`, `ps4_bridge_mode_valid`), followed by theorems about the wire format the queue
produces and about the callbacks.

Conventions of the embedding:

* `u8` and `u16` values are natural numbers, truncated explicitly (`% 256`,
  `% 65536`) wherever the C code converts to the narrower type;
* the pointers `q->p` and `q->cmd` are byte offsets from `q->req.cmdbuf`
  (`cmd = none` is the NULL pointer);
* the members `req` and `reply` of `struct i2c_cmdqueue` are packed structs, so
  `reply` starts right after the last byte of `req.cmdbuf`: a store through
  `q->p` or `q->cmd` at an offset past `cmdbuf` is a store into `reply`.
  Offsets past `reply` address the two pointers themselves; the model does not
  represent pointer bytes, a store there leaves the state as it is and a load
  gives 0. Every theorem below is about offsets inside `cmdbuf`, except the
  one that shows an append running past it into `reply`;
* the transport `apcie_icc_cmd` is external to the file and is a parameter.
-/

namespace MN8647xx

/-! ## Machine integers -/

/-- Conversion of a value to `u8`. -/
def u8 (x : Nat) : Nat := x % 256

/-- Conversion of a value to `u16`. -/
def u16 (x : Nat) : Nat := x % 65536

/-- Conversion of a signed value (a pointer difference) to `u8`. -/
def u8_of_int (x : Int) : Nat := (x % 256).toNat

/-- Conversion of a signed value (a pointer difference) to `u16`. -/
def u16_of_int (x : Int) : Nat := (x % 65536).toNat

/-- The errno value behind `-EIO`. -/
def EIO_val : Int := 5

/-! ## Data model -/

/-- Size of `req.cmdbuf`: `u8 cmdbuf[0x7ec]`. -/
def CMDBUF_SIZE : Nat := 0x7ec

/-- Size of `reply.databuf`: `u8 databuf[0x7eb]`. -/
def DATABUF_SIZE : Nat := 0x7eb

/-- Size of the packed reply struct, `sizeof(q->reply)`: five header bytes and `databuf`. -/
def REPLY_SIZE : Nat := 5 + DATABUF_SIZE

/-- Offset of `cmdbuf` in the packed request struct: `code`, `length` (u16), `count`. -/
def REQ_HDR_SIZE : Nat := 4

/-- Size of `struct i2c_cmd_hdr`. -/
def CMD_HDR_SIZE : Nat := 4

/-- The packed `reply` member of `struct i2c_cmdqueue`. -/
structure i2c_reply where
  res1 : Nat
  res2 : Nat
  unk1 : Nat
  unk2 : Nat
  count : Nat
  databuf : List Nat
deriving DecidableEq

/-- The `struct i2c_cmdqueue`: the packed `req` member (fields `req_code`, `req_length`,
`req_count`, `cmdbuf`), the `reply` member, the cursor `p` and the open group `cmd`. -/
structure i2c_cmdqueue where
  req_code : Nat
  req_length : Nat
  req_count : Nat
  cmdbuf : List Nat
  reply : i2c_reply
  p : Nat
  cmd : Option Nat
deriving DecidableEq

/-- Store of one byte into the reply struct at byte offset `i` of it (packed layout:
`res1, res2, unk1, unk2, count, databuf[..]`). -/
def reply_store (r : i2c_reply) (i v : Nat) : i2c_reply :=
  if i = 0 then { r with res1 := v }
  else if i = 1 then { r with res2 := v }
  else if i = 2 then { r with unk1 := v }
  else if i = 3 then { r with unk2 := v }
  else if i = 4 then { r with count := v }
  else { r with databuf := r.databuf.set (i - 5) v }

/-- Load of one byte from the reply struct at byte offset `i` of it. -/
def reply_load (r : i2c_reply) (i : Nat) : Nat :=
  if i = 0 then r.res1
  else if i = 1 then r.res2
  else if i = 2 then r.unk1
  else if i = 3 then r.unk2
  else if i = 4 then r.count
  else r.databuf.getD (i - 5) 0

/-- Store of the byte `v` at offset `off` from `q->req.cmdbuf`: into `cmdbuf` below
`CMDBUF_SIZE`, into the adjacent `reply` struct after it (offsets past `reply` are not
represented). -/
def store (q : i2c_cmdqueue) (off v : Nat) : i2c_cmdqueue :=
  if off < CMDBUF_SIZE then { q with cmdbuf := q.cmdbuf.set off v }
  else if off < CMDBUF_SIZE + REPLY_SIZE then
    { q with reply := reply_store q.reply (off - CMDBUF_SIZE) v }
  else q

/-- Load of the byte at offset `off` from `q->req.cmdbuf`. -/
def load (q : i2c_cmdqueue) (off : Nat) : Nat :=
  if off < CMDBUF_SIZE then q.cmdbuf.getD off 0
  else reply_load q.reply (off - CMDBUF_SIZE)

/-! ## The command-queue builder

`struct i2c_cmd_hdr` is `{ u8 major; u8 length; u8 minor; u8 count; }`, packed: the
header fields sit at byte offsets 0, 1, 2 and 3 of the group. -/

/-- Source `cq_init`. -/
def cq_init (q : i2c_cmdqueue) (code : Nat) : i2c_cmdqueue :=
  { q with req_code := u8 code, req_count := 0, p := 0, cmd := none }

/-- The statement `if (q->cmd) q->cmd->length = q->p - (u8 *)q->cmd;` of `cq_cmd`. -/
def cq_close_group (q : i2c_cmdqueue) : i2c_cmdqueue :=
  match q.cmd with
  | some c => store q (c + 1) (u8_of_int ((q.p : Int) - (c : Int)))
  | none => q

/-- The statements of `cq_cmd` that open a new group at the cursor: `q->cmd = q->p`, the
four header fields through `q->cmd`, `q->req.count += 1`, `q->p += sizeof(*q->cmd)`. -/
def cq_open_group (q : i2c_cmdqueue) (major minor : Nat) : i2c_cmdqueue :=
  let q1 := { q with cmd := some q.p }
  let q2 := store q1 q.p major
  let q3 := store q2 (q.p + 2) minor
  let q4 := store q3 (q.p + 1) 0
  let q5 := store q4 (q.p + 3) 1
  { q5 with req_count := u8 (q5.req_count + 1), p := q5.p + CMD_HDR_SIZE }

/-- The first branch of `cq_cmd`: close the open group, if any, and open a new one. -/
def cq_cmd_open (q : i2c_cmdqueue) (major minor : Nat) : i2c_cmdqueue :=
  cq_open_group (cq_close_group q) major minor

/-- Source `cq_cmd`. -/
def cq_cmd (q : i2c_cmdqueue) (major minor : Nat) : i2c_cmdqueue :=
  match q.cmd with
  | none => cq_cmd_open q major minor
  | some c =>
    if load q c ≠ major ∨ load q (c + 2) ≠ minor then cq_cmd_open q major minor
    else store q (c + 3) (u8 (load q (c + 3) + 1))

/-- The statement `*q->p++ = v`. -/
def put (q : i2c_cmdqueue) (v : Nat) : i2c_cmdqueue :=
  { store q q.p v with p := q.p + 1 }

/-- Source `cq_read`. -/
def cq_read (q : i2c_cmdqueue) (addr count : Nat) : i2c_cmdqueue :=
  let q := cq_cmd q 1 1
  let q := put q (u8 count)
  let q := put q (u8 (u16 addr >>> 8))
  let q := put q (u8 (u16 addr &&& 0xff))
  put q 0

/-- Source `cq_writereg`. -/
def cq_writereg (q : i2c_cmdqueue) (addr data : Nat) : i2c_cmdqueue :=
  let q := cq_cmd q 2 2
  let q := put q 1
  let q := put q (u8 (u16 addr >>> 8))
  let q := put q (u8 (u16 addr &&& 0xff))
  put q (u8 data)

/-- Source `cq_mask`. -/
def cq_mask (q : i2c_cmdqueue) (addr value mask : Nat) : i2c_cmdqueue :=
  let q := cq_cmd q 2 3
  let q := put q 1
  let q := put q (u8 (u16 addr >>> 8))
  let q := put q (u8 (u16 addr &&& 0xff))
  let q := put q (u8 value)
  put q (u8 mask)

/-- Source `cq_delay`. -/
def cq_delay (q : i2c_cmdqueue) (time : Nat) : i2c_cmdqueue :=
  let q := cq_cmd q 3 1
  let q := put q 0
  let q := put q (u8 (u16 time &&& 0xff))
  let q := put q (u8 (u16 time >>> 8))
  put q 0

/-- Source `cq_wait_set`. -/
def cq_wait_set (q : i2c_cmdqueue) (addr mask : Nat) : i2c_cmdqueue :=
  let q := cq_cmd q 3 2
  let q := put q 0
  let q := put q (u8 (u16 addr >>> 8))
  let q := put q (u8 (u16 addr &&& 0xff))
  put q (u8 mask)

/-- Source `cq_wait_clear`. -/
def cq_wait_clear (q : i2c_cmdqueue) (addr mask : Nat) : i2c_cmdqueue :=
  let q := cq_cmd q 3 3
  let q := put q 0
  let q := put q (u8 (u16 addr >>> 8))
  let q := put q (u8 (u16 addr &&& 0xff))
  put q (u8 mask)

/-! ## Execution -/

/-- The external transport `apcie_icc_cmd(major, minor, data, length, reply, reply_length)`:
it sees the memory at `data` (the packed request struct) and the reply buffer, and gives
back its return value and the reply buffer as it left it. -/
abbrev icc_fn := Nat → Nat → List Nat → Nat → i2c_reply → Nat → Int × i2c_reply

/-- One recorded invocation of the transport. -/
structure icc_call where
  major : Nat
  minor : Nat
  data : List Nat
  length : Nat
  reply_length : Nat
deriving DecidableEq

/-- The bytes of the packed request struct `q->req` (x86, little-endian `u16 length`). -/
def req_bytes (q : i2c_cmdqueue) : List Nat :=
  [q.req_code, q.req_length % 256, q.req_length / 256, q.req_count] ++ q.cmdbuf

/-- Outcome of `cq_exec`: the return value, the queue afterwards and the transport calls
made. -/
structure exec_result where
  res : Int
  q : i2c_cmdqueue
  calls : List icc_call

/-- The two assignments of `cq_exec` before the transport call, for an open group at
offset `c`: `q->cmd->length = q->p - (u8 *)q->cmd; q->req.length = q->p - (u8 *)&q->req;`. -/
def cq_finalize (q : i2c_cmdqueue) (c : Nat) : i2c_cmdqueue :=
  let q1 := store q (c + 1) (u8_of_int ((q.p : Int) - (c : Int)))
  { q1 with req_length := u16_of_int ((q1.p : Int) + (REQ_HDR_SIZE : Int)) }

/-- Source `cq_exec`. -/
def cq_exec (icc : icc_fn) (q : i2c_cmdqueue) : exec_result :=
  match q.cmd with
  | none => { res := 0, q := q, calls := [] }
  | some c =>
    let q2 := cq_finalize q c
    let call : icc_call :=
      { major := 0x10, minor := 0, data := req_bytes q2, length := q2.req_length,
        reply_length := REPLY_SIZE }
    let r := icc 0x10 0 (req_bytes q2) q2.req_length q2.reply REPLY_SIZE
    let q3 := { q2 with reply := r.2 }
    if r.1 < 5 then { res := -EIO_val, q := q3, calls := [call] }
    else if q3.reply.res1 ≠ 0 ∨ q3.reply.res2 ≠ 0 then
      { res := -EIO_val, q := q3, calls := [call] }
    else { res := r.1, q := q3, calls := [call] }

/-- The transport invocation of `cq_exec` for a queue whose open group is at offset `c`:
the return value of `apcie_icc_cmd` and the reply buffer it leaves. -/
def exec_icc (icc : icc_fn) (q : i2c_cmdqueue) (c : Nat) : Int × i2c_reply :=
  icc 0x10 0 (req_bytes (cq_finalize q c)) (cq_finalize q c).req_length
    (cq_finalize q c).reply REPLY_SIZE

/-! ## Append sequences -/

/-- One append call with its arguments. -/
inductive cq_op where
  | read (addr count : Nat)
  | writereg (addr data : Nat)
  | mask (addr value mask : Nat)
  | delay (time : Nat)
  | wait_set (addr mask : Nat)
  | wait_clear (addr mask : Nat)
deriving DecidableEq

/-- Run of one append call on the queue. -/
def cq_apply (q : i2c_cmdqueue) : cq_op → i2c_cmdqueue
  | .read addr count => cq_read q addr count
  | .writereg addr data => cq_writereg q addr data
  | .mask addr value mask => cq_mask q addr value mask
  | .delay time => cq_delay q time
  | .wait_set addr mask => cq_wait_set q addr mask
  | .wait_clear addr mask => cq_wait_clear q addr mask

/-- Run of a sequence of append calls, in order. -/
def cq_run (q : i2c_cmdqueue) (ops : List cq_op) : i2c_cmdqueue :=
  ops.foldl cq_apply q

/-! ## Operation kinds and operand blocks -/

/-- The six operation kinds (`CMD_READ` .. `CMD_WAIT_CLEAR`). -/
inductive cq_kind where
  | read
  | write
  | mask
  | delay
  | wait_set
  | wait_clear
deriving DecidableEq

/-- Major opcode of a kind: first component of the `CMD_*` pairs. -/
def cq_kind.major : cq_kind → Nat
  | .read => 1
  | .write => 2
  | .mask => 2
  | .delay => 3
  | .wait_set => 3
  | .wait_clear => 3

/-- Minor opcode of a kind: second component of the `CMD_*` pairs. -/
def cq_kind.minor : cq_kind → Nat
  | .read => 1
  | .write => 2
  | .mask => 3
  | .delay => 1
  | .wait_set => 2
  | .wait_clear => 3

/-- Number of operand bytes one append of the kind writes after `cq_cmd`. -/
def cq_kind.size : cq_kind → Nat
  | .mask => 5
  | _ => 4

/-- Kind of an append call: the `CMD_*` pair it passes to `cq_cmd`. -/
def cq_op.kind : cq_op → cq_kind
  | .read _ _ => .read
  | .writereg _ _ => .write
  | .mask _ _ _ => .mask
  | .delay _ => .delay
  | .wait_set _ _ => .wait_set
  | .wait_clear _ _ => .wait_clear

/-- Operand bytes an append call writes through `*q->p++`, in order. -/
def cq_op.operand : cq_op → List Nat
  | .read addr count => [u8 count, u8 (u16 addr >>> 8), u8 (u16 addr &&& 0xff), 0]
  | .writereg addr data => [1, u8 (u16 addr >>> 8), u8 (u16 addr &&& 0xff), u8 data]
  | .mask addr value msk =>
    [1, u8 (u16 addr >>> 8), u8 (u16 addr &&& 0xff), u8 value, u8 msk]
  | .delay time => [0, u8 (u16 time &&& 0xff), u8 (u16 time >>> 8), 0]
  | .wait_set addr msk => [0, u8 (u16 addr >>> 8), u8 (u16 addr &&& 0xff), u8 msk]
  | .wait_clear addr msk => [0, u8 (u16 addr >>> 8), u8 (u16 addr &&& 0xff), u8 msk]

/-- Arguments of an append call are within their C parameter types (`u16` address or time,
`u8` count, data, value and mask). -/
def cq_op.valid : cq_op → Prop
  | .read addr count => addr < 65536 ∧ count < 256
  | .writereg addr data => addr < 65536 ∧ data < 256
  | .mask addr value msk => addr < 65536 ∧ value < 256 ∧ msk < 256
  | .delay time => time < 65536
  | .wait_set addr msk => addr < 65536 ∧ msk < 256
  | .wait_clear addr msk => addr < 65536 ∧ msk < 256

instance (o : cq_op) : Decidable o.valid := by
  cases o <;> unfold cq_op.valid <;> infer_instance

/-! ## Specification of the wire format

The definitions of this section follow the wording of the specification, not the code:
maximal runs of same-kind appends, the encoding of one group, and a decoder. -/

/-- A command group at the level of the specification: a kind and the appends coalesced
into it. -/
abbrev cq_group := cq_kind × List cq_op

/-- Specification: an append in front of the runs of the appends that follow it joins
the first run when it has that run's kind, and is a run of its own otherwise. -/
def cons_run (o : cq_op) : List cq_group → List cq_group
  | [] => [(o.kind, [o])]
  | (k, g) :: gs => if o.kind = k then (k, o :: g) :: gs else (o.kind, [o]) :: (k, g) :: gs

/-- Specification: the maximal runs of consecutive same-kind appends, in input order. -/
def runs : List cq_op → List cq_group
  | [] => []
  | o :: rest => cons_run o (runs rest)

/-- Specification: the operand blocks of a group, concatenated. -/
def group_operands (g : List cq_op) : List Nat := g.flatMap cq_op.operand

/-- Specification: a closed group on the wire, with its header bytes in the order of
`struct i2c_cmd_hdr` (major, length, minor, count); the two 8-bit fields hold the byte
length and the operation count modulo 256. -/
def enc_closed (g : cq_group) : List Nat :=
  [g.1.major, u8 (CMD_HDR_SIZE + (group_operands g.2).length), g.1.minor, u8 g.2.length]
    ++ group_operands g.2

/-- Specification: the group still open for coalescing; its length byte is the provisional
0. -/
def enc_cur (g : cq_group) : List Nat :=
  [g.1.major, 0, g.1.minor, u8 g.2.length] ++ group_operands g.2

/-- Specification: a finalized payload, the closed groups one after the other. -/
def enc_all (gs : List cq_group) : List Nat := gs.flatMap enc_closed

/-- Specification: the kind with a given opcode pair. -/
def kind_of_opcode (major minor : Nat) : Option cq_kind :=
  if major = 1 ∧ minor = 1 then some .read
  else if major = 2 ∧ minor = 2 then some .write
  else if major = 2 ∧ minor = 3 then some .mask
  else if major = 3 ∧ minor = 1 then some .delay
  else if major = 3 ∧ minor = 2 then some .wait_set
  else if major = 3 ∧ minor = 3 then some .wait_clear
  else none

/-- Specification: the append call an operand block of the given kind stands for
(addresses big-endian, the delay little-endian). -/
def decode_operand : cq_kind → List Nat → Option cq_op
  | .read, [count, hi, lo, _] => some (.read (hi * 256 + lo) count)
  | .write, [_, hi, lo, data] => some (.writereg (hi * 256 + lo) data)
  | .mask, [_, hi, lo, value, mask] => some (.mask (hi * 256 + lo) value mask)
  | .delay, [_, lo, hi, _] => some (.delay (hi * 256 + lo))
  | .wait_set, [_, hi, lo, mask] => some (.wait_set (hi * 256 + lo) mask)
  | .wait_clear, [_, hi, lo, mask] => some (.wait_clear (hi * 256 + lo) mask)
  | _, _ => none

/-- Specification: read `n` operand blocks of the kind's size; the result is the decoded
appends and the bytes left. -/
def decode_operands (k : cq_kind) : Nat → List Nat → Option (List cq_op × List Nat)
  | 0, bs => some ([], bs)
  | n + 1, bs =>
    match decode_operand k (bs.take k.size) with
    | none => none
    | some o =>
      match decode_operands k n (bs.drop k.size) with
      | none => none
      | some (os, rest) => some (o :: os, rest)

/-- Specification: read `n` groups, each by its opcode and operation count; the result is
the decoded appends, in order, and the bytes left. -/
def decode_groups : Nat → List Nat → Option (List cq_op × List Nat)
  | 0, bs => some ([], bs)
  | n + 1, major :: _ :: minor :: count :: bs =>
    match kind_of_opcode major minor with
    | none => none
    | some k =>
      match decode_operands k count bs with
      | none => none
      | some (os, rest) =>
        match decode_groups n rest with
        | none => none
        | some (os2, rest2) => some (os ++ os2, rest2)
  | _ + 1, _ => none

/-- Specification: decode a request buffer (`code`, little-endian `length`, `group_count`,
then the payload) into the appended operations and the bytes left after the last group. -/
def decode_request : List Nat → Option (List cq_op × List Nat)
  | _ :: _ :: _ :: count :: payload => decode_groups count payload
  | _ => none

/-- Specification: a group on the wire with the exact values the specification gives its
fields: the run length and 4 plus the sum of the operand sizes. -/
def enc_exact (g : cq_group) : List Nat :=
  [g.1.major, CMD_HDR_SIZE + (g.2.map (fun o => o.kind.size)).sum, g.1.minor, g.2.length]
    ++ group_operands g.2

/-- Specification: number of payload bytes of an append sequence, four header bytes for
each group and the operand bytes of each append. -/
def payload_size (ops : List cq_op) : Nat :=
  CMD_HDR_SIZE * (runs ops).length + (ops.map (fun o => o.kind.size)).sum

/-- Specification: opcode pair and operand bytes of each append, as the layout table of the
specification gives them. -/
def op_layout : cq_op → Nat × Nat × List Nat
  | .read addr count => (1, 1, [count, addr >>> 8, addr &&& 0xff, 0])
  | .writereg addr data => (2, 2, [1, addr >>> 8, addr &&& 0xff, data])
  | .mask addr value msk => (2, 3, [1, addr >>> 8, addr &&& 0xff, value, msk])
  | .delay time => (3, 1, [0, time &&& 0xff, time >>> 8, 0])
  | .wait_set addr msk => (3, 2, [0, addr >>> 8, addr &&& 0xff, msk])
  | .wait_clear addr msk => (3, 3, [0, addr >>> 8, addr &&& 0xff, msk])

/-- The request as the transport is to read it: the first `req.length` bytes of the packed
request struct. -/
def request (q : i2c_cmdqueue) : List Nat := (req_bytes q).take q.req_length

/-! ## The build invariant -/

/-- Payload bytes written so far for the groups `gs`: all groups but the last are closed,
the last one is open. -/
def enc_open : List cq_group → List Nat
  | [] => []
  | [g] => enc_cur g
  | g :: g2 :: gs => enc_closed g ++ enc_open (g2 :: gs)

/-- Offset of the open group, the value of `q->cmd`, for the groups `gs`. -/
def cur_off : List cq_group → Option Nat
  | [] => none
  | [_] => some 0
  | g :: g2 :: gs => (cur_off (g2 :: gs)).map (fun c => (enc_closed g).length + c)

/-- Coalescing at the level of groups: one more append either extends the last group or
opens a new one. -/
def absorb : List cq_group → cq_op → List cq_group
  | [], o => [(o.kind, [o])]
  | [(k, g)], o => if k = o.kind then [(k, g ++ [o])] else [(k, g), (o.kind, [o])]
  | x :: y :: gs, o => x :: absorb (y :: gs) o

/-- State of the queue `q` during a build cycle started by `cq_init q0 tag`, after appends
that form the groups `gs`. -/
structure Built (q0 : i2c_cmdqueue) (tag : Nat) (gs : List cq_group) (q : i2c_cmdqueue) :
    Prop where
  code : q.req_code = u8 tag
  length : q.req_length = q0.req_length
  count : q.req_count = u8 gs.length
  reply : q.reply = q0.reply
  cursor : q.p = (enc_open gs).length
  buf : q.cmdbuf = enc_open gs ++ q0.cmdbuf.drop (enc_open gs).length
  cmd : q.cmd = cur_off gs

/-! ## The bridge callbacks

The DRM callbacks of the driver build their command queues from fixed register recipes.
Each init-to-exec cycle is the list of its append calls, in source order; the callbacks run
`cq_init`, the appends and `cq_exec` on the queue of the bridge. Logging and the mutex are
left out. -/

/-- Source macro `BIT(n)`. -/
def BIT (n : Nat) : Nat := 1 <<< n

/-- Source `#define TSYSCTRL`. -/
def TSYSCTRL : Nat := 0x7005

/-- Source `#define TSYSCTRL_HDMI`. -/
def TSYSCTRL_HDMI : Nat := BIT 7

/-- Source `#define TSRST`. -/
def TSRST : Nat := 0x7006

/-- Source `#define TSRST_ENCSRST`. -/
def TSRST_ENCSRST : Nat := BIT 1

/-- Source `#define TSRST_HDCPSRST`. -/
def TSRST_HDCPSRST : Nat := BIT 4

/-- Source `#define TMONREG`. -/
def TMONREG : Nat := 0x7008

/-- Source `#define TMONREG_HPD`. -/
def TMONREG_HPD : Nat := BIT 3

/-- Source `#define TDPCMODE`. -/
def TDPCMODE : Nat := 0x7009

/-- Source `#define UPDCTRL`. -/
def UPDCTRL : Nat := 0x7011

/-- Source `#define UPDCTRL_ALLUPD`. -/
def UPDCTRL_ALLUPD : Nat := BIT 7

/-- Source `#define UPDCTRL_AVIIUPD`. -/
def UPDCTRL_AVIIUPD : Nat := BIT 6

/-- Source `#define UPDCTRL_CLKUPD`. -/
def UPDCTRL_CLKUPD : Nat := BIT 4

/-- Source `#define UPDCTRL_VIFUPD`. -/
def UPDCTRL_VIFUPD : Nat := BIT 2

/-- Source `#define UPDCTRL_CSCUPD`. -/
def UPDCTRL_CSCUPD : Nat := BIT 0

/-- Source `#define VINCNT`. -/
def VINCNT : Nat := 0x7040

/-- Source `#define VINCNT_VIF_FILEN`. -/
def VINCNT_VIF_FILEN : Nat := BIT 6

/-- Source `#define VMUTECNT`. -/
def VMUTECNT : Nat := 0x705f

/-- Source `#define VMUTECNT_LINEWIDTH_90`. -/
def VMUTECNT_LINEWIDTH_90 : Nat := 1 <<< 4

/-- Source `#define VMUTECNT_VMUTE_MUTE_NORMAL`. -/
def VMUTECNT_VMUTE_MUTE_NORMAL : Nat := 2

/-- Source `#define CSCMOD`. -/
def CSCMOD : Nat := 0x70c0

/-- Source `#define C420SET`. -/
def C420SET : Nat := 0x70c2

/-- Source `#define OUTWSET`. -/
def OUTWSET : Nat := 0x70c3

/-- Source `#define PKTENA`. -/
def PKTENA : Nat := 0x7202

/-- Source `#define INFENA`. -/
def INFENA : Nat := 0x7203

/-- Source `#define INFENA_AVIEN`. -/
def INFENA_AVIEN : Nat := BIT 6

/-- Source `#define AKESTA`. -/
def AKESTA : Nat := 0x7a84

/-- Source `#define AKESTA_BUSY`. -/
def AKESTA_BUSY : Nat := BIT 0

/-- Source `#define AKESRST`. -/
def AKESRST : Nat := 0x7a88

/-- Source `#define HDCPEN`. -/
def HDCPEN : Nat := 0x7a8b

/-- Source `#define HDCPEN_ENC_DIS`. -/
def HDCPEN_ENC_DIS : Nat := 0x05

/-- Source `#define PCI_DEVICE_ID_CUH_11XX`. -/
def PCI_DEVICE_ID_CUH_11XX : Nat := 0x9920

/-- Source `#define PCI_DEVICE_ID_CUH_12XX`. -/
def PCI_DEVICE_ID_CUH_12XX : Nat := 0x9922

/-- Modelled from the spec: the constant `PCI_VENDOR_ID_ATI` of `linux/pci_ids.h`, which is
not among the sources; its value 0x1002 is the one the claims give. -/
def PCI_VENDOR_ID_ATI : Nat := 0x1002

/-- Modelled from the spec: the constant `PCI_VENDOR_ID_AMD` of `linux/pci_ids.h`, which is
not among the sources; its value 0x1022 is the one the claims give. -/
def PCI_VENDOR_ID_AMD : Nat := 0x1022

/-- The C operator `||` on integers: 1 when an operand is nonzero, 0 otherwise. -/
def c_lor (a b : Nat) : Nat := if a ≠ 0 ∨ b ≠ 0 then 1 else 0

/-- Modelled from the spec: the two values of `enum drm_mode_status` (declared in the DRM
headers, not among the sources) that `ps4_bridge_mode_valid` returns. -/
inductive drm_mode_status where
  | MODE_OK
  | MODE_BAD
deriving DecidableEq

/-- The bridge state the callbacks use: the command queue `cq` and the matched `mode`. -/
structure ps4_bridge where
  cq : i2c_cmdqueue
  mode : Nat

/-- Appends of `ps4_bridge_pre_enable`. -/
def pre_enable_ops : List cq_op :=
  [.writereg INFENA 0x00,
   .writereg TSRST (TSRST_ENCSRST ||| TSRST_HDCPSRST),
   .writereg TSRST HDCPEN_ENC_DIS,
   .writereg AKESRST 0xff,
   .wait_clear AKESTA AKESTA_BUSY]

/-- Appends of the first cycle of `ps4_bridge_enable`, MN86471A branch: the DisplayPort
status read. -/
def enable_a_status_ops : List cq_op := [.read 0x76e1 3]

/-- Appends of the configuration cycle of `ps4_bridge_enable`, MN86471A branch, for the
status bytes `dp[0]`, `dp[1]` and the matched mode. -/
def enable_a_ops (dp0 dp1 mode : Nat) : List cq_op :=
  [.wait_set 0x761e 0x77,
   .wait_set 0x761f 0x77,
   .wait_set 0x7669 0x01,
   .writereg 0x76d9 ((dp0 &&& 0x1f) ||| (dp0 <<< 5)),
   .writereg 0x76da (((dp1 &&& 0x7c) ||| ((dp0 >>> 3) &&& 3)) ||| ((dp1 <<< 5) &&& 0x80)),
   .writereg 0x76db (0x80 ||| ((dp1 >>> 3) &&& 0xf)),
   .writereg 0x76e4 0x01,
   .writereg TSYSCTRL TSYSCTRL_HDMI,
   .writereg VINCNT VINCNT_VIF_FILEN,
   .writereg 0x7071 0,
   .writereg 0x7062 mode,
   .writereg 0x765a 0,
   .writereg 0x7062 (mode ||| 0x80),
   .writereg 0x7215 0x28,
   .writereg 0x7217 mode,
   .writereg 0x7218 0,
   .writereg CSCMOD 0xdc,
   .writereg C420SET 0xaa,
   .writereg TDPCMODE 0x4a,
   .writereg OUTWSET 0x00,
   .writereg 0x70c4 0x08,
   .writereg 0x70c5 0x08,
   .writereg 0x7096 0xff,
   .writereg 0x7027 0x00,
   .writereg 0x7020 0x20,
   .writereg 0x700b 0x01,
   .writereg PKTENA 0x20,
   .writereg 0x7096 0xff,
   .writereg INFENA INFENA_AVIEN,
   .writereg UPDCTRL ((((UPDCTRL_ALLUPD ||| UPDCTRL_AVIIUPD) ||| UPDCTRL_CLKUPD)
      ||| UPDCTRL_VIFUPD) ||| UPDCTRL_CSCUPD),
   .wait_set 0x7096 0x80,
   .mask 0x7216 0x00 0x80,
   .writereg 0x7218 0x00,
   .writereg 0x7096 0xff,
   .writereg VMUTECNT (VMUTECNT_LINEWIDTH_90 ||| VMUTECNT_VMUTE_MUTE_NORMAL),
   .writereg 0x7016 0x04,
   .writereg 0x7a88 0xff,
   .writereg 0x7a83 0x88,
   .writereg 0x7204 0x40,
   .wait_set 0x7096 0x80,
   .writereg 0x7006 0x02,
   .writereg 0x7020 0x21,
   .writereg 0x7a8b 0x00,
   .writereg 0x7020 0x21,
   .writereg VMUTECNT VMUTECNT_LINEWIDTH_90]

/-- Appends of the first audio cycle of `ps4_bridge_enable`, MN86471A branch. -/
def enable_a_audio0_ops : List cq_op :=
  [.writereg 0x70b3 0x00,
   .writereg 0x70b7 0x0b,
   .writereg 0x70a8 0x24,
   .mask 0x70b9 0x06 0x06,
   .mask 0x70b6 0x02 0x0f,
   .mask 0x70ba 0x40 0x70,
   .mask 0x70b2 0x20 0xe0,
   .mask 0x7257 0x00 0xff,
   .mask 0x70b0 0x01 0x21,
   .mask 0x70ba 0x00 0x88,
   .mask 0x70b9 0x01 0x01]

/-- Appends of the second audio cycle of `ps4_bridge_enable`, MN86471A branch. -/
def enable_a_audio1_ops : List cq_op :=
  [.writereg 0x7ed8 0x01,
   .mask 0x70b4 0x00 0x3e,
   .mask 0x70b5 0x79 0xff,
   .mask 0x70ab 0x00 0xff,
   .mask 0x70b6 0x02 0x3f,
   .mask 0x70b7 0x0b 0x0f,
   .mask 0x70ac 0x00 0xff,
   .mask 0x70bd 0x00 0xff,
   .writereg 0x7204 0x10,
   .writereg 0x7011 0xa2,
   .wait_set 0x7096 0x80,
   .writereg 0x7096 0xff,
   .mask 0x7203 0x10 0x10,
   .writereg 0x70b1 0xc0]

/-- Appends of the configuration cycle of `ps4_bridge_enable`, MN864729 branch, for the
matched mode and the PCI device id (the value written to 0x10c5 depends on it). -/
def enable_b_ops (mode device : Nat) : List cq_op :=
  [.mask 0x6005 0x01 0x01,
   .writereg 0x6a03 0x47,
   .wait_set 0x60f8 0xff,
   .wait_set 0x60f9 0x01,
   .writereg 0x6a01 0x4d,
   .wait_set 0x60f9 0x1a,
   .mask 0x1e00 0x00 0x21,
   .mask 0x1e02 0x00 0x70,
   .delay 0x012c,
   .writereg 0x6020 0x00,
   .delay 0x0032,
   .writereg 0x7402 0x1c,
   .writereg 0x6020 0x04,
   .writereg TSYSCTRL TSYSCTRL_HDMI,
   .writereg 0x10c7 0x38,
   .writereg 0x1e02 0x88,
   .writereg 0x1e00 0x66,
   .writereg 0x100c 0x01,
   .writereg TSYSCTRL TSYSCTRL_HDMI,
   .writereg 0x7009 0x00,
   .writereg 0x7040 0x42,
   .writereg 0x7225 0x28,
   .writereg 0x7227 mode,
   .writereg 0x7228 0x00,
   .writereg 0x7070 mode,
   .writereg 0x7071 (mode ||| 0x80),
   .writereg 0x7072 0x00,
   .writereg 0x7073 0x00,
   .writereg 0x7074 0x00,
   .writereg 0x7075 0x00,
   .writereg 0x70c4 0x0a,
   .writereg 0x70c5 0x0a,
   .writereg 0x70c2 0x00,
   .writereg 0x70fe 0x12,
   .writereg 0x70c3 0x10,
   .writereg 0x10c5 (if device = PCI_DEVICE_ID_CUH_12XX then 0x03 else 0x00),
   .writereg 0x10f6 0xff,
   .writereg 0x7202 0x20,
   .writereg 0x7203 0x60,
   .writereg 0x7011 0xd5,
   .wait_set 0x10f6 0x80,
   .mask 0x7226 0x00 0x80,
   .mask 0x7228 0x00 0xff,
   .delay 0x012c,
   .writereg 0x7204 0x40,
   .wait_clear 0x7204 0x40,
   .writereg 0x7a8b 0x05,
   .mask 0x1e02 0x70 0x70,
   .mask 0x1034 0x02 0x02,
   .mask 0x1e00 0x01 0x01,
   .writereg VMUTECNT VMUTECNT_LINEWIDTH_90,
   .writereg HDCPEN 0x00]

/-- Appends of the first audio cycle of `ps4_bridge_enable`, MN864729 branch. -/
def enable_b_audio0_ops : List cq_op :=
  [.writereg 0x70aa 0x00,
   .writereg 0x70af 0x07,
   .writereg 0x70a9 0x5a,
   .mask 0x70af 0x06 0x06,
   .mask 0x70af 0x02 0x0f,
   .mask 0x70b3 0x02 0x0f,
   .mask 0x70ae 0x80 0xe0,
   .mask 0x70ae 0x01 0x07,
   .mask 0x70ac 0x01 0x21,
   .mask 0x70ab 0x80 0x88,
   .mask 0x70a9 0x01 0x01]

/-- Appends of the second audio cycle of `ps4_bridge_enable`, MN864729 branch. -/
def enable_b_audio1_ops : List cq_op :=
  [.writereg 0x70b0 0x01,
   .mask 0x70b0 0x00 0xff,
   .mask 0x70b1 0x79 0xff,
   .mask 0x70b2 0x00 0xff,
   .mask 0x70b3 0x02 0xff,
   .mask 0x70b4 0x0b 0x0f,
   .mask 0x70b5 0x00 0xff,
   .mask 0x70b6 0x00 0xff,
   .writereg 0x10f6 0xff,
   .writereg 0x7011 0xa2,
   .wait_set 0x10f6 0xa2,
   .mask 0x7267 0x00 0xff,
   .writereg 0x7204 0x10,
   .wait_clear 0x7204 0x10,
   .writereg 0x10f6 0xff,
   .mask 0x7203 0x10 0x10,
   .writereg 0x70a8 0xc0]

/-- Appends of `ps4_bridge_disable`. -/
def disable_ops : List cq_op :=
  [.writereg VMUTECNT (VMUTECNT_LINEWIDTH_90 ||| VMUTECNT_VMUTE_MUTE_NORMAL),
   .writereg INFENA 0x00]

/-- Appends of `ps4_bridge_detect`. -/
def detect_ops : List cq_op := [.read TMONREG 1]

/-- Every init-to-exec cycle the callbacks build, for given status bytes, mode and device
id. -/
def driver_cycles (dp0 dp1 mode device : Nat) : List (List cq_op) :=
  [pre_enable_ops, enable_a_status_ops, enable_a_ops dp0 dp1 mode, enable_a_audio0_ops,
   enable_a_audio1_ops, enable_b_ops mode device, enable_b_audio0_ops, enable_b_audio1_ops,
   disable_ops, detect_ops]

/-- Source `ps4_bridge_pre_enable`: the result is the bridge afterwards and the transport
calls made. -/
def ps4_bridge_pre_enable (icc : icc_fn) (b : ps4_bridge) : ps4_bridge × List icc_call :=
  let r := cq_exec icc (cq_run (cq_init b.cq 4) pre_enable_ops)
  ({ b with cq := r.q }, r.calls)

/-- Source `ps4_bridge_enable`, from the point where connector, connector state and CRTC
state have been found: `vic` is the result of `drm_match_cea_mode`, `vendor` and `device`
are `pdev->vendor` and `pdev->device`. The result is the bridge afterwards and the
transport calls made, in order. -/
def ps4_bridge_enable (icc : icc_fn) (vic vendor device : Nat) (b : ps4_bridge) :
    ps4_bridge × List icc_call :=
  let b := { b with mode := vic }
  if b.mode = 0 then (b, [])
  else if vendor ≠ c_lor PCI_VENDOR_ID_ATI PCI_VENDOR_ID_AMD then (b, [])
  else if device = PCI_DEVICE_ID_CUH_11XX then
    let r1 := cq_exec icc (cq_run (cq_init b.cq 4) enable_a_status_ops)
    if r1.res < 11 then ({ b with cq := r1.q }, r1.calls)
    else
      let dp0 := r1.q.reply.databuf.getD 3 0
      let dp1 := r1.q.reply.databuf.getD 4 0
      let r2 := cq_exec icc (cq_run (cq_init r1.q 4) (enable_a_ops dp0 dp1 b.mode))
      let r3 := cq_exec icc (cq_run (cq_init r2.q 4) enable_a_audio0_ops)
      let r4 := cq_exec icc (cq_run (cq_init r3.q 4) enable_a_audio1_ops)
      ({ b with cq := r4.q }, r1.calls ++ r2.calls ++ r3.calls ++ r4.calls)
  else
    let r1 := cq_exec icc (cq_run (cq_init b.cq 4) (enable_b_ops b.mode device))
    let r2 := cq_exec icc (cq_run (cq_init r1.q 4) enable_b_audio0_ops)
    let r3 := cq_exec icc (cq_run (cq_init r2.q 4) enable_b_audio1_ops)
    ({ b with cq := r3.q }, r1.calls ++ r2.calls ++ r3.calls)

/-- Source `ps4_bridge_disable`. -/
def ps4_bridge_disable (icc : icc_fn) (b : ps4_bridge) : ps4_bridge × List icc_call :=
  let r := cq_exec icc (cq_run (cq_init b.cq 4) disable_ops)
  ({ b with cq := r.q }, r.calls)

/-- Source `ps4_bridge_mode_valid`, on the result `vic` of `drm_match_cea_mode`. -/
def ps4_bridge_mode_valid (vic : Nat) : drm_mode_status :=
  if vic = 0 ∨ (vic ≠ 16 ∧ vic ≠ 4 ∧ vic ≠ 63) then .MODE_BAD else .MODE_OK

/-- Modelled from the spec: the two values of `enum drm_connector_status` (declared in the
DRM headers, not among the sources) that `ps4_bridge_detect` returns. -/
inductive drm_connector_status where
  | connector_status_connected
  | connector_status_disconnected
deriving DecidableEq

/-- Source `ps4_bridge_detect`: the result is the connector status, the bridge afterwards
and the transport calls made. -/
def ps4_bridge_detect (icc : icc_fn) (b : ps4_bridge) :
    drm_connector_status × ps4_bridge × List icc_call :=
  let r := cq_exec icc (cq_run (cq_init b.cq 4) detect_ops)
  if r.res < 9 then (.connector_status_disconnected, { b with cq := r.q }, r.calls)
  else
    let reg := r.q.reply.databuf.getD 3 0
    if reg &&& TMONREG_HPD ≠ 0 then (.connector_status_connected, { b with cq := r.q }, r.calls)
    else (.connector_status_disconnected, { b with cq := r.q }, r.calls)

/-- The maximal runs of a sequence of kinds, each with its length: the shape of `runs`
without the arguments of the appends. -/
def kind_runs : List cq_kind → List (cq_kind × Nat)
  | [] => []
  | k :: rest =>
    match kind_runs rest with
    | [] => [(k, 1)]
    | (k2, n) :: gs => if k = k2 then (k2, n + 1) :: gs else (k, 1) :: (k2, n) :: gs

/-- Check on the kinds of a cycle: the encoding fits in the payload, and every group has at
most 255 bytes and at most 255 operations. -/
def cycle_ok (ks : List cq_kind) : Prop :=
  CMD_HDR_SIZE * (kind_runs ks).length + (ks.map cq_kind.size).sum ≤ CMDBUF_SIZE ∧
  ∀ kn ∈ kind_runs ks, CMD_HDR_SIZE + kn.2 * kn.1.size ≤ 255 ∧ kn.2 ≤ 255

instance (ks : List cq_kind) : Decidable (cycle_ok ks) := by
  unfold cycle_ok; infer_instance

/-! ## Concrete states used in the examples -/

/-- A queue as allocated with the device: zeroed buffers of the declared sizes. -/
def q_zero : i2c_cmdqueue :=
  { req_code := 0, req_length := 0, req_count := 0,
    cmdbuf := List.replicate CMDBUF_SIZE 0,
    reply := { res1 := 0, res2 := 0, unk1 := 0, unk2 := 0, count := 0,
               databuf := List.replicate DATABUF_SIZE 0 },
    p := 0, cmd := none }

/-- A run of `n` register writes, all of one kind. -/
def ops_writes (n : Nat) : List cq_op := List.replicate n (cq_op.writereg 0x7203 0)

/-- The queue of the presence probe before execution: `cq_init(4); cq_read(0x7008, 1)`. -/
def q_probe : i2c_cmdqueue := cq_read (cq_init q_zero 4) 0x7008 1

/-- The queue after a first masked write: `cq_init(4); cq_mask(0x1e00, 0x00, 0x21)`. -/
def q_one_mask : i2c_cmdqueue := cq_mask (cq_init q_zero 4) 0x1e00 0x00 0x21

/-- A transport that answers with the five given reply header bytes and returns `n`. -/
def icc_reply (n : Int) (b0 b1 b2 b3 b4 : Nat) : icc_fn :=
  fun _ _ _ _ r _ => (n, { r with res1 := b0, res2 := b1, unk1 := b2, unk2 := b3, count := b4 })

/-- A transport that fails with the given negative errno and leaves the reply alone. -/
def icc_fail (e : Int) : icc_fn :=
  fun _ _ _ _ r _ => (e, r)

/-! ## Lemmas on the builder -/

theorem store_lt (q : i2c_cmdqueue) (off v : Nat) (h : off < CMDBUF_SIZE) :
    store q off v = { q with cmdbuf := q.cmdbuf.set off v } := by
  simp [store, h]

theorem load_lt (q : i2c_cmdqueue) (off : Nat) (h : off < CMDBUF_SIZE) :
    load q off = q.cmdbuf.getD off 0 := by
  simp [load, h]

@[simp] theorem store_p (q : i2c_cmdqueue) (off v : Nat) : (store q off v).p = q.p := by
  unfold store; split_ifs <;> rfl

@[simp] theorem store_cmd (q : i2c_cmdqueue) (off v : Nat) : (store q off v).cmd = q.cmd := by
  unfold store; split_ifs <;> rfl

@[simp] theorem store_req_code (q : i2c_cmdqueue) (off v : Nat) :
    (store q off v).req_code = q.req_code := by
  unfold store; split_ifs <;> rfl

@[simp] theorem store_req_count (q : i2c_cmdqueue) (off v : Nat) :
    (store q off v).req_count = q.req_count := by
  unfold store; split_ifs <;> rfl

@[simp] theorem store_req_length (q : i2c_cmdqueue) (off v : Nat) :
    (store q off v).req_length = q.req_length := by
  unfold store; split_ifs <;> rfl

/-- Writing a block of bytes at the cursor. -/
theorem puts_eq (bs : List Nat) : ∀ (q : i2c_cmdqueue) (W R : List Nat),
    q.cmdbuf = W ++ R → q.p = W.length → W.length + bs.length ≤ CMDBUF_SIZE →
    bs.length ≤ R.length →
    bs.foldl put q = { q with cmdbuf := W ++ bs ++ R.drop bs.length, p := q.p + bs.length } := by
  induction bs with
  | nil => intro q W R hb hp _ _; cases q; simp_all
  | cons b bs ih =>
    intro q W R hb hp hN hR
    simp only [List.length_cons] at hN hR
    obtain ⟨r, R2, rfl⟩ : ∃ r R2, R = r :: R2 := by
      cases R with
      | nil => simp at hR
      | cons r R2 => exact ⟨r, R2, rfl⟩
    simp only [List.length_cons] at hR
    have hlt : q.p < CMDBUF_SIZE := by omega
    rw [List.foldl_cons]
    have hput : put q b = { q with cmdbuf := (W ++ [b]) ++ R2, p := q.p + 1 } := by
      rw [put, store_lt _ _ _ hlt]
      simp [hb, hp, List.set_append]
    rw [ih (put q b) (W ++ [b]) R2 (by rw [hput]) (by rw [hput]; simp [hp])
      (by simp; omega) (by omega), hput]
    simp [Nat.add_assoc, Nat.add_comm 1]

theorem exists_four (R : List Nat) (h : 4 ≤ R.length) :
    ∃ r0 r1 r2 r3 R4, R = r0 :: r1 :: r2 :: r3 :: R4 := by
  match R, h with
  | r0 :: r1 :: r2 :: r3 :: R4, _ => exact ⟨r0, r1, r2, r3, R4, rfl⟩

/-- The four header stores of `cq_cmd` at the cursor. -/
theorem hdr_stores (q : i2c_cmdqueue) (W R4 : List Nat) (r0 r1 r2 r3 major minor x : Nat)
    (hb : q.cmdbuf = W ++ r0 :: r1 :: r2 :: r3 :: R4) (hx : x = W.length)
    (hN : x + 4 ≤ CMDBUF_SIZE) :
    store (store (store (store q x major) (x + 2) minor) (x + 1) 0) (x + 3) 1
      = { q with cmdbuf := W ++ major :: 0 :: minor :: 1 :: R4 } := by
  subst hx
  rw [store_lt _ _ _ (by omega), store_lt _ _ _ (by omega), store_lt _ _ _ (by omega),
    store_lt _ _ _ (by omega)]
  simp [hb, List.set_append]

/-- Opening a group at the cursor, in bounds. -/
theorem cq_open_group_eq (q : i2c_cmdqueue) (major minor : Nat) (W R : List Nat)
    (hb : q.cmdbuf = W ++ R) (hp : q.p = W.length)
    (hN : W.length + 4 ≤ CMDBUF_SIZE) (hR : 4 ≤ R.length) :
    cq_open_group q major minor =
      { q with cmd := some q.p, cmdbuf := W ++ [major, 0, minor, 1] ++ R.drop 4,
               req_count := u8 (q.req_count + 1), p := q.p + 4 } := by
  obtain ⟨r0, r1, r2, r3, R4, rfl⟩ := exists_four R hR
  have h := hdr_stores { q with cmd := some q.p } W R4 r0 r1 r2 r3 major minor q.p hb hp
    (by omega)
  unfold cq_open_group
  simp only [h]
  simp [CMD_HDR_SIZE]

/-- Closing the open group, in bounds. -/
theorem cq_close_group_eq (q : i2c_cmdqueue) (c : Nat) (A B R : List Nat) (a l m n : Nat)
    (hc : q.cmd = some c) (hcA : c = A.length)
    (hb : q.cmdbuf = A ++ [a, l, m, n] ++ B ++ R) (hp : q.p = A.length + 4 + B.length)
    (hN : q.p ≤ CMDBUF_SIZE) :
    cq_close_group q = { q with cmdbuf := A ++ [a, u8 (4 + B.length), m, n] ++ B ++ R } := by
  have hlen : u8_of_int ((q.p : Int) - (c : Int)) = u8 (4 + B.length) := by
    subst hcA
    rw [hp]
    unfold u8_of_int u8
    have : ((A.length + 4 + B.length : Nat) : Int) - (A.length : Int)
        = ((4 + B.length : Nat) : Int) := by push_cast; ring
    rw [this]
    omega
  unfold cq_close_group
  simp only [hc, hlen]
  rw [store_lt _ _ _ (by omega)]
  subst hcA
  simp [hb, List.set_append, hc]

@[simp] theorem cq_close_group_p (q : i2c_cmdqueue) : (cq_close_group q).p = q.p := by
  unfold cq_close_group; split <;> simp

@[simp] theorem cq_open_group_p (q : i2c_cmdqueue) (major minor : Nat) :
    (cq_open_group q major minor).p = q.p + 4 := by
  simp [cq_open_group, CMD_HDR_SIZE]

@[simp] theorem cq_cmd_open_p (q : i2c_cmdqueue) (major minor : Nat) :
    (cq_cmd_open q major minor).p = q.p + 4 := by
  simp [cq_cmd_open]

@[simp] theorem put_p (q : i2c_cmdqueue) (v : Nat) : (put q v).p = q.p + 1 := rfl

@[simp] theorem puts_p (bs : List Nat) (q : i2c_cmdqueue) :
    (bs.foldl put q).p = q.p + bs.length := by
  induction bs generalizing q with
  | nil => rfl
  | cons b bs ih => simp [ih]; omega

theorem cq_cmd_p_ge (q : i2c_cmdqueue) (major minor : Nat) : q.p ≤ (cq_cmd q major minor).p := by
  unfold cq_cmd
  split
  · simp
  · split_ifs <;> simp

theorem cq_apply_eq (q : i2c_cmdqueue) (o : cq_op) :
    cq_apply q o = o.operand.foldl put (cq_cmd q o.kind.major o.kind.minor) := by
  cases o <;> rfl

theorem cq_apply_p_ge (q : i2c_cmdqueue) (o : cq_op) : q.p ≤ (cq_apply q o).p := by
  rw [cq_apply_eq, puts_p]
  have := cq_cmd_p_ge q o.kind.major o.kind.minor
  omega

theorem cq_run_snoc (q : i2c_cmdqueue) (ops : List cq_op) (o : cq_op) :
    cq_run q (ops ++ [o]) = cq_apply (cq_run q ops) o := by
  simp [cq_run, List.foldl_append]

theorem operand_length (o : cq_op) : o.operand.length = o.kind.size := by
  cases o <;> rfl

theorem kind_eq_of_opcode (k k2 : cq_kind) (h1 : k.major = k2.major) (h2 : k.minor = k2.minor) :
    k = k2 := by
  cases k <;> cases k2 <;> simp_all [cq_kind.major, cq_kind.minor]

theorem u8_succ_u8 (n : Nat) : u8 (u8 n + 1) = u8 (n + 1) := by
  unfold u8; omega

/-! ### Groups seen from their last element -/

theorem enc_open_concat (closed : List cq_group) (g : cq_group) :
    enc_open (closed ++ [g]) = enc_all closed ++ enc_cur g := by
  induction closed with
  | nil => simp [enc_open, enc_all]
  | cons x xs ih =>
    cases xs with
    | nil => simp [enc_open, enc_all]
    | cons y ys =>
      have : enc_open (x :: y :: ys ++ [g]) = enc_closed x ++ enc_open (y :: ys ++ [g]) := rfl
      rw [this, ih]
      simp [enc_all]

theorem cur_off_concat (closed : List cq_group) (g : cq_group) :
    cur_off (closed ++ [g]) = some (enc_all closed).length := by
  induction closed with
  | nil => simp [cur_off, enc_all]
  | cons x xs ih =>
    cases xs with
    | nil => simp [cur_off, enc_all]
    | cons y ys =>
      have : cur_off (x :: y :: ys ++ [g])
          = (cur_off (y :: ys ++ [g])).map (fun c => (enc_closed x).length + c) := rfl
      rw [this, ih]
      simp [enc_all]

theorem absorb_concat (closed : List cq_group) (g : cq_group) (o : cq_op) :
    absorb (closed ++ [g]) o = closed ++ absorb [g] o := by
  induction closed with
  | nil => rfl
  | cons x xs ih =>
    cases xs with
    | nil =>
      obtain ⟨k, l⟩ := g
      simp only [List.cons_append, List.nil_append, absorb]
    | cons y ys =>
      have : absorb (x :: y :: ys ++ [g]) o = x :: absorb (y :: ys ++ [g]) o := rfl
      rw [this, ih]
      rfl

theorem enc_all_concat (closed : List cq_group) (g : cq_group) :
    enc_all (closed ++ [g]) = enc_all closed ++ enc_closed g := by
  simp [enc_all]

/-- The build invariant at the start of a cycle. -/
theorem built_init (q0 : i2c_cmdqueue) (tag : Nat) : Built q0 tag [] (cq_init q0 tag) := by
  constructor <;> simp [cq_init, enc_open, cur_off, u8]

/-- First append of a cycle. -/
theorem built_step_nil (q0 q : i2c_cmdqueue) (tag : Nat) (o : cq_op)
    (hq0 : q0.cmdbuf.length = CMDBUF_SIZE) (h : Built q0 tag [] q)
    (hsz : (enc_open [(o.kind, [o])]).length ≤ CMDBUF_SIZE) :
    Built q0 tag [(o.kind, [o])] (cq_apply q o) := by
  have hp : q.p = 0 := by simpa [enc_open] using h.cursor
  have hb : q.cmdbuf = [] ++ q0.cmdbuf := by simpa [enc_open] using h.buf
  have hc : q.cmd = none := by simpa [cur_off] using h.cmd
  have hcmd : cq_cmd q o.kind.major o.kind.minor = cq_cmd_open q o.kind.major o.kind.minor := by
    simp [cq_cmd, hc]
  have hfit2 : 4 + o.operand.length ≤ CMDBUF_SIZE := by
    have henc : enc_open [(o.kind, [o])] = enc_cur (o.kind, [o]) := rfl
    rw [henc] at hsz
    simp [enc_cur, group_operands] at hsz
    omega
  have hclose : cq_close_group q = q := by simp [cq_close_group, hc]
  have hopen := cq_open_group_eq q o.kind.major o.kind.minor [] q0.cmdbuf hb (by simp [hp])
    (by simp; omega) (by omega)
  have hputs := puts_eq o.operand (cq_cmd_open q o.kind.major o.kind.minor)
    [o.kind.major, 0, o.kind.minor, 1] (q0.cmdbuf.drop 4)
    (by rw [cq_cmd_open, hclose, hopen]; simp) (by simp [hp]) (by simp; omega)
    (by simp; omega)
  rw [cq_apply_eq, hcmd, hputs, cq_cmd_open, hclose, hopen]
  constructor <;>
    simp [h.code, h.length, h.count, h.reply, hp, enc_open, enc_cur, cur_off, group_operands, u8]
  all_goals first | omega | (congr 1; omega)

/-- The header bytes of the open group, as `cq_cmd` loads them. -/
theorem load_hdr (q : i2c_cmdqueue) (c : Nat) (A B : List Nat) (a l m n : Nat)
    (hcA : c = A.length) (hb : q.cmdbuf = A ++ [a, l, m, n] ++ B)
    (hN : A.length + 4 ≤ CMDBUF_SIZE) :
    load q c = a ∧ load q (c + 2) = m ∧ load q (c + 3) = n := by
  subst hcA
  rw [load_lt _ _ (by omega), load_lt _ _ (by omega), load_lt _ _ (by omega), hb,
    List.append_assoc, List.getD_append_right _ _ _ _ (Nat.le_refl _),
    List.getD_append_right _ _ _ _ (Nat.le_add_right _ 2),
    List.getD_append_right _ _ _ _ (Nat.le_add_right _ 3)]
  simp

/-- The coalescing branch of `cq_cmd`. -/
theorem cq_cmd_same (q : i2c_cmdqueue) (c : Nat) (A B : List Nat) (a l m n : Nat)
    (hc : q.cmd = some c) (hcA : c = A.length) (hb : q.cmdbuf = A ++ [a, l, m, n] ++ B)
    (hN : A.length + 4 ≤ CMDBUF_SIZE) :
    cq_cmd q a m = { q with cmdbuf := A ++ [a, l, m, u8 (n + 1)] ++ B } := by
  obtain ⟨h0, h2, h3⟩ := load_hdr q c A B a l m n hcA hb hN
  unfold cq_cmd
  simp only [hc, h0, h2, h3]
  rw [store_lt _ _ _ (by omega)]
  subst hcA
  simp [hb, List.set_append, hc]

/-- The branch of `cq_cmd` taken when the opcode differs from the open group's. -/
theorem cq_cmd_diff (q : i2c_cmdqueue) (c major minor : Nat) (A B : List Nat) (a l m n : Nat)
    (hc : q.cmd = some c) (hcA : c = A.length) (hb : q.cmdbuf = A ++ [a, l, m, n] ++ B)
    (hN : A.length + 4 ≤ CMDBUF_SIZE) (hne : a ≠ major ∨ m ≠ minor) :
    cq_cmd q major minor = cq_cmd_open q major minor := by
  obtain ⟨h0, h2, _⟩ := load_hdr q c A B a l m n hcA hb hN
  unfold cq_cmd
  simp only [hc, h0, h2]
  rw [if_pos hne]

/-- An append of the open group's kind extends it in place. -/
theorem built_step_same (q0 q : i2c_cmdqueue) (tag : Nat) (closed : List cq_group)
    (g : List cq_op) (o : cq_op)
    (hq0 : q0.cmdbuf.length = CMDBUF_SIZE) (h : Built q0 tag (closed ++ [(o.kind, g)]) q)
    (hsz : (enc_open (closed ++ [(o.kind, g ++ [o])])).length ≤ CMDBUF_SIZE) :
    Built q0 tag (closed ++ [(o.kind, g ++ [o])]) (cq_apply q o) := by
  have hW : enc_open (closed ++ [(o.kind, g)])
      = enc_all closed ++ [o.kind.major, 0, o.kind.minor, u8 g.length] ++ group_operands g := by
    simp [enc_open_concat, enc_cur]
  have hW2 : enc_open (closed ++ [(o.kind, g ++ [o])])
      = enc_all closed ++ [o.kind.major, 0, o.kind.minor, u8 (g.length + 1)]
          ++ group_operands g ++ o.operand := by
    simp [enc_open_concat, enc_cur, group_operands]
  have hp : q.p = (enc_all closed).length + 4 + (group_operands g).length := by
    rw [h.cursor, hW]; simp; omega
  have hb : q.cmdbuf = enc_all closed ++ [o.kind.major, 0, o.kind.minor, u8 g.length]
      ++ group_operands g ++ q0.cmdbuf.drop q.p := by
    have := h.buf
    rw [← h.cursor, hW] at this
    exact this
  have hc : q.cmd = some (enc_all closed).length := by rw [h.cmd, cur_off_concat]
  have hfit2 : q.p + o.operand.length ≤ CMDBUF_SIZE := by
    rw [hW2] at hsz
    simp at hsz
    omega
  have hpN : q.p ≤ CMDBUF_SIZE := by omega
  have hcmd := cq_cmd_same q _ (enc_all closed) (group_operands g ++ q0.cmdbuf.drop q.p)
    o.kind.major 0 o.kind.minor (u8 g.length) hc rfl (by rw [hb]; simp) (by omega)
  have hputs := puts_eq o.operand (cq_cmd q o.kind.major o.kind.minor)
    (enc_all closed ++ [o.kind.major, 0, o.kind.minor, u8 (u8 g.length + 1)] ++ group_operands g)
    (q0.cmdbuf.drop q.p)
    (by rw [hcmd]; simp) (by rw [hcmd]; simp [hp]; omega) (by simp; omega)
    (by simp; omega)
  rw [cq_apply_eq, hputs, hcmd]
  constructor
  · exact h.code
  · exact h.length
  · simpa using h.count
  · exact h.reply
  · simp [hW2, hp]; omega
  · rw [hW2]
    simp [u8_succ_u8, hp]
    congr 1
    omega
  · simp [hc, cur_off_concat]

/-- An append of another kind closes the open group and opens the next one. -/
theorem built_step_diff (q0 q : i2c_cmdqueue) (tag : Nat) (closed : List cq_group)
    (k : cq_kind) (g : List cq_op) (o : cq_op) (hk : k ≠ o.kind)
    (hq0 : q0.cmdbuf.length = CMDBUF_SIZE) (h : Built q0 tag (closed ++ [(k, g)]) q)
    (hsz : (enc_open (closed ++ [(k, g), (o.kind, [o])])).length ≤ CMDBUF_SIZE) :
    Built q0 tag (closed ++ [(k, g), (o.kind, [o])]) (cq_apply q o) := by
  have hW : enc_open (closed ++ [(k, g)])
      = enc_all closed ++ [k.major, 0, k.minor, u8 g.length] ++ group_operands g := by
    simp [enc_open_concat, enc_cur]
  have hW2 : enc_open (closed ++ [(k, g), (o.kind, [o])])
      = enc_all closed ++ [k.major, u8 (4 + (group_operands g).length), k.minor, u8 g.length]
          ++ group_operands g ++ [o.kind.major, 0, o.kind.minor, 1] ++ o.operand := by
    have : closed ++ [(k, g), (o.kind, [o])] = (closed ++ [(k, g)]) ++ [(o.kind, [o])] := by simp
    rw [this, enc_open_concat, enc_all_concat]
    simp [enc_closed, enc_cur, group_operands, CMD_HDR_SIZE, u8]
  have hp : q.p = (enc_all closed).length + 4 + (group_operands g).length := by
    rw [h.cursor, hW]; simp; omega
  have hb : q.cmdbuf = enc_all closed ++ [k.major, 0, k.minor, u8 g.length]
      ++ group_operands g ++ q0.cmdbuf.drop q.p := by
    have := h.buf
    rw [← h.cursor, hW] at this
    exact this
  have hc : q.cmd = some (enc_all closed).length := by rw [h.cmd, cur_off_concat]
  have hfit2 : q.p + 4 + o.operand.length ≤ CMDBUF_SIZE := by
    rw [hW2] at hsz
    simp at hsz
    omega
  have hpN : q.p ≤ CMDBUF_SIZE := by omega
  have hne : k.major ≠ o.kind.major ∨ k.minor ≠ o.kind.minor := by
    by_contra hcon
    push_neg at hcon
    exact hk (kind_eq_of_opcode k o.kind hcon.1 hcon.2)
  have hcmd := cq_cmd_diff q _ o.kind.major o.kind.minor (enc_all closed)
    (group_operands g ++ q0.cmdbuf.drop q.p)
    k.major 0 k.minor (u8 g.length) hc rfl (by rw [hb]; simp) (by omega) hne
  have hclose := cq_close_group_eq q _ (enc_all closed) (group_operands g) (q0.cmdbuf.drop q.p)
    k.major 0 k.minor (u8 g.length) hc rfl hb hp hpN
  have hopen := cq_open_group_eq (cq_close_group q) o.kind.major o.kind.minor
    (enc_all closed ++ [k.major, u8 (4 + (group_operands g).length), k.minor, u8 g.length]
      ++ group_operands g) (q0.cmdbuf.drop q.p)
    (by rw [hclose]) (by rw [hclose]; simp [hp]; omega) (by simp; omega) (by simp; omega)
  have hputs := puts_eq o.operand (cq_cmd_open q o.kind.major o.kind.minor)
    (enc_all closed ++ [k.major, u8 (4 + (group_operands g).length), k.minor, u8 g.length]
      ++ group_operands g ++ [o.kind.major, 0, o.kind.minor, 1])
    ((q0.cmdbuf.drop q.p).drop 4)
    (by rw [cq_cmd_open, hopen]) (by rw [cq_cmd_open_p]; simp [hp]; omega) (by simp; omega)
    (by simp; omega)
  rw [cq_apply_eq, hcmd, hputs, cq_cmd_open, hopen, hclose]
  constructor
  · exact h.code
  · exact h.length
  · simp [h.count, u8_succ_u8]
  · exact h.reply
  · simp [hW2, hp]; omega
  · rw [hW2]
    simp [hp]
    congr 1
    omega
  · have : closed ++ [(k, g), (o.kind, [o])] = (closed ++ [(k, g)]) ++ [(o.kind, [o])] := by simp
    rw [this, cur_off_concat, enc_all_concat]
    simp [hp, enc_closed]
    omega

/-- One append preserves the build invariant, with the groups coalesced by `absorb`. -/
theorem built_step (q0 q : i2c_cmdqueue) (tag : Nat) (gs : List cq_group) (o : cq_op)
    (hq0 : q0.cmdbuf.length = CMDBUF_SIZE) (h : Built q0 tag gs q)
    (hsz : (enc_open (absorb gs o)).length ≤ CMDBUF_SIZE) :
    Built q0 tag (absorb gs o) (cq_apply q o) := by
  rcases List.eq_nil_or_concat gs with rfl | ⟨closed, ⟨k, g⟩, rfl⟩
  · exact built_step_nil q0 q tag o hq0 h hsz
  · rw [List.concat_eq_append] at h hsz ⊢
    rw [absorb_concat] at hsz ⊢
    by_cases hk : k = o.kind
    · subst hk
      simp only [absorb, if_true] at hsz ⊢
      exact built_step_same q0 q tag closed g o hq0 h hsz
    · simp only [absorb, hk, if_false] at hsz ⊢
      exact built_step_diff q0 q tag closed k g o hk hq0 h hsz

/-- Appending never shrinks the encoding. -/
theorem enc_open_absorb_ge (gs : List cq_group) (o : cq_op) :
    (enc_open gs).length ≤ (enc_open (absorb gs o)).length := by
  rcases List.eq_nil_or_concat gs with rfl | ⟨closed, ⟨k, g⟩, rfl⟩
  · simp [enc_open]
  · rw [List.concat_eq_append, absorb_concat]
    by_cases hk : k = o.kind
    · subst hk
      simp only [absorb, if_true]
      simp [enc_open_concat, enc_cur, group_operands]
    · simp only [absorb, hk, if_false]
      have : closed ++ [(k, g), (o.kind, [o])] = (closed ++ [(k, g)]) ++ [(o.kind, [o])] := by
        simp
      rw [this, enc_open_concat, enc_open_concat, enc_all_concat]
      simp [enc_cur, enc_closed]

/-! ### The runs of a sequence -/

theorem absorb_cons_run (a o : cq_op) (gs : List cq_group) :
    absorb (cons_run a gs) o = cons_run a (absorb gs o) := by
  match gs with
  | [] =>
    simp only [cons_run, absorb]
    by_cases h : a.kind = o.kind
    · simp [h, cons_run]
    · simp [h, cons_run]
  | [(k, g)] =>
    by_cases h1 : a.kind = k
    · subst h1
      by_cases h2 : a.kind = o.kind <;> simp [cons_run, absorb, h2]
    · by_cases h2 : k = o.kind
      · subst h2
        simp [cons_run, absorb, h1]
      · simp [cons_run, absorb, h1, h2]
  | (k, g) :: y :: gs =>
    by_cases h1 : a.kind = k <;> simp [cons_run, absorb, h1]

theorem runs_snoc (ops : List cq_op) (o : cq_op) :
    runs (ops ++ [o]) = absorb (runs ops) o := by
  induction ops with
  | nil => rfl
  | cons a rest ih =>
    show cons_run a (runs (rest ++ [o])) = absorb (cons_run a (runs rest)) o
    rw [ih, absorb_cons_run]

theorem cons_run_flatten (o : cq_op) (gs : List cq_group) :
    (cons_run o gs).flatMap Prod.snd = o :: gs.flatMap Prod.snd := by
  match gs with
  | [] => rfl
  | (k, g) :: gs =>
    by_cases h : o.kind = k <;> simp [cons_run, h]

/-- The runs, concatenated, are the sequence. -/
theorem runs_flatten (ops : List cq_op) : (runs ops).flatMap Prod.snd = ops := by
  induction ops with
  | nil => rfl
  | cons o rest ih => rw [runs, cons_run_flatten, ih]

/-- Every run is non-empty and holds appends of its kind only. -/
theorem runs_uniform (ops : List cq_op) :
    ∀ kg ∈ runs ops, kg.2 ≠ [] ∧ ∀ o ∈ kg.2, o.kind = kg.1 := by
  induction ops with
  | nil => simp [runs]
  | cons a rest ih =>
    rw [runs]
    match hr : runs rest with
    | [] => simp [cons_run]
    | (k, g) :: gs =>
      rw [hr] at ih
      by_cases h : a.kind = k
      · simp only [cons_run, h, if_true]
        intro kg hkg
        rcases List.mem_cons.1 hkg with rfl | hmem
        · refine ⟨by simp, ?_⟩
          intro o ho
          rcases List.mem_cons.1 ho with rfl | ho2
          · exact h
          · exact (ih (k, g) (List.mem_cons_self _ _)).2 o ho2
        · exact ih kg (List.mem_cons_of_mem _ hmem)
      · simp only [cons_run, h, if_false]
        intro kg hkg
        rcases List.mem_cons.1 hkg with rfl | hmem
        · simp
        · exact ih kg hmem

/-- Runs are maximal: neighbouring runs have different kinds. -/
theorem runs_maximal (ops : List cq_op) :
    List.Chain' (fun a b : cq_group => a.1 ≠ b.1) (runs ops) := by
  induction ops with
  | nil => simp [runs]
  | cons a rest ih =>
    rw [runs]
    match hr : runs rest with
    | [] => simp [cons_run]
    | (k, g) :: gs =>
      rw [hr] at ih
      by_cases h : a.kind = k
      · simp only [cons_run, h, if_true]
        cases gs with
        | nil => simp
        | cons y ys =>
          rw [List.chain'_cons] at ih ⊢
          exact ih
      · simp only [cons_run, h, if_false]
        rw [List.chain'_cons]
        exact ⟨h, ih⟩

theorem group_operands_length (g : List cq_op) :
    (group_operands g).length = (g.map (fun o => o.kind.size)).sum := by
  induction g with
  | nil => rfl
  | cons o g ih =>
    have : group_operands (o :: g) = o.operand ++ group_operands g := by simp [group_operands]
    rw [this, List.length_append, ih, operand_length]
    simp

theorem enc_all_length (gs : List cq_group) :
    (enc_all gs).length
      = CMD_HDR_SIZE * gs.length + (group_operands (gs.flatMap Prod.snd)).length := by
  induction gs with
  | nil => rfl
  | cons x xs ih =>
    have h1 : enc_all (x :: xs) = enc_closed x ++ enc_all xs := by simp [enc_all]
    have h2 : group_operands ((x :: xs).flatMap Prod.snd)
        = group_operands x.2 ++ group_operands (xs.flatMap Prod.snd) := by
      simp [group_operands]
    rw [h1, h2, List.length_append, ih]
    simp [enc_closed, CMD_HDR_SIZE]
    omega

theorem enc_open_length (gs : List cq_group) : (enc_open gs).length = (enc_all gs).length := by
  rcases List.eq_nil_or_concat gs with rfl | ⟨closed, g, rfl⟩
  · rfl
  · rw [List.concat_eq_append, enc_open_concat, enc_all_concat]
    simp [enc_cur, enc_closed]

/-- The encoding of a sequence has `payload_size` bytes. -/
theorem enc_all_runs_length (ops : List cq_op) :
    (enc_all (runs ops)).length = payload_size ops := by
  rw [enc_all_length, runs_flatten, group_operands_length, payload_size]

/-- The build invariant holds after every append sequence whose encoding fits in the
payload. -/
theorem built_run (q0 : i2c_cmdqueue) (tag : Nat) (ops : List cq_op)
    (hq0 : q0.cmdbuf.length = CMDBUF_SIZE) (hfit : payload_size ops ≤ CMDBUF_SIZE) :
    Built q0 tag (runs ops) (cq_run (cq_init q0 tag) ops) := by
  rw [← enc_all_runs_length, ← enc_open_length] at hfit
  induction ops using List.reverseRecOn with
  | nil => exact built_init q0 tag
  | append_singleton ops o ih =>
    rw [runs_snoc] at hfit
    rw [cq_run_snoc, runs_snoc]
    exact built_step q0 _ tag _ o hq0
      (ih (Nat.le_trans (enc_open_absorb_ge _ o) hfit)) hfit

/-! ### Execution -/

theorem cq_exec_none (icc : icc_fn) (q : i2c_cmdqueue) (h : q.cmd = none) :
    cq_exec icc q = { res := 0, q := q, calls := [] } := by
  simp [cq_exec, h]

theorem cq_exec_calls (icc : icc_fn) (q : i2c_cmdqueue) (c : Nat) (h : q.cmd = some c) :
    (cq_exec icc q).calls =
      [{ major := 0x10, minor := 0, data := req_bytes (cq_finalize q c),
         length := (cq_finalize q c).req_length, reply_length := REPLY_SIZE }] := by
  simp only [cq_exec, h]
  split_ifs <;> rfl

theorem cq_exec_q (icc : icc_fn) (q : i2c_cmdqueue) (c : Nat) (h : q.cmd = some c) :
    (cq_exec icc q).q = { cq_finalize q c with reply := (exec_icc icc q c).2 } := by
  simp only [cq_exec, h, exec_icc]
  split_ifs <;> rfl

theorem cq_exec_res (icc : icc_fn) (q : i2c_cmdqueue) (c : Nat) (h : q.cmd = some c) :
    (cq_exec icc q).res =
      if (exec_icc icc q c).1 < 5 then -EIO_val
      else if (exec_icc icc q c).2.res1 ≠ 0 ∨ (exec_icc icc q c).2.res2 ≠ 0 then -EIO_val
      else (exec_icc icc q c).1 := by
  simp only [cq_exec, h, exec_icc]
  split_ifs <;> rfl

/-- Finalization of a built queue: the open group gets its length, the request its length. -/
theorem built_finalize (q0 q : i2c_cmdqueue) (tag : Nat) (closed : List cq_group)
    (kg : cq_group)
    (h : Built q0 tag (closed ++ [kg]) q)
    (hfit : (enc_all (closed ++ [kg])).length ≤ CMDBUF_SIZE) :
    q.cmd = some (enc_all closed).length ∧
    cq_finalize q (enc_all closed).length =
      { q with cmdbuf := enc_all (closed ++ [kg]) ++ q0.cmdbuf.drop q.p,
               req_length := q.p + REQ_HDR_SIZE } := by
  obtain ⟨k, g⟩ := kg
  have hW : enc_open (closed ++ [(k, g)])
      = enc_all closed ++ [k.major, 0, k.minor, u8 g.length] ++ group_operands g := by
    simp [enc_open_concat, enc_cur]
  have hp : q.p = (enc_all closed).length + 4 + (group_operands g).length := by
    rw [h.cursor, hW]; simp; omega
  have hb : q.cmdbuf = enc_all closed ++ [k.major, 0, k.minor, u8 g.length]
      ++ group_operands g ++ q0.cmdbuf.drop q.p := by
    have := h.buf
    rw [← h.cursor, hW] at this
    exact this
  have hc : q.cmd = some (enc_all closed).length := by rw [h.cmd, cur_off_concat]
  have hpN : q.p ≤ CMDBUF_SIZE := by
    rw [h.cursor, enc_open_length]; exact hfit
  have hclose := cq_close_group_eq q _ (enc_all closed) (group_operands g) (q0.cmdbuf.drop q.p)
    k.major 0 k.minor (u8 g.length) hc rfl hb hp hpN
  refine ⟨hc, ?_⟩
  have hfin : cq_finalize q (enc_all closed).length
      = { cq_close_group q with req_length := u16_of_int ((q.p : Int) + (REQ_HDR_SIZE : Int)) } := by
    simp [cq_finalize, cq_close_group, hc]
  have hlen : u16_of_int ((q.p : Int) + (REQ_HDR_SIZE : Int)) = q.p + REQ_HDR_SIZE := by
    unfold u16_of_int
    simp only [CMDBUF_SIZE, REQ_HDR_SIZE] at hpN ⊢
    omega
  rw [hfin, hlen, hclose, enc_all_concat]
  simp [enc_closed, CMD_HDR_SIZE]

/-- The first `length` bytes of a finalized request. -/
theorem request_eq (q : i2c_cmdqueue) (E R : List Nat) (hb : q.cmdbuf = E ++ R)
    (hl : q.req_length = E.length + REQ_HDR_SIZE) :
    request q = [q.req_code, q.req_length % 256, q.req_length / 256, q.req_count] ++ E := by
  simp [request, req_bytes, hb, hl, REQ_HDR_SIZE, List.take_append_eq_append_take]

theorem runs_ne_nil (ops : List cq_op) (h : ops ≠ []) : runs ops ≠ [] := by
  intro hr
  have := runs_flatten ops
  rw [hr] at this
  exact h this.symm

theorem cons_run_length_le (o : cq_op) (gs : List cq_group) :
    (cons_run o gs).length ≤ gs.length + 1 := by
  match gs with
  | [] => simp [cons_run]
  | (k, g) :: gs => by_cases h : o.kind = k <;> simp [cons_run, h]

theorem runs_length_le (ops : List cq_op) : (runs ops).length ≤ ops.length := by
  induction ops with
  | nil => simp [runs]
  | cons o rest ih =>
    have := cons_run_length_le o (runs rest)
    simp only [runs, List.length_cons]
    omega

theorem size_sum_ge (ops : List cq_op) :
    4 * ops.length ≤ (ops.map (fun o => o.kind.size)).sum := by
  induction ops with
  | nil => simp
  | cons o rest ih =>
    have : 4 ≤ o.kind.size := by cases o <;> simp [cq_op.kind, cq_kind.size]
    simp only [List.length_cons, List.map_cons, List.sum_cons]
    omega

/-- A sequence that fits has at most 253 groups: the 8-bit group count does not wrap. -/
theorem runs_length_le_253 (ops : List cq_op) (hfit : payload_size ops ≤ CMDBUF_SIZE) :
    (runs ops).length ≤ 253 := by
  have h1 := runs_length_le ops
  have h2 := size_sum_ge ops
  simp only [payload_size, CMD_HDR_SIZE, CMDBUF_SIZE] at hfit
  omega

/-- The queue handed to the transport after a non-empty append sequence that fits. -/
theorem run_finalize (q0 : i2c_cmdqueue) (tag : Nat) (ops : List cq_op)
    (hq0 : q0.cmdbuf.length = CMDBUF_SIZE) (hfit : payload_size ops ≤ CMDBUF_SIZE)
    (hne : ops ≠ []) :
    ∃ c, (cq_run (cq_init q0 tag) ops).cmd = some c ∧
      cq_finalize (cq_run (cq_init q0 tag) ops) c =
        { req_code := u8 tag, req_length := payload_size ops + REQ_HDR_SIZE,
          req_count := (runs ops).length,
          cmdbuf := enc_all (runs ops) ++ q0.cmdbuf.drop (payload_size ops),
          reply := q0.reply, p := payload_size ops, cmd := some c } := by
  have hb := built_run q0 tag ops hq0 hfit
  rcases List.eq_nil_or_concat (runs ops) with hr | ⟨closed, kg, hr⟩
  · exact absurd hr (runs_ne_nil ops hne)
  · rw [List.concat_eq_append] at hr
    have hlen := enc_all_runs_length ops
    have h253 := runs_length_le_253 ops hfit
    have hp : (cq_run (cq_init q0 tag) ops).p = payload_size ops := by
      rw [hb.cursor, enc_open_length, hlen]
    rw [hr] at hb hlen h253
    obtain ⟨hc, hf⟩ := built_finalize q0 _ tag closed kg hb (by rw [hlen]; exact hfit)
    refine ⟨_, hc, ?_⟩
    rw [hf, hr]
    have hcount : u8 (closed.length + 1) = closed.length + 1 := by
      simp only [List.length_append, List.length_singleton] at h253
      unfold u8; omega
    simp [hb.code, hb.count, hb.reply, hp, hc, hcount]

/-! ## Coalescing and order preservation (C1, C2) -/

/-- The payload after `cq_exec`, for every append sequence that fits. -/
theorem run_exec_payload (q0 : i2c_cmdqueue) (tag : Nat) (ops : List cq_op) (icc : icc_fn)
    (hq0 : q0.cmdbuf.length = CMDBUF_SIZE) (hfit : payload_size ops ≤ CMDBUF_SIZE) :
    (cq_run (cq_init q0 tag) ops).p = payload_size ops ∧
    (cq_exec icc (cq_run (cq_init q0 tag) ops)).q.cmdbuf
      = enc_all (runs ops) ++ q0.cmdbuf.drop (payload_size ops) := by
  have hb := built_run q0 tag ops hq0 hfit
  have hp : (cq_run (cq_init q0 tag) ops).p = payload_size ops := by
    rw [hb.cursor, enc_open_length, enc_all_runs_length]
  refine ⟨hp, ?_⟩
  by_cases hne : ops = []
  · subst hne
    simp [cq_run, cq_exec_none, cq_init, runs, enc_all, payload_size]
  · obtain ⟨c, hc, hf⟩ := run_finalize q0 tag ops hq0 hfit hne
    rw [cq_exec_q icc _ c hc, hf]

theorem take_payload (E R : List Nat) (n : Nat) (h : E.length = n) : (E ++ R).take n = E := by
  subst h; simp

theorem enc_closed_eq_exact (kg : cq_group)
    (h : CMD_HDR_SIZE + (kg.2.map (fun o => o.kind.size)).sum ≤ 255) :
    enc_closed kg = enc_exact kg := by
  have h1 := group_operands_length kg.2
  have h2 := size_sum_ge kg.2
  have h3 : u8 (CMD_HDR_SIZE + (group_operands kg.2).length)
      = CMD_HDR_SIZE + (kg.2.map (fun o => o.kind.size)).sum := by
    rw [h1]; unfold u8; omega
  have h4 : u8 kg.2.length = kg.2.length := by
    unfold u8; simp only [CMD_HDR_SIZE] at h; omega
  simp [enc_closed, enc_exact, h3, h4]

theorem flatMap_enc_exact (gs : List cq_group)
    (h : ∀ kg ∈ gs, CMD_HDR_SIZE + (kg.2.map (fun o => o.kind.size)).sum ≤ 255) :
    enc_all gs = gs.flatMap enc_exact := by
  induction gs with
  | nil => rfl
  | cons x xs ih =>
    have hx := enc_closed_eq_exact x (h x (List.mem_cons_self _ _))
    have hxs := ih (fun kg hkg => h kg (List.mem_cons_of_mem _ hkg))
    simp only [enc_all, List.flatMap_cons] at hxs ⊢
    rw [hx, hxs]

theorem runs_replicate (o : cq_op) (n : Nat) :
    runs (List.replicate (n + 1) o) = [(o.kind, List.replicate (n + 1) o)] := by
  induction n with
  | zero => rfl
  | succ n ih =>
    show cons_run o (runs (List.replicate (n + 1) o)) = _
    rw [ih]
    simp [cons_run, List.replicate_succ]

/-- Claim C1, as the code has it. After `cq_init` and any append sequence whose encoding
fits in the 2028-byte payload, `cq_exec` leaves in the payload exactly one command group
per maximal run of consecutive same-kind appends, in input order (the runs concatenate to
the input, each is non-empty and of one kind, neighbouring runs differ in kind). The two
8-bit header fields hold the run length and 4 plus the operand sizes modulo 256; they are
the exact values whenever every group is at most 255 bytes long. -/
theorem C1_coalescing (q0 : i2c_cmdqueue) (tag : Nat) (ops : List cq_op) (icc : icc_fn)
    (hq0 : q0.cmdbuf.length = CMDBUF_SIZE) (hfit : payload_size ops ≤ CMDBUF_SIZE) :
    (runs ops).flatMap Prod.snd = ops ∧
    (∀ kg ∈ runs ops, kg.2 ≠ [] ∧ ∀ o ∈ kg.2, o.kind = kg.1) ∧
    List.Chain' (fun a b : cq_group => a.1 ≠ b.1) (runs ops) ∧
    (cq_run (cq_init q0 tag) ops).p = payload_size ops ∧
    (cq_exec icc (cq_run (cq_init q0 tag) ops)).q.cmdbuf.take (payload_size ops)
      = (runs ops).flatMap enc_closed ∧
    ((∀ kg ∈ runs ops, CMD_HDR_SIZE + (kg.2.map (fun o => o.kind.size)).sum ≤ 255) →
      (cq_exec icc (cq_run (cq_init q0 tag) ops)).q.cmdbuf.take (payload_size ops)
        = (runs ops).flatMap enc_exact) := by
  obtain ⟨hp, hbuf⟩ := run_exec_payload q0 tag ops icc hq0 hfit
  have htake : (cq_exec icc (cq_run (cq_init q0 tag) ops)).q.cmdbuf.take (payload_size ops)
      = enc_all (runs ops) := by
    rw [hbuf]
    exact take_payload _ _ _ (enc_all_runs_length ops)
  refine ⟨runs_flatten ops, runs_uniform ops, runs_maximal ops, hp, htake, ?_⟩
  intro hsmall
  rw [htake]
  exact flatMap_enc_exact _ hsmall

/-- Witness for `C1_coalescing`: the fixture sequence on a zeroed queue. -/
theorem C1_coalescing_witness :
    (cq_exec (icc_reply 5 0 0 0 0 0) (cq_run (cq_init q_zero 4)
        [.writereg 0x7203 0, .writereg 0x7006 0x12, .wait_clear 0x7a84 1])).q.cmdbuf.take
      (payload_size [.writereg 0x7203 0, .writereg 0x7006 0x12, .wait_clear 0x7a84 1])
      = (runs [.writereg 0x7203 0, .writereg 0x7006 0x12, .wait_clear 0x7a84 1]).flatMap
          enc_exact :=
  (C1_coalescing q_zero 4 [.writereg 0x7203 0, .writereg 0x7006 0x12, .wait_clear 0x7a84 1]
    (icc_reply 5 0 0 0 0 0) (by simp [q_zero]) (by decide)).2.2.2.2.2 (by decide)

/-- Claim C1 as stated fails: 64 consecutive writes fit in the payload (260 bytes) and form
one run, but the finalized payload is not the group with the exact fields (length 260): the
8-bit length field holds 4. -/
theorem C1_counterexample :
    payload_size (ops_writes 64) ≤ CMDBUF_SIZE ∧
    runs (ops_writes 64) = [(cq_kind.write, ops_writes 64)] ∧
    (cq_exec (icc_reply 5 0 0 0 0 0) (cq_run (cq_init q_zero 4) (ops_writes 64))).q.cmdbuf.take
      (payload_size (ops_writes 64)) ≠ (runs (ops_writes 64)).flatMap enc_exact ∧
    ((cq_exec (icc_reply 5 0 0 0 0 0) (cq_run (cq_init q_zero 4) (ops_writes 64))).q.cmdbuf.take
      (payload_size (ops_writes 64))).getD 1 0 = 4 ∧
    ((runs (ops_writes 64)).flatMap enc_exact).getD 1 0 = 260 := by
  have hfit : payload_size (ops_writes 64) ≤ CMDBUF_SIZE := by decide
  have hruns : runs (ops_writes 64) = [(cq_kind.write, ops_writes 64)] :=
    runs_replicate (cq_op.writereg 0x7203 0) 63
  obtain ⟨_, hbuf⟩ := run_exec_payload q_zero 4 (ops_writes 64)
    (icc_reply 5 0 0 0 0 0) (by simp [q_zero]) hfit
  have htake := take_payload (enc_all (runs (ops_writes 64)))
    (q_zero.cmdbuf.drop (payload_size (ops_writes 64))) _ (enc_all_runs_length _)
  rw [← hbuf] at htake
  have hsum : ((ops_writes 64).map (fun o => o.kind.size)).sum = 256 := by
    simp [ops_writes, cq_op.kind, cq_kind.size, -List.reduceReplicate]
  have h4 : (enc_all (runs (ops_writes 64))).getD 1 0 = 4 := by
    rw [hruns]
    simp [enc_all, enc_closed, group_operands_length, hsum, u8, CMD_HDR_SIZE]
  have h260 : ((runs (ops_writes 64)).flatMap enc_exact).getD 1 0 = 260 := by
    rw [hruns]
    simp [enc_exact, hsum, CMD_HDR_SIZE]
  refine ⟨hfit, hruns, ?_, ?_, h260⟩
  · rw [htake]
    intro heq
    rw [heq, h260] at h4
    exact absurd h4 (by decide)
  · rw [htake]
    exact h4

/-! ### Decoding -/

theorem hi_byte (a : Nat) (h : a < 65536) : u8 (u16 a >>> 8) = a / 256 := by
  unfold u8 u16
  rw [Nat.mod_eq_of_lt h, Nat.shiftRight_eq_div_pow]
  have : a / 2 ^ 8 < 256 := by
    rw [Nat.div_lt_iff_lt_mul (by norm_num)]; omega
  rw [Nat.mod_eq_of_lt this]
  norm_num

theorem lo_byte (a : Nat) (h : a < 65536) : u8 (u16 a &&& 0xff) = a % 256 := by
  unfold u8 u16
  rw [Nat.mod_eq_of_lt h]
  have : a &&& 0xff = a % 256 := Nat.and_pow_two_sub_one_eq_mod a 8
  rw [this]
  exact Nat.mod_mod _ _

theorem u8_of_lt (a : Nat) (h : a < 256) : u8 a = a := Nat.mod_eq_of_lt h

theorem bytes_join (a : Nat) : a / 256 * 256 + a % 256 = a := Nat.div_add_mod' a 256

theorem decode_operand_operand (o : cq_op) (h : o.valid) :
    decode_operand o.kind o.operand = some o := by
  cases o <;>
    simp_all [cq_op.valid, cq_op.kind, cq_op.operand, decode_operand, hi_byte, lo_byte,
      u8_of_lt, bytes_join]

theorem decode_operands_group (k : cq_kind) (g : List cq_op) (rest : List Nat)
    (hk : ∀ o ∈ g, o.kind = k) (hv : ∀ o ∈ g, o.valid) :
    decode_operands k g.length (group_operands g ++ rest) = some (g, rest) := by
  induction g with
  | nil => simp [decode_operands, group_operands]
  | cons o g ih =>
    have hko : o.kind = k := hk o (List.mem_cons_self _ _)
    have hlen : o.operand.length = k.size := by rw [operand_length, hko]
    have hcat : group_operands (o :: g) ++ rest = o.operand ++ (group_operands g ++ rest) := by
      simp [group_operands]
    have htake : (o.operand ++ (group_operands g ++ rest)).take k.size = o.operand := by
      rw [← hlen]; simp
    have hdrop : (o.operand ++ (group_operands g ++ rest)).drop k.size
        = group_operands g ++ rest := by
      rw [← hlen]; simp
    have hdec : decode_operand k o.operand = some o := by
      rw [← hko]; exact decode_operand_operand o (hv o (List.mem_cons_self _ _))
    simp only [List.length_cons, decode_operands, hcat, htake, hdrop, hdec,
      ih (fun x hx => hk x (List.mem_cons_of_mem _ hx))
        (fun x hx => hv x (List.mem_cons_of_mem _ hx))]

theorem kind_of_opcode_kind (k : cq_kind) : kind_of_opcode k.major k.minor = some k := by
  cases k <;> rfl

theorem decode_groups_enc (gs : List cq_group) (rest : List Nat)
    (hk : ∀ kg ∈ gs, ∀ o ∈ kg.2, o.kind = kg.1)
    (hv : ∀ kg ∈ gs, ∀ o ∈ kg.2, o.valid)
    (hn : ∀ kg ∈ gs, kg.2.length ≤ 255) :
    decode_groups gs.length (enc_all gs ++ rest) = some (gs.flatMap Prod.snd, rest) := by
  induction gs with
  | nil => simp [decode_groups, enc_all]
  | cons x xs ih =>
    obtain ⟨k, g⟩ := x
    have hx := List.mem_cons_self (k, g) xs
    have hcnt : u8 g.length = g.length := u8_of_lt _ (by have := hn _ hx; simp at this; omega)
    have hcat : enc_all ((k, g) :: xs) ++ rest
        = k.major :: u8 (CMD_HDR_SIZE + (group_operands g).length) :: k.minor :: g.length
            :: (group_operands g ++ (enc_all xs ++ rest)) := by
      simp [enc_all, enc_closed, hcnt]
    rw [hcat]
    simp only [List.length_cons, decode_groups, kind_of_opcode_kind,
      decode_operands_group k g _ (hk _ hx) (hv _ hx),
      ih (fun kg h => hk kg (List.mem_cons_of_mem _ h))
        (fun kg h => hv kg (List.mem_cons_of_mem _ h))
        (fun kg h => hn kg (List.mem_cons_of_mem _ h))]
    simp

theorem runs_valid (ops : List cq_op) (hv : ∀ o ∈ ops, o.valid) :
    ∀ kg ∈ runs ops, ∀ o ∈ kg.2, o.valid := by
  intro kg hkg o ho
  apply hv
  rw [← runs_flatten ops]
  exact List.mem_flatMap.2 ⟨kg, hkg, ho⟩

/-- The queue after `cq_exec`, for a non-empty append sequence that fits. -/
theorem run_exec_q (q0 : i2c_cmdqueue) (tag : Nat) (ops : List cq_op) (icc : icc_fn)
    (hq0 : q0.cmdbuf.length = CMDBUF_SIZE) (hfit : payload_size ops ≤ CMDBUF_SIZE)
    (hne : ops ≠ []) :
    ∃ c r, (cq_run (cq_init q0 tag) ops).cmd = some c ∧
      (cq_exec icc (cq_run (cq_init q0 tag) ops)).q =
        { req_code := u8 tag, req_length := payload_size ops + REQ_HDR_SIZE,
          req_count := (runs ops).length,
          cmdbuf := enc_all (runs ops) ++ q0.cmdbuf.drop (payload_size ops),
          reply := r, p := payload_size ops, cmd := some c } ∧
      (cq_exec icc (cq_run (cq_init q0 tag) ops)).calls =
        [{ major := 0x10, minor := 0,
           data := [u8 tag, (payload_size ops + REQ_HDR_SIZE) % 256,
                    (payload_size ops + REQ_HDR_SIZE) / 256, (runs ops).length]
                   ++ (enc_all (runs ops) ++ q0.cmdbuf.drop (payload_size ops)),
           length := payload_size ops + REQ_HDR_SIZE, reply_length := REPLY_SIZE }] := by
  obtain ⟨c, hc, hf⟩ := run_finalize q0 tag ops hq0 hfit hne
  refine ⟨c, (exec_icc icc (cq_run (cq_init q0 tag) ops) c).2, hc, ?_, ?_⟩
  · rw [cq_exec_q icc _ c hc, hf]
  · rw [cq_exec_calls icc _ c hc, hf]
    rfl

theorem take_request (h0 h1 h2 h3 : Nat) (E R : List Nat) :
    ([h0, h1, h2, h3] ++ (E ++ R)).take (E.length + REQ_HDR_SIZE) = [h0, h1, h2, h3] ++ E := by
  simp [REQ_HDR_SIZE, List.take_append_eq_append_take]

/-- Claim C2, as the code has it. For every sequence of appends with arguments in their C
types that fits in the payload and whose runs have at most 255 operations each, decoding
the finalized request buffer group by group (opcode, operation count, then that many
operand blocks) gives back exactly the appended sequence, in order; behind the last group
lie the untouched bytes of the buffer, and the bytes handed to the transport decode to the
sequence with nothing left over. -/
theorem C2_round_trip (q0 : i2c_cmdqueue) (tag : Nat) (ops : List cq_op) (icc : icc_fn)
    (hq0 : q0.cmdbuf.length = CMDBUF_SIZE) (hfit : payload_size ops ≤ CMDBUF_SIZE)
    (hv : ∀ o ∈ ops, o.valid) (h255 : ∀ kg ∈ runs ops, kg.2.length ≤ 255) :
    decode_request (req_bytes (cq_exec icc (cq_run (cq_init q0 tag) ops)).q)
      = some (ops, q0.cmdbuf.drop (payload_size ops)) ∧
    (ops ≠ [] → ∃ c, (cq_exec icc (cq_run (cq_init q0 tag) ops)).calls = [c] ∧
      decode_request (c.data.take c.length) = some (ops, [])) := by
  have hdec := fun rest => decode_groups_enc (runs ops) rest
    (fun kg h => (runs_uniform ops kg h).2) (runs_valid ops hv) h255
  rw [runs_flatten] at hdec
  constructor
  · by_cases hne : ops = []
    · subst hne
      simp [cq_run, cq_exec_none, cq_init, req_bytes, decode_request, decode_groups,
        payload_size, runs]
    · obtain ⟨c, r, _, hq, _⟩ := run_exec_q q0 tag ops icc hq0 hfit hne
      rw [hq]
      simp only [req_bytes, List.cons_append, List.nil_append, decode_request]
      exact hdec _
  · intro hne
    obtain ⟨c, r, _, _, hcalls⟩ := run_exec_q q0 tag ops icc hq0 hfit hne
    refine ⟨_, hcalls, ?_⟩
    simp only []
    rw [← enc_all_runs_length ops, take_request]
    simp only [List.cons_append, List.nil_append, decode_request]
    have := hdec []
    rwa [List.append_nil] at this

/-- Witness for `C2_round_trip`: the fixture sequence on a zeroed queue. -/
theorem C2_round_trip_witness :
    decode_request (req_bytes (cq_exec (icc_reply 5 0 0 0 0 0) (cq_run (cq_init q_zero 4)
        [.writereg 0x7203 0, .writereg 0x7006 0x12, .wait_clear 0x7a84 1])).q)
      = some ([.writereg 0x7203 0, .writereg 0x7006 0x12, .wait_clear 0x7a84 1],
          q_zero.cmdbuf.drop
            (payload_size [.writereg 0x7203 0, .writereg 0x7006 0x12, .wait_clear 0x7a84 1])) :=
  (C2_round_trip q_zero 4 [.writereg 0x7203 0, .writereg 0x7006 0x12, .wait_clear 0x7a84 1]
    (icc_reply 5 0 0 0 0 0) (by simp [q_zero]) (by decide) (by decide) (by decide)).1

theorem payload_size_replicate (o : cq_op) (n : Nat) :
    payload_size (List.replicate (n + 1) o) = CMD_HDR_SIZE + (n + 1) * o.kind.size := by
  rw [payload_size, runs_replicate]
  simp

/-- Claim C2 as stated fails: 256 consecutive writes have arguments in range and fit in the
payload (1028 bytes), but the 8-bit operation count of their group wraps to 0, so decoding
the finalized request by opcode and operation count yields no operation at all. -/
theorem C2_counterexample :
    payload_size (ops_writes 256) ≤ CMDBUF_SIZE ∧
    (∀ o ∈ ops_writes 256, o.valid) ∧
    (decode_request (req_bytes (cq_exec (icc_reply 5 0 0 0 0 0)
        (cq_run (cq_init q_zero 4) (ops_writes 256))).q)).map Prod.fst = some [] ∧
    (decode_request (req_bytes (cq_exec (icc_reply 5 0 0 0 0 0)
        (cq_run (cq_init q_zero 4) (ops_writes 256))).q)).map Prod.fst
      ≠ some (ops_writes 256) := by
  have hps : payload_size (ops_writes 256) = 1028 :=
    payload_size_replicate (cq_op.writereg 0x7203 0) 255
  have hfit : payload_size (ops_writes 256) ≤ CMDBUF_SIZE := by
    rw [hps]; decide
  have hruns : runs (ops_writes 256) = [(cq_kind.write, ops_writes 256)] :=
    runs_replicate (cq_op.writereg 0x7203 0) 255
  have hlen : (ops_writes 256).length = 256 := List.length_replicate _ _
  have hne : ops_writes 256 ≠ [] := by
    intro h
    rw [h] at hlen
    exact absurd hlen (by decide)
  have hdec : (decode_request (req_bytes (cq_exec (icc_reply 5 0 0 0 0 0)
      (cq_run (cq_init q_zero 4) (ops_writes 256))).q)).map Prod.fst = some [] := by
    obtain ⟨c, r, _, hq, _⟩ := run_exec_q q_zero 4 (ops_writes 256) (icc_reply 5 0 0 0 0 0)
      (by simp [q_zero]) hfit hne
    rw [hq, hruns]
    simp [req_bytes, decode_request, enc_all, enc_closed, decode_groups, hlen, u8,
      cq_kind.major, cq_kind.minor, kind_of_opcode, decode_operands]
  refine ⟨hfit, ?_, hdec, ?_⟩
  · intro o ho
    rw [List.eq_of_mem_replicate ho]
    decide
  · rw [hdec]
    intro h
    exact hne (Option.some.inj h).symm

/-! ## Capacity (C3) -/

/-- Four stores through a cursor that stands at the end of `cmdbuf`: the bytes land in the
first four bytes of `reply`. -/
theorem put4_reply (q : i2c_cmdqueue) (a b c d : Nat) (hp : q.p = CMDBUF_SIZE) :
    put (put (put (put q a) b) c) d
      = { q with reply := { q.reply with res1 := a, res2 := b, unk1 := c, unk2 := d },
                 p := CMDBUF_SIZE + 4 } := by
  simp [put, store, reply_store, hp, CMDBUF_SIZE, REPLY_SIZE, DATABUF_SIZE]

@[simp] theorem store_cmdbuf_length (q : i2c_cmdqueue) (off v : Nat) :
    (store q off v).cmdbuf.length = q.cmdbuf.length := by
  unfold store; split_ifs <;> simp

/-- Claim C3, as the code has it. The appends make no capacity check and have no error
result; capacity is the caller's obligation. Every append after which the encoding still
fits in the 2028-byte payload moves the cursor forward to the size of the encoding, within
the payload, and writes below the new cursor only: the payload bytes from the new cursor
on, the reply buffer, the request code and the request length are left as they were. -/
theorem C3_capacity (q0 : i2c_cmdqueue) (tag : Nat) (ops : List cq_op) (o : cq_op)
    (hq0 : q0.cmdbuf.length = CMDBUF_SIZE)
    (hfit : payload_size (ops ++ [o]) ≤ CMDBUF_SIZE) :
    (cq_run (cq_init q0 tag) ops).p ≤ (cq_apply (cq_run (cq_init q0 tag) ops) o).p ∧
    (cq_apply (cq_run (cq_init q0 tag) ops) o).p = payload_size (ops ++ [o]) ∧
    (cq_apply (cq_run (cq_init q0 tag) ops) o).cmdbuf.length = CMDBUF_SIZE ∧
    (cq_apply (cq_run (cq_init q0 tag) ops) o).cmdbuf.drop (payload_size (ops ++ [o]))
      = q0.cmdbuf.drop (payload_size (ops ++ [o])) ∧
    (cq_apply (cq_run (cq_init q0 tag) ops) o).reply = q0.reply ∧
    (cq_apply (cq_run (cq_init q0 tag) ops) o).req_code = u8 tag ∧
    (cq_apply (cq_run (cq_init q0 tag) ops) o).req_length = q0.req_length := by
  have hb := built_run q0 tag (ops ++ [o]) hq0 hfit
  rw [cq_run_snoc] at hb
  have hlen : (enc_open (runs (ops ++ [o]))).length = payload_size (ops ++ [o]) := by
    rw [enc_open_length, enc_all_runs_length]
  refine ⟨cq_apply_p_ge _ o, ?_, ?_, ?_, hb.reply, hb.code, hb.length⟩
  · rw [hb.cursor, hlen]
  · rw [hb.buf, List.length_append, List.length_drop, hlen, hq0]
    omega
  · rw [hb.buf, ← hlen]
    simp

/-- Witness for `C3_capacity`: a third write after two on a zeroed queue. -/
theorem C3_capacity_witness :
    (cq_apply (cq_run (cq_init q_zero 4) [.writereg 0x7203 0, .writereg 0x7006 0x12])
      (.wait_clear 0x7a84 1)).reply = q_zero.reply :=
  (C3_capacity q_zero 4 [.writereg 0x7203 0, .writereg 0x7006 0x12] (.wait_clear 0x7a84 1)
    (by simp [q_zero]) (by decide)).2.2.2.2.1

/-- Claim C3 as stated fails: 506 writes fill the 2028-byte payload exactly; the next
`cq_writereg` is carried out like any other, without an error: the cursor moves 4 bytes past
the payload and the four operand bytes land in the first four bytes of the reply struct. -/
theorem C3_counterexample :
    (cq_run (cq_init q_zero 4) (ops_writes 506)).p = CMDBUF_SIZE ∧
    (cq_run (cq_init q_zero 4) (ops_writes 506)).reply = q_zero.reply ∧
    (cq_writereg (cq_run (cq_init q_zero 4) (ops_writes 506)) 0x7203 0xab).p
      = CMDBUF_SIZE + 4 ∧
    (cq_writereg (cq_run (cq_init q_zero 4) (ops_writes 506)) 0x7203 0xab).reply
      = { q_zero.reply with res1 := 1, res2 := 0x72, unk1 := 0x03, unk2 := 0xab } ∧
    (cq_writereg (cq_run (cq_init q_zero 4) (ops_writes 506)) 0x7203 0xab).reply
      ≠ q_zero.reply := by
  have hps : payload_size (ops_writes 506) = CMDBUF_SIZE :=
    payload_size_replicate (cq_op.writereg 0x7203 0) 505
  have hruns : runs (ops_writes 506) = [(cq_kind.write, ops_writes 506)] :=
    runs_replicate (cq_op.writereg 0x7203 0) 505
  have hb := built_run q_zero 4 (ops_writes 506) (by simp [q_zero]) (Nat.le_of_eq hps)
  have hp : (cq_run (cq_init q_zero 4) (ops_writes 506)).p = CMDBUF_SIZE := by
    rw [hb.cursor, enc_open_length, enc_all_runs_length, hps]
  rw [hruns] at hb
  have hc : (cq_run (cq_init q_zero 4) (ops_writes 506)).cmd = some 0 := hb.cmd
  have hbuf : (cq_run (cq_init q_zero 4) (ops_writes 506)).cmdbuf
      = [] ++ [2, 0, 2, u8 (ops_writes 506).length]
          ++ (group_operands (ops_writes 506)
              ++ q_zero.cmdbuf.drop (enc_open [(cq_kind.write, ops_writes 506)]).length) := by
    rw [hb.buf]
    simp [enc_open, enc_cur, cq_kind.major, cq_kind.minor]
  have hcmd := cq_cmd_same (cq_run (cq_init q_zero 4) (ops_writes 506)) 0 [] _ 2 0 2 _ hc rfl
    hbuf (by decide)
  have hres : (cq_writereg (cq_run (cq_init q_zero 4) (ops_writes 506)) 0x7203 0xab).p
        = CMDBUF_SIZE + 4 ∧
      (cq_writereg (cq_run (cq_init q_zero 4) (ops_writes 506)) 0x7203 0xab).reply
        = { q_zero.reply with res1 := 1, res2 := 0x72, unk1 := 0x03, unk2 := 0xab } := by
    have hp2 : (cq_cmd (cq_run (cq_init q_zero 4) (ops_writes 506)) 2 2).p = CMDBUF_SIZE := by
      simp only [hcmd, hp]
    have hr2 : (cq_cmd (cq_run (cq_init q_zero 4) (ops_writes 506)) 2 2).reply = q_zero.reply := by
      simp only [hcmd, hb.reply]
    have hw : cq_writereg (cq_run (cq_init q_zero 4) (ops_writes 506)) 0x7203 0xab
        = put (put (put (put (cq_cmd (cq_run (cq_init q_zero 4) (ops_writes 506)) 2 2) 1)
            (u8 (u16 0x7203 >>> 8))) (u8 (u16 0x7203 &&& 0xff))) (u8 0xab) := rfl
    rw [hw, put4_reply _ _ _ _ _ hp2]
    refine ⟨rfl, ?_⟩
    simp only [hr2]
    rfl
  refine ⟨hp, hb.reply, hres.1, hres.2, ?_⟩
  rw [hres.2]
  simp [q_zero]

/-! ### Execution and reply validation (C4, C5, C9) -/

theorem q_probe_cmd : q_probe.cmd = some 0 := by
  have hb := built_run q_zero 4 [.read 0x7008 1] (by simp [q_zero]) (by decide)
  exact hb.cmd

/-- Claim C4. For a queue with a group open, `cq_exec` fails exactly when the transport
returned fewer than 5 bytes or the reply's `res1` or `res2` is nonzero; a failure is the
value `-EIO`, and in every other case the result is the byte count the transport returned.
The reply the caller reads is the one the transport left. With the reply `{0,0,0,0,0}` and
5 bytes received the result is success (5) with data count 0; with `{1,0,0,0,0}` it is a
failure. -/
theorem C4_reply_validation (icc : icc_fn) (q : i2c_cmdqueue) (c : Nat)
    (hc : q.cmd = some c) :
    ((cq_exec icc q).res < 0 ↔
      ((exec_icc icc q c).1 < 5 ∨ (exec_icc icc q c).2.res1 ≠ 0
        ∨ (exec_icc icc q c).2.res2 ≠ 0)) ∧
    (((exec_icc icc q c).1 < 5 ∨ (exec_icc icc q c).2.res1 ≠ 0
        ∨ (exec_icc icc q c).2.res2 ≠ 0) → (cq_exec icc q).res = -EIO_val) ∧
    (¬ ((exec_icc icc q c).1 < 5 ∨ (exec_icc icc q c).2.res1 ≠ 0
        ∨ (exec_icc icc q c).2.res2 ≠ 0) → (cq_exec icc q).res = (exec_icc icc q c).1) ∧
    (cq_exec icc q).q.reply = (exec_icc icc q c).2 ∧
    (cq_exec (icc_reply 5 0 0 0 0 0) q).res = 5 ∧
    (cq_exec (icc_reply 5 0 0 0 0 0) q).q.reply.count = 0 ∧
    (cq_exec (icc_reply 5 1 0 0 0 0) q).res = -EIO_val := by
  have hres := cq_exec_res icc q c hc
  refine ⟨?_, ?_, ?_, ?_, ?_, ?_, ?_⟩
  · rw [hres]
    split_ifs with h1 h2
    · simp [EIO_val, h1]
    · simp [EIO_val, h2]
    · push_neg at h2
      simp only [not_lt] at h1
      constructor
      · intro h; omega
      · rintro (h | h | h)
        · omega
        · exact absurd h2.1 h
        · exact absurd h2.2 h
  · intro h
    rw [hres]
    split_ifs with h1 h2
    · rfl
    · rfl
    · exfalso
      rcases h with h | h | h
      · exact h1 h
      · exact h2 (Or.inl h)
      · exact h2 (Or.inr h)
  · intro h
    rw [hres]
    push_neg at h
    rw [if_neg (by omega), if_neg (by simp [h.2.1, h.2.2])]
  · rw [cq_exec_q icc q c hc]
  · rw [cq_exec_res _ q c hc]
    simp [exec_icc, icc_reply]
  · rw [cq_exec_q _ q c hc]
    simp [exec_icc, icc_reply]
  · rw [cq_exec_res _ q c hc]
    simp [exec_icc, icc_reply]

/-- Witness for `C4_reply_validation`: the presence probe. -/
theorem C4_reply_validation_witness :
    (cq_exec (icc_reply 5 0 0 0 0 0) q_probe).res = 5 ∧
    (cq_exec (icc_reply 5 1 0 0 0 0) q_probe).res = -EIO_val :=
  ⟨(C4_reply_validation (icc_reply 5 0 0 0 0 0) q_probe 0 q_probe_cmd).2.2.2.2.1,
   (C4_reply_validation (icc_reply 5 0 0 0 0 0) q_probe 0 q_probe_cmd).2.2.2.2.2.2⟩

/-- Claim C5, as the code has it. `cq_exec` reports every failure by the one value `-EIO`:
a transport failure (negative return), a truncated reply (0 to 4 bytes) and a failure
reported by the device (at least 5 bytes, `res1` or `res2` nonzero) give the same result,
and the transport's own error value is not passed on. A failure differs from a success,
which returns the byte count received, at least 5. -/
theorem C5_failure_result (icc : icc_fn) (q : i2c_cmdqueue) (c : Nat) (hc : q.cmd = some c) :
    ((exec_icc icc q c).1 < 0 → (cq_exec icc q).res = -EIO_val) ∧
    (0 ≤ (exec_icc icc q c).1 ∧ (exec_icc icc q c).1 < 5 → (cq_exec icc q).res = -EIO_val) ∧
    (5 ≤ (exec_icc icc q c).1 ∧
        ((exec_icc icc q c).2.res1 ≠ 0 ∨ (exec_icc icc q c).2.res2 ≠ 0) →
      (cq_exec icc q).res = -EIO_val) ∧
    (5 ≤ (exec_icc icc q c).1 ∧ (exec_icc icc q c).2.res1 = 0 ∧ (exec_icc icc q c).2.res2 = 0 →
      (cq_exec icc q).res = (exec_icc icc q c).1 ∧ 5 ≤ (cq_exec icc q).res) := by
  have hres := cq_exec_res icc q c hc
  refine ⟨?_, ?_, ?_, ?_⟩
  · intro h
    rw [hres, if_pos (by omega)]
  · intro h
    rw [hres, if_pos h.2]
  · intro h
    rw [hres, if_neg (by omega), if_pos h.2]
  · intro h
    have : (cq_exec icc q).res = (exec_icc icc q c).1 := by
      rw [hres, if_neg (by omega), if_neg (by simp [h.2.1, h.2.2])]
    exact ⟨this, by rw [this]; exact h.1⟩

/-- Witness for `C5_failure_result`: the presence probe with a failing transport. -/
theorem C5_failure_result_witness : (cq_exec (icc_fail (-19)) q_probe).res = -EIO_val :=
  (C5_failure_result (icc_fail (-19)) q_probe 0 q_probe_cmd).1 (by simp [exec_icc, icc_fail])

/-- Claim C5 as stated fails: on the presence probe a transport error `-19` (`-ENODEV`), a
reply truncated to 3 bytes and a reply with `res1 = 1` all make `cq_exec` return the same
value `-EIO`, and the transport's `-19` does not reach the caller. -/
theorem C5_counterexample :
    (cq_exec (icc_fail (-19)) q_probe).res = (cq_exec (icc_reply 3 0 0 0 0 0) q_probe).res ∧
    (cq_exec (icc_reply 3 0 0 0 0 0) q_probe).res
      = (cq_exec (icc_reply 5 1 0 0 0 0) q_probe).res ∧
    (cq_exec (icc_fail (-19)) q_probe).res ≠ -19 := by
  rw [cq_exec_res _ q_probe 0 q_probe_cmd, cq_exec_res _ q_probe 0 q_probe_cmd,
    cq_exec_res _ q_probe 0 q_probe_cmd]
  simp [exec_icc, icc_fail, icc_reply, EIO_val]

/-- Claim C9. For every prior queue state and every tag, `cq_init` followed at once by
`cq_exec` returns 0, makes no transport call, leaves the queue (request and reply buffers
included) as `cq_init` left it, and does so whatever the transport would do. -/
theorem C9_empty_cycle (q : i2c_cmdqueue) (tag : Nat) (icc icc2 : icc_fn) :
    (cq_exec icc (cq_init q tag)).res = 0 ∧
    (cq_exec icc (cq_init q tag)).calls = [] ∧
    (cq_exec icc (cq_init q tag)).q = cq_init q tag ∧
    (cq_exec icc (cq_init q tag)).q.reply = q.reply ∧
    (cq_exec icc (cq_init q tag)).q.cmdbuf = q.cmdbuf ∧
    cq_exec icc (cq_init q tag) = cq_exec icc2 (cq_init q tag) := by
  have h : (cq_init q tag).cmd = none := rfl
  rw [cq_exec_none icc _ h, cq_exec_none icc2 _ h]
  exact ⟨rfl, rfl, rfl, rfl, rfl, rfl⟩

/-! ### Wire layout (C6, C7, C8) -/

theorem enc_all_append (xs ys : List cq_group) : enc_all (xs ++ ys) = enc_all xs ++ enc_all ys := by
  simp [enc_all]

theorem enc_open_append_cons (pre : List cq_group) (kg : cq_group) (post : List cq_group) :
    enc_open (pre ++ kg :: post) = enc_all pre ++ enc_open (kg :: post) := by
  induction pre with
  | nil => simp [enc_all]
  | cons x xs ih =>
    cases xs with
    | nil =>
      show enc_closed x ++ enc_open (kg :: post) = _
      simp [enc_all]
    | cons y ys =>
      have : enc_open (x :: y :: ys ++ kg :: post) = enc_closed x ++ enc_open (y :: ys ++ kg :: post) :=
        rfl
      rw [this, ih]
      simp [enc_all]

theorem enc_open_cons_hdr (kg : cq_group) (post : List cq_group) :
    ∃ rest, enc_open (kg :: post)
      = [kg.1.major,
         if post = [] then 0 else u8 (CMD_HDR_SIZE + (group_operands kg.2).length),
         kg.1.minor, u8 kg.2.length] ++ rest := by
  cases post with
  | nil => exact ⟨group_operands kg.2, by simp [enc_open, enc_cur]⟩
  | cons y ys =>
    refine ⟨group_operands kg.2 ++ enc_open (y :: ys), ?_⟩
    show enc_closed kg ++ enc_open (y :: ys) = _
    simp [enc_closed]

theorem drop_take_hdr (A rest R : List Nat) (a b c d : Nat) :
    ((A ++ ([a, b, c, d] ++ rest) ++ R).drop A.length).take 4 = [a, b, c, d] := by
  simp

/-- Claim C6, as the code has it. Every group header in the payload occupies 4 consecutive
bytes in the order of `struct i2c_cmd_hdr`: major opcode (byte 0), group length (byte 1),
minor opcode (byte 2), operation count (byte 3). This holds for each group both as the
appends leave it (the length byte of the last, still open group is the provisional 0) and
after `cq_exec` has finalized the queue. -/
theorem C6_header_layout (q0 : i2c_cmdqueue) (tag : Nat) (ops : List cq_op) (icc : icc_fn)
    (pre post : List cq_group) (kg : cq_group)
    (hq0 : q0.cmdbuf.length = CMDBUF_SIZE) (hfit : payload_size ops ≤ CMDBUF_SIZE)
    (hruns : runs ops = pre ++ kg :: post) :
    (((cq_run (cq_init q0 tag) ops).cmdbuf.drop (enc_all pre).length).take 4
      = [kg.1.major,
         if post = [] then 0 else u8 (CMD_HDR_SIZE + (group_operands kg.2).length),
         kg.1.minor, u8 kg.2.length]) ∧
    (((cq_exec icc (cq_run (cq_init q0 tag) ops)).q.cmdbuf.drop (enc_all pre).length).take 4
      = [kg.1.major, u8 (CMD_HDR_SIZE + (group_operands kg.2).length), kg.1.minor,
         u8 kg.2.length]) := by
  constructor
  · have hb := built_run q0 tag ops hq0 hfit
    obtain ⟨rest, hrest⟩ := enc_open_cons_hdr kg post
    rw [hb.buf, hruns, enc_open_append_cons, hrest]
    exact drop_take_hdr _ _ _ _ _ _ _
  · obtain ⟨_, hbuf⟩ := run_exec_payload q0 tag ops icc hq0 hfit
    rw [hbuf, hruns, enc_all_append]
    have : enc_all (kg :: post) = [kg.1.major, u8 (CMD_HDR_SIZE + (group_operands kg.2).length),
        kg.1.minor, u8 kg.2.length] ++ (group_operands kg.2 ++ enc_all post) := by
      simp [enc_all, enc_closed]
    rw [this]
    exact drop_take_hdr _ _ _ _ _ _ _

/-- Witness for `C6_header_layout`: the delay of the driver's wire-dump comment,
`03 08 01 01 00 2c 01 00`. -/
theorem C6_header_layout_witness :
    ((cq_exec (icc_reply 5 0 0 0 0 0) (cq_run (cq_init q_zero 4) [.delay 0x012c])).q.cmdbuf.drop
      (enc_all []).length).take 4 = [3, 8, 1, 1] :=
  (C6_header_layout q_zero 4 [.delay 0x012c] (icc_reply 5 0 0 0 0 0) [] []
    (cq_kind.delay, [.delay 0x012c]) (by simp [q_zero]) (by decide) (by decide)).2

/-- Claim C6 as stated fails: for `cq_init(4); cq_delay(0x012c)` the header bytes after
`cq_exec` are `03 08 01 01`, major, length, minor, count, and not `03 01 08 01`, the order
major, minor, length, count. -/
theorem C6_counterexample :
    (cq_exec (icc_reply 5 0 0 0 0 0) (cq_delay (cq_init q_zero 4) 0x012c)).q.cmdbuf.take 4
      = [cq_kind.delay.major, 8, cq_kind.delay.minor, 1] ∧
    (cq_exec (icc_reply 5 0 0 0 0 0) (cq_delay (cq_init q_zero 4) 0x012c)).q.cmdbuf.take 4
      ≠ [cq_kind.delay.major, cq_kind.delay.minor, 8, 1] := by
  have h : (cq_exec (icc_reply 5 0 0 0 0 0) (cq_delay (cq_init q_zero 4) 0x012c)).q.cmdbuf.take 4
      = [cq_kind.delay.major, 8, cq_kind.delay.minor, 1] := by
    have hb := (run_exec_payload q_zero 4 [.delay 0x012c] (icc_reply 5 0 0 0 0 0)
      (by simp [q_zero]) (by decide)).2
    have hq : cq_run (cq_init q_zero 4) [.delay 0x012c] = cq_delay (cq_init q_zero 4) 0x012c :=
      rfl
    rw [hq] at hb
    rw [hb]
    have he : enc_all (runs [.delay 0x012c]) = [3, 8, 1, 1] ++ [0, 0x2c, 1, 0] := by decide
    rw [he]
    simp [cq_kind.major, cq_kind.minor]
  refine ⟨h, ?_⟩
  rw [h]
  decide

theorem cq_close_group_length (q : i2c_cmdqueue) :
    (cq_close_group q).cmdbuf.length = q.cmdbuf.length := by
  unfold cq_close_group; split <;> simp

theorem cq_open_group_length (q : i2c_cmdqueue) (major minor : Nat) :
    (cq_open_group q major minor).cmdbuf.length = q.cmdbuf.length := by
  simp [cq_open_group]

theorem cq_cmd_length (q : i2c_cmdqueue) (major minor : Nat) :
    (cq_cmd q major minor).cmdbuf.length = q.cmdbuf.length := by
  unfold cq_cmd
  split
  · rw [cq_cmd_open, cq_open_group_length, cq_close_group_length]
  · split_ifs
    · rw [cq_cmd_open, cq_open_group_length, cq_close_group_length]
    · simp

/-- The operand bytes of the layout table are the bytes the append stores. -/
theorem op_layout_eq (o : cq_op) (hv : o.valid) :
    op_layout o = (o.kind.major, o.kind.minor, o.operand) := by
  have hs : ∀ a : Nat, a < 65536 → u8 (u16 a >>> 8) = a >>> 8 := by
    intro a ha
    rw [hi_byte a ha, Nat.shiftRight_eq_div_pow]
  have hl : ∀ a : Nat, a < 65536 → u8 (u16 a &&& 0xff) = a &&& 0xff := by
    intro a ha
    rw [lo_byte a ha]
    exact (Nat.and_pow_two_sub_one_eq_mod a 8).symm
  cases o <;>
    simp_all [cq_op.valid, op_layout, cq_op.kind, cq_op.operand, cq_kind.major, cq_kind.minor,
      u8_of_lt]

/-- An append whose `cq_cmd` takes the branch for a new group, with the open group (if any)
closed into the buffer `L`: a header with the kind's opcode and count 1 is written at the
cursor and the operand follows it. -/
theorem cq_apply_opened (q : i2c_cmdqueue) (o : cq_op) (L : List Nat)
    (hL : L.length = CMDBUF_SIZE) (hclose : cq_close_group q = { q with cmdbuf := L })
    (hcmd : cq_cmd q o.kind.major o.kind.minor = cq_cmd_open q o.kind.major o.kind.minor)
    (hfit : q.p + 4 + o.operand.length ≤ CMDBUF_SIZE) :
    cq_apply q o =
      { q with cmd := some q.p, req_count := u8 (q.req_count + 1),
               p := q.p + 4 + o.operand.length,
               cmdbuf := L.take q.p ++ [o.kind.major, 0, o.kind.minor, 1] ++ o.operand
                 ++ L.drop (q.p + 4 + o.operand.length) } := by
  have hopen := cq_open_group_eq { q with cmdbuf := L } o.kind.major o.kind.minor
    (L.take q.p) (L.drop q.p) (by simp) (by simp; omega) (by simp; omega) (by simp; omega)
  have hputs := puts_eq o.operand (cq_cmd q o.kind.major o.kind.minor)
    (L.take q.p ++ [o.kind.major, 0, o.kind.minor, 1]) ((L.drop q.p).drop 4)
    (by rw [hcmd, cq_cmd_open, hclose, hopen])
    (by rw [hcmd]; simp; omega) (by simp; omega) (by simp; omega)
  rw [cq_apply_eq, hputs, hcmd, cq_cmd_open, hclose, hopen]
  simp [List.drop_drop, Nat.add_assoc, Nat.add_comm, Nat.add_left_comm]

/-- An append of the open group's kind: `cq_cmd` increments the group's count byte and the
operand is stored at the cursor. -/
theorem cq_apply_extended (q : i2c_cmdqueue) (o : cq_op) (c : Nat)
    (hq : q.cmdbuf.length = CMDBUF_SIZE) (hc : q.cmd = some c) (hcp : c + 4 ≤ q.p)
    (hfit : q.p + o.operand.length ≤ CMDBUF_SIZE)
    (hmaj : load q c = o.kind.major) (hmin : load q (c + 2) = o.kind.minor) :
    cq_apply q o =
      { q with cmdbuf := (q.cmdbuf.take q.p).set (c + 3) (u8 (load q (c + 3) + 1))
                 ++ o.operand ++ q.cmdbuf.drop (q.p + o.operand.length),
               p := q.p + o.operand.length } := by
  have hcmd : cq_cmd q o.kind.major o.kind.minor
      = { q with cmdbuf := q.cmdbuf.set (c + 3) (u8 (load q (c + 3) + 1)) } := by
    unfold cq_cmd
    simp only [hc, hmaj, hmin]
    rw [if_neg (by simp), store_lt _ _ _ (by omega)]
    simp [hc]
  have hputs := puts_eq o.operand (cq_cmd q o.kind.major o.kind.minor)
    ((q.cmdbuf.take q.p).set (c + 3) (u8 (load q (c + 3) + 1))) (q.cmdbuf.drop q.p)
    (by
      rw [hcmd]
      show q.cmdbuf.set (c + 3) _ = _
      rw [← List.set_take, ← List.drop_set_of_lt (u8 (load q (c + 3) + 1)) q.cmdbuf
        (show c + 3 < q.p by omega), List.take_append_drop])
    (by rw [hcmd]; simp; omega) (by simp; omega) (by simp; omega)
  rw [cq_apply_eq, hputs, hcmd, List.drop_drop]

/-- Closing an open group whose header lies below the cursor stores the group's length byte. -/
theorem cq_close_group_set (q : i2c_cmdqueue) (c : Nat) (hc : q.cmd = some c)
    (hcp : c + 4 ≤ q.p) (hp : q.p ≤ CMDBUF_SIZE) :
    cq_close_group q = { q with cmdbuf := q.cmdbuf.set (c + 1) (u8 (q.p - c)) } := by
  have hlen : u8_of_int ((q.p : Int) - (c : Int)) = u8 (q.p - c) := by
    unfold u8_of_int u8
    omega
  unfold cq_close_group
  simp only [hc, hlen]
  rw [store_lt _ _ _ (by omega)]
  simp [hc]

/-- Claim C7. For arguments within their C types, each append opens or extends a group with
the fixed opcode pair of its kind and then stores exactly the operand bytes of the layout
table at the cursor, advancing the cursor by their number (4, or 5 for a masked write): Read
(1,1) `count, addr>>8, addr&0xff, 0`; Write (2,2) `1, addr>>8, addr&0xff, data`; MaskedWrite
(2,3) `1, addr>>8, addr&0xff, value, mask`; Delay (3,1) `0, time&0xff, time>>8, 0`; WaitSet
(3,2) and WaitClear (3,3) `0, addr>>8, addr&0xff, mask`. The address is stored high byte
first, the delay low byte first. With no group open, the append writes the header `major, 0,
minor, 1` of its kind at the old cursor, points the open group at it, counts it in the
request and stores the operand behind it. With a group of another kind open, it does the
same after storing that group's length. With a group of its own kind open, it adds one to
that group's count byte, leaves the opcode bytes of the header as they are and stores the
operand at the old cursor. -/
theorem C7_operand_layout (q : i2c_cmdqueue) (o : cq_op) (hv : o.valid)
    (hq : q.cmdbuf.length = CMDBUF_SIZE)
    (hfit : (cq_cmd q (op_layout o).1 (op_layout o).2.1).p + (op_layout o).2.2.length
      ≤ CMDBUF_SIZE) :
    (op_layout o).1 = o.kind.major ∧ (op_layout o).2.1 = o.kind.minor ∧
    (op_layout o).2.2.length = o.kind.size ∧
    cq_apply q o =
      { cq_cmd q (op_layout o).1 (op_layout o).2.1 with
        cmdbuf := (cq_cmd q (op_layout o).1 (op_layout o).2.1).cmdbuf.take
            (cq_cmd q (op_layout o).1 (op_layout o).2.1).p
          ++ (op_layout o).2.2
          ++ (cq_cmd q (op_layout o).1 (op_layout o).2.1).cmdbuf.drop
            ((cq_cmd q (op_layout o).1 (op_layout o).2.1).p + (op_layout o).2.2.length),
        p := (cq_cmd q (op_layout o).1 (op_layout o).2.1).p + (op_layout o).2.2.length } ∧
    (q.cmd = none →
      cq_apply q o =
        { q with
          cmd := some q.p, req_count := u8 (q.req_count + 1),
          p := q.p + 4 + (op_layout o).2.2.length,
          cmdbuf := q.cmdbuf.take q.p ++ [(op_layout o).1, 0, (op_layout o).2.1, 1]
            ++ (op_layout o).2.2 ++ q.cmdbuf.drop (q.p + 4 + (op_layout o).2.2.length) }) ∧
    (∀ c, q.cmd = some c → c + 4 ≤ q.p →
      (load q c ≠ (op_layout o).1 ∨ load q (c + 2) ≠ (op_layout o).2.1) →
      cq_apply q o =
        { q with
          cmd := some q.p, req_count := u8 (q.req_count + 1),
          p := q.p + 4 + (op_layout o).2.2.length,
          cmdbuf := (q.cmdbuf.take q.p).set (c + 1) (u8 (q.p - c))
            ++ [(op_layout o).1, 0, (op_layout o).2.1, 1]
            ++ (op_layout o).2.2 ++ q.cmdbuf.drop (q.p + 4 + (op_layout o).2.2.length) }) ∧
    (∀ c, q.cmd = some c → c + 4 ≤ q.p →
      load q c = (op_layout o).1 → load q (c + 2) = (op_layout o).2.1 →
      cq_apply q o =
        { q with
          cmdbuf := (q.cmdbuf.take q.p).set (c + 3) (u8 (load q (c + 3) + 1))
            ++ (op_layout o).2.2 ++ q.cmdbuf.drop (q.p + (op_layout o).2.2.length),
          p := q.p + (op_layout o).2.2.length } ∧
      load (cq_apply q o) c = (op_layout o).1 ∧
      load (cq_apply q o) (c + 2) = (op_layout o).2.1 ∧
      load (cq_apply q o) (c + 3) = u8 (load q (c + 3) + 1)) := by
  rw [op_layout_eq o hv] at hfit ⊢
  simp only at hfit ⊢
  have hlen := cq_cmd_length q o.kind.major o.kind.minor
  refine ⟨trivial, trivial, operand_length o, ?_, ?_, ?_, ?_⟩
  · rw [cq_apply_eq]
    have := puts_eq o.operand (cq_cmd q o.kind.major o.kind.minor)
      ((cq_cmd q o.kind.major o.kind.minor).cmdbuf.take (cq_cmd q o.kind.major o.kind.minor).p)
      ((cq_cmd q o.kind.major o.kind.minor).cmdbuf.drop (cq_cmd q o.kind.major o.kind.minor).p)
      (by simp) (by simp; omega) (by simp; omega) (by simp; omega)
    rw [this, List.drop_drop]
  · intro hn
    have hcmd : cq_cmd q o.kind.major o.kind.minor = cq_cmd_open q o.kind.major o.kind.minor := by
      unfold cq_cmd
      simp only [hn]
    have hclose : cq_close_group q = { q with cmdbuf := q.cmdbuf } := by
      have h : cq_close_group q = q := by
        unfold cq_close_group
        simp only [hn]
      exact h
    rw [hcmd, cq_cmd_open_p] at hfit
    exact cq_apply_opened q o q.cmdbuf hq hclose hcmd hfit
  · intro c hc hcp hne
    have hcmd : cq_cmd q o.kind.major o.kind.minor = cq_cmd_open q o.kind.major o.kind.minor := by
      unfold cq_cmd
      simp only [hc]
      rw [if_pos hne]
    rw [hcmd, cq_cmd_open_p] at hfit
    have hclose := cq_close_group_set q c hc hcp (by omega)
    rw [cq_apply_opened q o (q.cmdbuf.set (c + 1) (u8 (q.p - c))) (by simp [hq]) hclose hcmd hfit,
      List.set_take, List.drop_set_of_lt _ _ (show c + 1 < q.p + 4 + o.operand.length by omega)]
  · intro c hc hcp hmaj hmin
    have hp : (cq_cmd q o.kind.major o.kind.minor).p = q.p := by
      unfold cq_cmd
      simp only [hc, hmaj, hmin]
      rw [if_neg (by simp)]
      simp
    rw [hp] at hfit
    have heq := cq_apply_extended q o c hq hc hcp hfit hmaj hmin
    have hlen1 : ((q.cmdbuf.take q.p).set (c + 3) (u8 (load q (c + 3) + 1))).length = q.p := by
      simp; omega
    have hload : ∀ i, i < q.p → load (cq_apply q o) i
        = ((q.cmdbuf.take q.p).set (c + 3) (u8 (load q (c + 3) + 1))).getD i 0 := by
      intro i hi
      rw [load_lt _ _ (by omega), heq]
      show List.getD (_ ++ _ ++ _) i 0 = _
      rw [List.append_assoc, List.getD_append _ _ _ _ (by omega)]
    have hold : ∀ i, i < q.p → i ≠ c + 3 → load (cq_apply q o) i = load q i := by
      intro i hi hne
      have hli : load q i = q.cmdbuf.getD i 0 := load_lt _ _ (by omega)
      rw [hload i hi, hli]
      simp [List.getD_eq_getElem?_getD, List.getElem?_set, List.getElem?_take, hi,
        Ne.symm hne]
    refine ⟨heq, ?_, ?_, ?_⟩
    · rw [hold c (by omega) (by omega), hmaj]
    · rw [hold (c + 2) (by omega) (by omega), hmin]
    · have h1 : c + 3 < q.p := by omega
      have h2 : c + 3 < q.cmdbuf.length := by omega
      rw [hload _ h1]
      simp [List.getD_eq_getElem?_getD, List.getElem?_set, h1, h2]

/-- Witness for `C7_operand_layout`: a masked write as the first append of a cycle opens a
MaskedWrite group with count 1 at offset 0 and stores its five operand bytes behind the
header. -/
theorem C7_operand_layout_witness :
    cq_apply (cq_init q_zero 4) (.mask 0x1e00 0x00 0x21) =
      { cq_init q_zero 4 with
        cmd := some 0, req_count := 1, p := 9,
        cmdbuf := [2, 0, 3, 1, 1, 0x1e, 0x00, 0x00, 0x21] ++ q_zero.cmdbuf.drop 9 } :=
  (C7_operand_layout (cq_init q_zero 4) (.mask 0x1e00 0x00 0x21) (by decide)
    (by simp [q_zero, cq_init])
    (by
      have h : (cq_init q_zero 4).cmd = none := rfl
      simp [op_layout, cq_cmd, h, cq_init, CMDBUF_SIZE])).2.2.2.2.1 rfl

/-- Claim C8. From any prior queue state, `cq_init(4); cq_writereg(0x7203, 0x00);
cq_writereg(0x7006, 0x12); cq_wait_clear(0x7a84, 0x01)` and the finalization in `cq_exec`
give one fixed request of 24 bytes, whatever the buffers held before and whatever the
transport answers: code 4, length 24 (little-endian), group count 2, a Write group (opcode
2,2; length 12; count 2; operands `01 72 03 00`, `01 70 06 12`) and a WaitClear group
(opcode 3,3; length 8; count 1; operand `00 7a 84 01`), each header in the byte order major,
length, minor, count. These are the bytes handed to the transport, in one call. -/
theorem C8_fixture (q0 : i2c_cmdqueue) (icc : icc_fn) (hq0 : q0.cmdbuf.length = CMDBUF_SIZE) :
    request (cq_exec icc (cq_wait_clear (cq_writereg (cq_writereg (cq_init q0 4) 0x7203 0x00)
        0x7006 0x12) 0x7a84 0x01)).q
      = [4, 24, 0, 2,
         2, 12, 2, 2, 0x01, 0x72, 0x03, 0x00, 0x01, 0x70, 0x06, 0x12,
         3, 8, 3, 1, 0x00, 0x7a, 0x84, 0x01] ∧
    (cq_exec icc (cq_wait_clear (cq_writereg (cq_writereg (cq_init q0 4) 0x7203 0x00)
        0x7006 0x12) 0x7a84 0x01)).q.req_length = 24 ∧
    (∃ c, (cq_exec icc (cq_wait_clear (cq_writereg (cq_writereg (cq_init q0 4) 0x7203 0x00)
        0x7006 0x12) 0x7a84 0x01)).calls = [c] ∧ c.length = 24 ∧
      c.data.take c.length
        = [4, 24, 0, 2,
           2, 12, 2, 2, 0x01, 0x72, 0x03, 0x00, 0x01, 0x70, 0x06, 0x12,
           3, 8, 3, 1, 0x00, 0x7a, 0x84, 0x01]) := by
  have hrun : cq_wait_clear (cq_writereg (cq_writereg (cq_init q0 4) 0x7203 0x00)
      0x7006 0x12) 0x7a84 0x01
      = cq_run (cq_init q0 4) [.writereg 0x7203 0, .writereg 0x7006 0x12, .wait_clear 0x7a84 1] :=
    rfl
  rw [hrun]
  obtain ⟨c, r, _, hq, hcalls⟩ := run_exec_q q0 4
    [.writereg 0x7203 0, .writereg 0x7006 0x12, .wait_clear 0x7a84 1] icc hq0 (by decide)
    (by simp)
  have hps : payload_size [.writereg 0x7203 0, .writereg 0x7006 0x12, .wait_clear 0x7a84 1]
      = 20 := by decide
  have henc : enc_all (runs [.writereg 0x7203 0, .writereg 0x7006 0x12, .wait_clear 0x7a84 1])
      = [2, 12, 2, 2, 0x01, 0x72, 0x03, 0x00, 0x01, 0x70, 0x06, 0x12,
         3, 8, 3, 1, 0x00, 0x7a, 0x84, 0x01] := by decide
  have hlen : (runs [.writereg 0x7203 0, .writereg 0x7006 0x12, .wait_clear 0x7a84 1]).length
      = 2 := by decide
  rw [hps, henc, hlen] at hq hcalls
  refine ⟨?_, ?_, ?_⟩
  · rw [hq]
    simp [request, req_bytes, REQ_HDR_SIZE, u8]
  · rw [hq]
    rfl
  · refine ⟨_, hcalls, rfl, ?_⟩
    simp [REQ_HDR_SIZE, u8]

/-- Witness for `C8_fixture`: the fixture on a zeroed queue with a transport that answers
`{0,0,0,0,0}`. -/
theorem C8_fixture_witness :
    (cq_exec (icc_reply 5 0 0 0 0 0) (cq_wait_clear (cq_writereg (cq_writereg (cq_init q_zero 4)
        0x7203 0x00) 0x7006 0x12) 0x7a84 0x01)).q.req_length = 24 :=
  (C8_fixture q_zero (icc_reply 5 0 0 0 0 0) (by simp [q_zero])).2.1

/-! ### Re-initialization (C10) -/

/-- Claim C10. A second `cq_init` discards the appends made before it: for every prior
state, tags and append sequences `A` and `B` that fit in the payload, `cq_exec` after
`cq_init; A; cq_init; B` hands the transport the same request (the same opcode arguments,
the same length and the same first `length` bytes, with code, length and group count) as
after `cq_init; B`; when `B` is empty neither makes a transport call. Two `cq_init` in a row
leave the same code, group count, cursor and open-group state as the second one alone. -/
theorem C10_init_discards (q0 : i2c_cmdqueue) (tagA tag : Nat) (A B : List cq_op)
    (icc : icc_fn) (hq0 : q0.cmdbuf.length = CMDBUF_SIZE)
    (hA : payload_size A ≤ CMDBUF_SIZE) (hB : payload_size B ≤ CMDBUF_SIZE) :
    (cq_exec icc (cq_run (cq_init (cq_run (cq_init q0 tagA) A) tag) B)).calls.map
        (fun c => (c.major, c.minor, c.data.take c.length, c.length, c.reply_length))
      = (cq_exec icc (cq_run (cq_init q0 tag) B)).calls.map
        (fun c => (c.major, c.minor, c.data.take c.length, c.length, c.reply_length)) ∧
    (B = [] → (cq_exec icc (cq_run (cq_init (cq_run (cq_init q0 tagA) A) tag) B)).calls = []) ∧
    (B ≠ [] → ((cq_exec icc (cq_run (cq_init (cq_run (cq_init q0 tagA) A) tag) B)).calls.map
        (fun c => c.data.take c.length))
      = [[u8 tag, (payload_size B + REQ_HDR_SIZE) % 256, (payload_size B + REQ_HDR_SIZE) / 256,
          (runs B).length] ++ enc_all (runs B)]) ∧
    (cq_init (cq_init q0 tagA) tag).req_code = (cq_init q0 tag).req_code ∧
    (cq_init (cq_init q0 tagA) tag).req_count = (cq_init q0 tag).req_count ∧
    (cq_init (cq_init q0 tagA) tag).p = (cq_init q0 tag).p ∧
    (cq_init (cq_init q0 tagA) tag).cmd = (cq_init q0 tag).cmd := by
  have hq1 : (cq_run (cq_init q0 tagA) A).cmdbuf.length = CMDBUF_SIZE := by
    have hb := built_run q0 tagA A hq0 hA
    have hlen : (enc_open (runs A)).length = payload_size A := by
      rw [enc_open_length, enc_all_runs_length]
    rw [hb.buf, List.length_append, List.length_drop, hlen, hq0]
    omega
  have hkey : ∀ q : i2c_cmdqueue, q.cmdbuf.length = CMDBUF_SIZE → B ≠ [] →
      (cq_exec icc (cq_run (cq_init q tag) B)).calls.map
        (fun c => (c.major, c.minor, c.data.take c.length, c.length, c.reply_length))
      = [(0x10, 0, [u8 tag, (payload_size B + REQ_HDR_SIZE) % 256,
            (payload_size B + REQ_HDR_SIZE) / 256, (runs B).length] ++ enc_all (runs B),
          payload_size B + REQ_HDR_SIZE, REPLY_SIZE)] := by
    intro q hq hne
    obtain ⟨c, r, _, _, hcalls⟩ := run_exec_q q tag B icc hq hB hne
    rw [hcalls]
    simp only [List.map_cons, List.map_nil]
    rw [← enc_all_runs_length B, take_request]
  refine ⟨?_, ?_, ?_, rfl, rfl, rfl, rfl⟩
  · by_cases hne : B = []
    · subst hne
      rfl
    · rw [hkey _ hq1 hne, hkey _ hq0 hne]
  · intro hB0
    subst hB0
    rfl
  · intro hne
    have := congrArg (List.map (fun t : Nat × Nat × List Nat × Nat × Nat => t.2.2.1))
      (hkey _ hq1 hne)
    simpa [List.map_map, Function.comp] using this

/-- Witness for `C10_init_discards`: an abandoned write, then the presence probe. -/
theorem C10_init_discards_witness :
    (cq_exec (icc_reply 5 0 0 0 0 0)
        (cq_run (cq_init (cq_run (cq_init q_zero 7) [.writereg 0x7203 0]) 4)
          [.read 0x7008 1])).calls.map
        (fun c => (c.major, c.minor, c.data.take c.length, c.length, c.reply_length))
      = (cq_exec (icc_reply 5 0 0 0 0 0) (cq_run (cq_init q_zero 4) [.read 0x7008 1])).calls.map
        (fun c => (c.major, c.minor, c.data.take c.length, c.length, c.reply_length)) :=
  (C10_init_discards q_zero 7 4 [.writereg 0x7203 0] [.read 0x7008 1] (icc_reply 5 0 0 0 0 0)
    (by simp [q_zero]) (by decide) (by decide)).1

/-! ## Group boundaries and counts (C11, C12, C13) -/

theorem absorb_last (gs : List cq_group) (o : cq_op) :
    ∃ closed g, absorb gs o = closed ++ [(o.kind, g)] := by
  rcases List.eq_nil_or_concat gs with rfl | ⟨closed, ⟨k, g⟩, rfl⟩
  · exact ⟨[], [o], rfl⟩
  · rw [List.concat_eq_append, absorb_concat]
    by_cases hk : k = o.kind
    · subst hk
      exact ⟨closed, g ++ [o], by simp [absorb]⟩
    · exact ⟨closed ++ [(k, g)], [o], by simp [absorb, hk]⟩

/-- An append of a kind other than the previous append's starts a run of its own. -/
theorem runs_snoc_diff (ops : List cq_op) (o1 o2 : cq_op) (h : o1.kind ≠ o2.kind) :
    runs (ops ++ [o1] ++ [o2]) = runs (ops ++ [o1]) ++ [(o2.kind, [o2])] := by
  rw [runs_snoc (ops ++ [o1]) o2, runs_snoc ops o1]
  obtain ⟨closed, g, hg⟩ := absorb_last (runs ops) o1
  rw [hg, absorb_concat]
  simp [absorb, h]

theorem payload_size_le_snoc (ops : List cq_op) (o : cq_op) :
    payload_size ops ≤ payload_size (ops ++ [o]) := by
  rw [← enc_all_runs_length, ← enc_all_runs_length, ← enc_open_length, ← enc_open_length,
    runs_snoc]
  exact enc_open_absorb_ge _ o

theorem payload_size_le_append (ops rest : List cq_op) :
    payload_size ops ≤ payload_size (ops ++ rest) := by
  induction rest using List.reverseRecOn with
  | nil => simp
  | append_singleton rest o ih =>
    rw [← List.append_assoc]
    exact Nat.le_trans ih (payload_size_le_snoc _ o)

/-- The group count of a build cycle is the number of runs, without wrap-around. -/
theorem run_req_count (q0 : i2c_cmdqueue) (tag : Nat) (ops : List cq_op)
    (hq0 : q0.cmdbuf.length = CMDBUF_SIZE) (hfit : payload_size ops ≤ CMDBUF_SIZE) :
    (cq_run (cq_init q0 tag) ops).req_count = (runs ops).length := by
  have hb := built_run q0 tag ops hq0 hfit
  have h253 := runs_length_le_253 ops hfit
  rw [hb.count]
  exact u8_of_lt _ (by omega)

/-- Claim C11. Appends of different kinds never merge. `cq_init; cq_read(addr, count);
cq_writereg(addr, val)` gives group count 2 and two groups of one operation each, for every
address, count and value. In general an append whose kind differs from the kind of the
append before it opens a group of its own: the runs grow by the run of that one append, the
group count grows by one, and a header with the new opcode pair and count 1 stands at the
old cursor. Kinds with the same major opcode (Write and MaskedWrite; Delay, WaitSet and
WaitClear) are different kinds, so this covers them. -/
theorem C11_kinds_never_merge (q0 : i2c_cmdqueue) (tag addr count val : Nat)
    (ops : List cq_op) (o1 o2 : cq_op)
    (hq0 : q0.cmdbuf.length = CMDBUF_SIZE) (hk : o1.kind ≠ o2.kind)
    (hfit : payload_size (ops ++ [o1] ++ [o2]) ≤ CMDBUF_SIZE) :
    (cq_writereg (cq_read (cq_init q0 tag) addr count) addr val).req_count = 2 ∧
    (cq_writereg (cq_read (cq_init q0 tag) addr count) addr val).cmdbuf.take 16
      = [1, 8, 1, 1] ++ (cq_op.read addr count).operand
          ++ ([2, 0, 2, 1] ++ (cq_op.writereg addr val).operand) ∧
    runs (ops ++ [o1] ++ [o2]) = runs (ops ++ [o1]) ++ [(o2.kind, [o2])] ∧
    (cq_run (cq_init q0 tag) (ops ++ [o1] ++ [o2])).req_count
      = (cq_run (cq_init q0 tag) (ops ++ [o1])).req_count + 1 ∧
    (cq_run (cq_init q0 tag) (ops ++ [o1] ++ [o2])).cmd
      = some (cq_run (cq_init q0 tag) (ops ++ [o1])).p ∧
    ((cq_run (cq_init q0 tag) (ops ++ [o1] ++ [o2])).cmdbuf.drop
        (cq_run (cq_init q0 tag) (ops ++ [o1])).p).take 4
      = [o2.kind.major, 0, o2.kind.minor, 1] ∧
    (cq_kind.write ≠ cq_kind.mask ∧ cq_kind.delay ≠ cq_kind.wait_set ∧
      cq_kind.delay ≠ cq_kind.wait_clear ∧ cq_kind.wait_set ≠ cq_kind.wait_clear) := by
  have hfit1 : payload_size (ops ++ [o1]) ≤ CMDBUF_SIZE :=
    Nat.le_trans (payload_size_le_snoc _ o2) hfit
  have hruns := runs_snoc_diff ops o1 o2 hk
  have hb1 := built_run q0 tag (ops ++ [o1]) hq0 hfit1
  have hb2 := built_run q0 tag (ops ++ [o1] ++ [o2]) hq0 hfit
  have hp1 : (cq_run (cq_init q0 tag) (ops ++ [o1])).p = (enc_all (runs (ops ++ [o1]))).length := by
    rw [hb1.cursor, enc_open_length]
  have hrw : (cq_run (cq_init q0 tag) [.read addr count, .writereg addr val])
      = cq_writereg (cq_read (cq_init q0 tag) addr count) addr val := rfl
  have hfitrw : payload_size [.read addr count, .writereg addr val] ≤ CMDBUF_SIZE := by
    simp [payload_size, runs, cons_run, cq_op.kind, cq_kind.size, CMD_HDR_SIZE, CMDBUF_SIZE]
  have hbrw := built_run q0 tag [.read addr count, .writereg addr val] hq0 hfitrw
  rw [hrw] at hbrw
  have hencrw : enc_open (runs [.read addr count, .writereg addr val])
      = [1, 8, 1, 1] ++ (cq_op.read addr count).operand
          ++ ([2, 0, 2, 1] ++ (cq_op.writereg addr val).operand) := by
    simp [runs, cons_run, cq_op.kind, enc_open, enc_closed, enc_cur, group_operands,
      cq_kind.major, cq_kind.minor, cq_op.operand, u8, CMD_HDR_SIZE]
  refine ⟨?_, ?_, hruns, ?_, ?_, ?_, by decide⟩
  · rw [hbrw.count]
    simp [runs, cons_run, cq_op.kind, u8]
  · rw [hbrw.buf, hencrw]
    simp [cq_op.operand]
  · rw [run_req_count q0 tag _ hq0 hfit, run_req_count q0 tag _ hq0 hfit1, hruns]
    simp
  · rw [hb2.cmd, hruns, cur_off_concat, hp1]
  · rw [hb2.buf, hruns, enc_open_concat, hp1]
    simp [enc_cur, u8]

/-- Witness for `C11_kinds_never_merge`: a write and a masked write, which share the major
opcode 2. -/
theorem C11_kinds_never_merge_witness :
    runs ([] ++ [cq_op.writereg 0x7218 0] ++ [cq_op.mask 0x7216 0 0x80])
      = runs ([] ++ [cq_op.writereg 0x7218 0]) ++ [(cq_kind.mask, [cq_op.mask 0x7216 0 0x80])] :=
  (C11_kinds_never_merge q_zero 4 0x7008 1 0 [] (cq_op.writereg 0x7218 0)
    (cq_op.mask 0x7216 0 0x80) (by simp [q_zero]) (by decide) (by decide)).2.2.1

/-- Claim C12. For every non-empty append sequence after `cq_init` that fits in the
payload, `cq_exec` stores `request.length` = 4 + the number of payload bytes written (the
cursor offset) = 4 + 4 * (number of groups) + (sum of the operand sizes), and hands the
transport, in its one call, exactly that length together with the reply capacity 2032 (the
5-byte reply header and 2027 data bytes). -/
theorem C12_request_length (q0 : i2c_cmdqueue) (tag : Nat) (ops : List cq_op) (icc : icc_fn)
    (hq0 : q0.cmdbuf.length = CMDBUF_SIZE) (hfit : payload_size ops ≤ CMDBUF_SIZE)
    (hne : ops ≠ []) :
    (cq_exec icc (cq_run (cq_init q0 tag) ops)).q.req_length
      = 4 + (cq_run (cq_init q0 tag) ops).p ∧
    (cq_run (cq_init q0 tag) ops).p
      = 4 * (runs ops).length + (ops.map (fun o => o.kind.size)).sum ∧
    (∃ c, (cq_exec icc (cq_run (cq_init q0 tag) ops)).calls = [c] ∧
      c.length = 4 + 4 * (runs ops).length + (ops.map (fun o => o.kind.size)).sum ∧
      c.reply_length = 2032 ∧ c.major = 0x10 ∧ c.minor = 0) ∧
    REPLY_SIZE = 5 + 2027 := by
  obtain ⟨c, r, _, hq, hcalls⟩ := run_exec_q q0 tag ops icc hq0 hfit hne
  have hp : (cq_run (cq_init q0 tag) ops).p = payload_size ops :=
    (run_exec_payload q0 tag ops icc hq0 hfit).1
  have hps : payload_size ops = 4 * (runs ops).length + (ops.map (fun o => o.kind.size)).sum :=
    rfl
  refine ⟨?_, ?_, ⟨_, hcalls, ?_, rfl, rfl, rfl⟩, rfl⟩
  · rw [hq, hp]
    simp only [REQ_HDR_SIZE]
    omega
  · rw [hp, hps]
  · simp only [REQ_HDR_SIZE]
    rw [hps]
    omega

/-- Witness for `C12_request_length`: the fixture sequence, 24 bytes. -/
theorem C12_request_length_witness :
    (cq_exec (icc_reply 5 0 0 0 0 0) (cq_run (cq_init q_zero 4)
        [.writereg 0x7203 0, .writereg 0x7006 0x12, .wait_clear 0x7a84 1])).q.req_length
      = 4 + (cq_run (cq_init q_zero 4)
        [.writereg 0x7203 0, .writereg 0x7006 0x12, .wait_clear 0x7a84 1]).p :=
  (C12_request_length q_zero 4 [.writereg 0x7203 0, .writereg 0x7006 0x12, .wait_clear 0x7a84 1]
    (icc_reply 5 0 0 0 0 0) (by simp [q_zero]) (by decide) (by simp)).1

/-- Claim C13. At every point of a build cycle, that is after `cq_init` and any beginning
`ops` of an append sequence `ops ++ rest` that fits in the 2028-byte payload, the 8-bit
`request.group_count` is exactly the number of maximal kind-contiguous runs appended so far.
There is no wrap-around: a group takes at least 8 payload bytes, so there are at most 253
groups. -/
theorem C13_group_count (q0 : i2c_cmdqueue) (tag : Nat) (ops rest : List cq_op)
    (hq0 : q0.cmdbuf.length = CMDBUF_SIZE)
    (hfit : payload_size (ops ++ rest) ≤ CMDBUF_SIZE) :
    (cq_run (cq_init q0 tag) ops).req_count = (runs ops).length ∧
    (runs ops).length ≤ 253 ∧
    8 * (runs ops).length ≤ payload_size ops := by
  have hfit1 : payload_size ops ≤ CMDBUF_SIZE :=
    Nat.le_trans (payload_size_le_append ops rest) hfit
  refine ⟨run_req_count q0 tag ops hq0 hfit1, runs_length_le_253 ops hfit1, ?_⟩
  have h1 := runs_length_le ops
  have h2 := size_sum_ge ops
  simp only [payload_size, CMD_HDR_SIZE]
  omega

/-- Witness for `C13_group_count`: the fixture sequence after its second append. -/
theorem C13_group_count_witness :
    (cq_run (cq_init q_zero 4) [.writereg 0x7203 0, .writereg 0x7006 0x12]).req_count
      = (runs [.writereg 0x7203 0, .writereg 0x7006 0x12]).length :=
  (C13_group_count q_zero 4 [.writereg 0x7203 0, .writereg 0x7006 0x12] [.wait_clear 0x7a84 1]
    (by simp [q_zero]) (by decide)).1

/-! ## Frame conditions (C14, C15) -/

/-- Claim C14. For every queue state and every 8-bit tag, `cq_init` (a total function: it
always succeeds) yields `request.code = tag`, `request.group_count = 0`, the cursor at
offset 0 of the payload and no open group, and changes nothing else: the reply buffer, the
payload bytes and the stored request length are as they were. -/
theorem C14_init_frame (q : i2c_cmdqueue) (tag : Nat) (htag : tag < 256) :
    (cq_init q tag).req_code = tag ∧
    (cq_init q tag).req_count = 0 ∧
    (cq_init q tag).p = 0 ∧
    (cq_init q tag).cmd = none ∧
    (cq_init q tag).reply = q.reply ∧
    (cq_init q tag).cmdbuf = q.cmdbuf ∧
    (cq_init q tag).req_length = q.req_length :=
  ⟨u8_of_lt tag htag, rfl, rfl, rfl, rfl, rfl, rfl⟩

/-- Witness for `C14_init_frame`: re-initialization of the presence probe's queue. -/
theorem C14_init_frame_witness :
    (cq_init q_probe 4).req_code = 4 ∧ (cq_init q_probe 4).cmd = none :=
  ⟨(C14_init_frame q_probe 4 (by decide)).1, (C14_init_frame q_probe 4 (by decide)).2.2.2.1⟩

theorem puts_length (bs : List Nat) (q : i2c_cmdqueue) :
    (bs.foldl put q).cmdbuf.length = q.cmdbuf.length := by
  induction bs generalizing q with
  | nil => rfl
  | cons b bs ih =>
    rw [List.foldl_cons, ih]
    simp [put]

/-- Appends keep `cmdbuf` at its declared size. -/
theorem cq_apply_length (q : i2c_cmdqueue) (o : cq_op) :
    (cq_apply q o).cmdbuf.length = q.cmdbuf.length := by
  rw [cq_apply_eq, puts_length, cq_cmd_length]

theorem q_one_mask_length : q_one_mask.cmdbuf.length = CMDBUF_SIZE := by
  have h : q_one_mask = cq_apply (cq_init q_zero 4) (.mask 0x1e00 0x00 0x21) := rfl
  rw [h, cq_apply_length]
  simp [cq_init, q_zero]

/-- Claim C15. When the open group's (major, minor) equals the kind of the appended
operation, the append is an extension in place: it increments that group's operation-count
byte by one (as an 8-bit value), stores only the new operand bytes at the cursor and advances
the cursor by exactly the operand size (4, or 5 for a masked write). `request.group_count`,
`request.code`, the stored length, the reply buffer, the open-group pointer and every other
payload byte, below the old cursor (the group's major, length and minor bytes and all earlier
groups) and behind the new one, are unchanged. -/
theorem C15_same_kind_extension (q : i2c_cmdqueue) (o : cq_op) (c : Nat)
    (hq : q.cmdbuf.length = CMDBUF_SIZE) (hc : q.cmd = some c) (hcp : c + 4 ≤ q.p)
    (hfit : q.p + o.kind.size ≤ CMDBUF_SIZE)
    (hmaj : load q c = o.kind.major) (hmin : load q (c + 2) = o.kind.minor) :
    (cq_apply q o).p = q.p + o.kind.size ∧
    (o.kind.size = 4 ∨ (o.kind = cq_kind.mask ∧ o.kind.size = 5)) ∧
    (cq_apply q o).cmdbuf
      = (q.cmdbuf.take q.p).set (c + 3) (u8 (load q (c + 3) + 1)) ++ o.operand
          ++ q.cmdbuf.drop (q.p + o.kind.size) ∧
    load (cq_apply q o) (c + 3) = u8 (load q (c + 3) + 1) ∧
    (∀ i, i < q.p → i ≠ c + 3 → load (cq_apply q o) i = load q i) ∧
    (cq_apply q o).req_count = q.req_count ∧
    (cq_apply q o).req_code = q.req_code ∧
    (cq_apply q o).req_length = q.req_length ∧
    (cq_apply q o).reply = q.reply ∧
    (cq_apply q o).cmd = q.cmd := by
  have hcmd : cq_cmd q o.kind.major o.kind.minor
      = { q with cmdbuf := q.cmdbuf.set (c + 3) (u8 (load q (c + 3) + 1)) } := by
    unfold cq_cmd
    simp only [hc, hmaj, hmin]
    rw [if_neg (by simp), store_lt _ _ _ (by omega)]
    simp [hc]
  have hol := operand_length o
  have hputs := puts_eq o.operand (cq_cmd q o.kind.major o.kind.minor)
    ((q.cmdbuf.take q.p).set (c + 3) (u8 (load q (c + 3) + 1))) (q.cmdbuf.drop q.p)
    (by
      rw [hcmd]
      show q.cmdbuf.set (c + 3) _ = _
      rw [← List.set_take, ← List.drop_set_of_lt (u8 (load q (c + 3) + 1)) q.cmdbuf
        (show c + 3 < q.p by omega), List.take_append_drop])
    (by rw [hcmd]; simp; omega) (by simp; omega) (by simp; omega)
  have hbuf : (cq_apply q o).cmdbuf
      = (q.cmdbuf.take q.p).set (c + 3) (u8 (load q (c + 3) + 1)) ++ o.operand
          ++ q.cmdbuf.drop (q.p + o.kind.size) := by
    rw [cq_apply_eq, hputs, hol, List.drop_drop]
  have hlen1 : ((q.cmdbuf.take q.p).set (c + 3) (u8 (load q (c + 3) + 1))).length = q.p := by
    simp; omega
  have hload : ∀ i, i < q.p → load (cq_apply q o) i
      = ((q.cmdbuf.take q.p).set (c + 3) (u8 (load q (c + 3) + 1))).getD i 0 := by
    intro i hi
    rw [load_lt _ _ (by omega), hbuf, List.append_assoc, List.getD_append _ _ _ _ (by omega)]
  refine ⟨?_, ?_, hbuf, ?_, ?_, ?_, ?_, ?_, ?_, ?_⟩
  · rw [cq_apply_eq, puts_p, hcmd, hol]
  · cases o <;> simp [cq_op.kind, cq_kind.size]
  · have h1 : c + 3 < q.p := by omega
    have h2 : c + 3 < q.cmdbuf.length := by omega
    rw [hload _ h1]
    simp [List.getD_eq_getElem?_getD, List.getElem?_set, h1, h2]
  · intro i hi hne
    have hli : load q i = q.cmdbuf.getD i 0 := load_lt _ _ (by omega)
    rw [hload i hi, hli]
    simp [List.getD_eq_getElem?_getD, List.getElem?_set, List.getElem?_take, hi,
      Ne.symm hne]
  · rw [cq_apply_eq, hputs, hcmd]
  · rw [cq_apply_eq, hputs, hcmd]
  · rw [cq_apply_eq, hputs, hcmd]
  · rw [cq_apply_eq, hputs, hcmd]
  · rw [cq_apply_eq, hputs, hcmd]

/-- Witness for `C15_same_kind_extension`: a second masked write after a first one. -/
theorem C15_same_kind_extension_witness :
    (cq_apply q_one_mask (.mask 0x1e02 0x00 0x70)).p = q_one_mask.p + cq_kind.mask.size ∧
    (cq_apply q_one_mask (.mask 0x1e02 0x00 0x70)).req_count = q_one_mask.req_count :=
  ⟨(C15_same_kind_extension q_one_mask (.mask 0x1e02 0x00 0x70) 0 q_one_mask_length
      (by rfl) (by decide) (by decide) (by rfl) (by rfl)).1,
   (C15_same_kind_extension q_one_mask (.mask 0x1e02 0x00 0x70) 0 q_one_mask_length
      (by rfl) (by decide) (by decide) (by rfl) (by rfl)).2.2.2.2.2.1⟩

/-! ## Open and closed groups, 8-bit fields (C16, C17) -/

/-- The branch of `cq_cmd` for a new kind, on a well-formed queue: the open group gets its
length, a new header is written at the cursor. -/
theorem cq_cmd_new_group (q : i2c_cmdqueue) (c major minor : Nat) (A B R : List Nat)
    (a l m n : Nat) (hc : q.cmd = some c) (hcA : c = A.length)
    (hb : q.cmdbuf = A ++ [a, l, m, n] ++ B ++ R) (hp : q.p = A.length + 4 + B.length)
    (hN : q.p + 4 ≤ CMDBUF_SIZE) (hR : 4 ≤ R.length) (hne : a ≠ major ∨ m ≠ minor) :
    cq_cmd q major minor =
      { q with cmd := some q.p,
               cmdbuf := A ++ [a, u8 (4 + B.length), m, n] ++ B ++ [major, 0, minor, 1]
                          ++ R.drop 4,
               req_count := u8 (q.req_count + 1), p := q.p + 4 } := by
  have hcmd := cq_cmd_diff q c major minor A (B ++ R) a l m n hc hcA
    (by rw [hb]; simp) (by omega) hne
  have hclose := cq_close_group_eq q c A B R a l m n hc hcA hb hp (by omega)
  have hopen := cq_open_group_eq (cq_close_group q) major minor
    (A ++ [a, u8 (4 + B.length), m, n] ++ B) R
    (by rw [hclose]) (by rw [hclose]; simp [hp]; omega) (by simp; omega) hR
  rw [hcmd, cq_cmd_open, hopen, hclose]

theorem u8_group_fields (kg : cq_group)
    (h : CMD_HDR_SIZE + (kg.2.map (fun o => o.kind.size)).sum ≤ 255) :
    u8 (CMD_HDR_SIZE + (group_operands kg.2).length)
        = CMD_HDR_SIZE + (kg.2.map (fun o => o.kind.size)).sum ∧
    u8 kg.2.length = kg.2.length := by
  have h1 := group_operands_length kg.2
  have h2 := size_sum_ge kg.2
  constructor
  · rw [h1]; unfold u8; omega
  · unfold u8; simp only [CMD_HDR_SIZE] at h; omega

/-- Claim C16. During a build, after `cq_init` and appends that fit in the payload with
every group at most 255 bytes long: no group is open before the first append; afterwards
exactly the last group is open, `q->cmd` points to it and its length field holds the
provisional 0, while every earlier group is closed with its length field equal to its span,
4 plus the sum of its operand sizes. An append of another kind first writes back the open
group's length = cursor - group start, then writes the new header, major, minor, length 0
and count 1, at the cursor, advances the cursor by 4 and increments the group count by 1. -/
theorem C16_open_closed_groups (q0 : i2c_cmdqueue) (tag : Nat) (ops : List cq_op)
    (closed : List cq_group) (kg : cq_group)
    (hq0 : q0.cmdbuf.length = CMDBUF_SIZE) (hfit : payload_size ops ≤ CMDBUF_SIZE)
    (hsmall : ∀ g ∈ runs ops, CMD_HDR_SIZE + (g.2.map (fun o => o.kind.size)).sum ≤ 255)
    (hruns : runs ops = closed ++ [kg]) :
    (cq_run (cq_init q0 tag) []).cmd = none ∧
    (cq_run (cq_init q0 tag) ops).cmd = some (closed.flatMap enc_exact).length ∧
    (cq_run (cq_init q0 tag) ops).p
      = (closed.flatMap enc_exact).length + 4 + (kg.2.map (fun o => o.kind.size)).sum ∧
    (cq_run (cq_init q0 tag) ops).cmdbuf.take (cq_run (cq_init q0 tag) ops).p
      = closed.flatMap enc_exact
          ++ ([kg.1.major, 0, kg.1.minor, kg.2.length] ++ group_operands kg.2) ∧
    (∀ o : cq_op, kg.1 ≠ o.kind → payload_size (ops ++ [o]) ≤ CMDBUF_SIZE →
      (cq_cmd (cq_run (cq_init q0 tag) ops) o.kind.major o.kind.minor).cmdbuf.take
          ((cq_run (cq_init q0 tag) ops).p + 4)
        = (closed ++ [kg]).flatMap enc_exact ++ [o.kind.major, 0, o.kind.minor, 1] ∧
      load (cq_cmd (cq_run (cq_init q0 tag) ops) o.kind.major o.kind.minor)
          ((closed.flatMap enc_exact).length + 1)
        = (cq_run (cq_init q0 tag) ops).p - (closed.flatMap enc_exact).length ∧
      (cq_cmd (cq_run (cq_init q0 tag) ops) o.kind.major o.kind.minor).p
        = (cq_run (cq_init q0 tag) ops).p + 4 ∧
      (cq_cmd (cq_run (cq_init q0 tag) ops) o.kind.major o.kind.minor).req_count
        = (cq_run (cq_init q0 tag) ops).req_count + 1 ∧
      (cq_cmd (cq_run (cq_init q0 tag) ops) o.kind.major o.kind.minor).cmd
        = some (cq_run (cq_init q0 tag) ops).p) := by
  obtain ⟨k, g⟩ := kg
  have hb := built_run q0 tag ops hq0 hfit
  rw [hruns] at hb hsmall
  have hclosed : enc_all closed = closed.flatMap enc_exact :=
    flatMap_enc_exact closed (fun x hx => hsmall x (List.mem_append_left _ hx))
  have hkg := hsmall (k, g) (by simp)
  obtain ⟨hlenf, hcntf⟩ := u8_group_fields (k, g) hkg
  have hsum := group_operands_length g
  simp only at hlenf hcntf hkg
  have hW : enc_open (closed ++ [(k, g)])
      = closed.flatMap enc_exact ++ [k.major, 0, k.minor, g.length] ++ group_operands g := by
    rw [enc_open_concat, hclosed]
    simp [enc_cur, hcntf]
  have hp : (cq_run (cq_init q0 tag) ops).p
      = (closed.flatMap enc_exact).length + 4 + (group_operands g).length := by
    rw [hb.cursor, hW]; simp; omega
  have hbuf : (cq_run (cq_init q0 tag) ops).cmdbuf
      = closed.flatMap enc_exact ++ [k.major, 0, k.minor, g.length] ++ group_operands g
          ++ q0.cmdbuf.drop (cq_run (cq_init q0 tag) ops).p := by
    have := hb.buf
    rw [← hb.cursor, hW] at this
    exact this
  have hc : (cq_run (cq_init q0 tag) ops).cmd = some (closed.flatMap enc_exact).length := by
    rw [hb.cmd, cur_off_concat, hclosed]
  have hpN : (cq_run (cq_init q0 tag) ops).p ≤ CMDBUF_SIZE := by
    rw [hb.cursor, enc_open_length, ← hruns, enc_all_runs_length]; exact hfit
  refine ⟨rfl, hc, ?_, ?_, ?_⟩
  · rw [hp, hsum]
  · rw [hbuf]
    have := take_payload
      (closed.flatMap enc_exact ++ [k.major, 0, k.minor, g.length] ++ group_operands g)
      (q0.cmdbuf.drop (cq_run (cq_init q0 tag) ops).p) (cq_run (cq_init q0 tag) ops).p
      (by rw [hp]; simp; omega)
    rw [← hbuf] at this ⊢
    rw [this]
    simp
  · intro o hk hfit2
    have hne : k.major ≠ o.kind.major ∨ k.minor ≠ o.kind.minor := by
      by_contra hcon
      push_neg at hcon
      exact hk (kind_eq_of_opcode k o.kind hcon.1 hcon.2)
    have hcmd0 := cq_cmd_diff (cq_run (cq_init q0 tag) ops) _ o.kind.major o.kind.minor
      (closed.flatMap enc_exact)
      (group_operands g ++ q0.cmdbuf.drop (cq_run (cq_init q0 tag) ops).p)
      k.major 0 k.minor g.length hc rfl (by rw [hbuf]; simp) (by omega) hne
    have hb2 := built_run q0 tag (ops ++ [o]) hq0 hfit2
    have hp4 : (cq_run (cq_init q0 tag) ops).p + 4 ≤ CMDBUF_SIZE := by
      have h1 : (cq_run (cq_init q0 tag) (ops ++ [o])).p ≤ CMDBUF_SIZE := by
        rw [hb2.cursor, enc_open_length, enc_all_runs_length]; exact hfit2
      rw [cq_run_snoc, cq_apply_eq, puts_p, hcmd0, cq_cmd_open_p] at h1
      omega
    have hcmd := cq_cmd_new_group (cq_run (cq_init q0 tag) ops) _ o.kind.major o.kind.minor
      (closed.flatMap enc_exact) (group_operands g)
      (q0.cmdbuf.drop (cq_run (cq_init q0 tag) ops).p)
      k.major 0 k.minor g.length hc rfl hbuf hp hp4 (by simp; omega) hne
    have hexact : (closed ++ [(k, g)]).flatMap enc_exact
        = closed.flatMap enc_exact ++ [k.major, u8 (4 + (group_operands g).length), k.minor,
            g.length] ++ group_operands g := by
      have hu : u8 (4 + (group_operands g).length)
          = CMD_HDR_SIZE + (g.map (fun o => o.kind.size)).sum := hlenf
      simp [enc_exact, hu]
    rw [hcmd]
    refine ⟨?_, ?_, rfl, ?_, rfl⟩
    · rw [hexact]
      have := take_payload
        (closed.flatMap enc_exact ++ [k.major, u8 (4 + (group_operands g).length), k.minor,
            g.length] ++ group_operands g ++ [o.kind.major, 0, o.kind.minor, 1])
        ((q0.cmdbuf.drop (cq_run (cq_init q0 tag) ops).p).drop 4)
        ((cq_run (cq_init q0 tag) ops).p + 4) (by rw [hp]; simp; omega)
      exact this
    · rw [load_lt _ _ (by omega)]
      have hu : u8 (4 + (group_operands g).length) = 4 + (group_operands g).length := by
        have := hlenf
        simp only [CMD_HDR_SIZE] at this hkg
        unfold u8
        omega
      simp only [List.append_assoc]
      rw [List.getD_append_right _ _ _ _ (Nat.le_add_right _ 1)]
      simp [hu, hp]
      omega
    · have h253 := runs_length_le_253 (ops ++ [o]) hfit2
      have hcount := run_req_count q0 tag ops hq0 hfit
      have hr2 : runs (ops ++ [o]) = closed ++ [(k, g), (o.kind, [o])] := by
        rw [runs_snoc, hruns, absorb_concat]
        simp [absorb, hk]
      rw [hr2] at h253
      rw [hruns] at hcount
      simp only [List.length_append, List.length_cons, List.length_nil] at h253 hcount
      show u8 ((cq_run (cq_init q0 tag) ops).req_count + 1) = _
      rw [hcount]
      unfold u8
      omega

/-- Witness for `C16_open_closed_groups`: the fixture after its two writes, with the
wait that closes the write group. -/
theorem C16_open_closed_groups_witness :
    (cq_cmd (cq_run (cq_init q_zero 4) [.writereg 0x7203 0, .writereg 0x7006 0x12])
        cq_kind.wait_clear.major cq_kind.wait_clear.minor).p
      = (cq_run (cq_init q_zero 4) [.writereg 0x7203 0, .writereg 0x7006 0x12]).p + 4 :=
  ((C16_open_closed_groups q_zero 4 [.writereg 0x7203 0, .writereg 0x7006 0x12] []
    (cq_kind.write, [.writereg 0x7203 0, .writereg 0x7006 0x12])
    (by simp [q_zero]) (by decide) (by decide) (by decide)).2.2.2.2
      (.wait_clear 0x7a84 1) (by decide) (by decide)).2.2.1

theorem uniform_size_sum (k : cq_kind) (g : List cq_op) (h : ∀ o ∈ g, o.kind = k) :
    (g.map (fun o => o.kind.size)).sum = g.length * k.size := by
  induction g with
  | nil => simp
  | cons o g ih =>
    have ho : o.kind = k := h o (List.mem_cons_self _ _)
    have := ih (fun x hx => h x (List.mem_cons_of_mem _ hx))
    simp only [List.map_cons, List.sum_cons, List.length_cons, this, ho]
    rw [Nat.add_mul]
    omega

/-- Header bytes of a group after `cq_exec`. -/
theorem run_header_exec (q0 : i2c_cmdqueue) (tag : Nat) (ops : List cq_op) (icc : icc_fn)
    (pre post : List cq_group) (kg : cq_group)
    (hq0 : q0.cmdbuf.length = CMDBUF_SIZE) (hfit : payload_size ops ≤ CMDBUF_SIZE)
    (hruns : runs ops = pre ++ kg :: post) :
    ((cq_exec icc (cq_run (cq_init q0 tag) ops)).q.cmdbuf.drop (enc_all pre).length).take 4
      = [kg.1.major, u8 (CMD_HDR_SIZE + (group_operands kg.2).length), kg.1.minor,
         u8 kg.2.length] := by
  obtain ⟨_, hbuf⟩ := run_exec_payload q0 tag ops icc hq0 hfit
  rw [hbuf, hruns, enc_all_append]
  have : enc_all (kg :: post) = [kg.1.major, u8 (CMD_HDR_SIZE + (group_operands kg.2).length),
      kg.1.minor, u8 kg.2.length] ++ (group_operands kg.2 ++ enc_all post) := by
    simp [enc_all, enc_closed]
  rw [this]
  exact drop_take_hdr _ _ _ _ _ _ _

/-- Header bytes of a group during the build: the length byte of the open group is 0. -/
theorem run_header_build (q0 : i2c_cmdqueue) (tag : Nat) (ops : List cq_op)
    (pre post : List cq_group) (kg : cq_group)
    (hq0 : q0.cmdbuf.length = CMDBUF_SIZE) (hfit : payload_size ops ≤ CMDBUF_SIZE)
    (hruns : runs ops = pre ++ kg :: post) :
    ((cq_run (cq_init q0 tag) ops).cmdbuf.drop (enc_all pre).length).take 4
      = [kg.1.major,
         if post = [] then 0 else u8 (CMD_HDR_SIZE + (group_operands kg.2).length),
         kg.1.minor, u8 kg.2.length] := by
  have hb := built_run q0 tag ops hq0 hfit
  obtain ⟨rest, hrest⟩ := enc_open_cons_hdr kg post
  rw [hb.buf, hruns, enc_open_append_cons, hrest]
  exact drop_take_hdr _ _ _ _ _ _ _

/-- Claim C17. For every run of `n` consecutive same-kind appends with operand size `s` in
a sequence that fits in the payload, the group's operation-count byte is `n mod 256` and,
once the group is closed (by the next append of another kind, or by `cq_exec`), its length
byte is `(4 + n * s) mod 256`. The stored fields are the true run length and byte length
exactly when `4 + n * s <= 255`: at most 62 consecutive writes, at most 50 consecutive
masked writes. 64 consecutive writes store length 4. -/
theorem C17_field_wrap (q0 : i2c_cmdqueue) (tag : Nat) (ops : List cq_op) (icc : icc_fn)
    (pre post : List cq_group) (kg : cq_group)
    (hq0 : q0.cmdbuf.length = CMDBUF_SIZE) (hfit : payload_size ops ≤ CMDBUF_SIZE)
    (hruns : runs ops = pre ++ kg :: post) :
    (((cq_exec icc (cq_run (cq_init q0 tag) ops)).q.cmdbuf.drop (enc_all pre).length).take 4
      = [kg.1.major, (4 + kg.2.length * kg.1.size) % 256, kg.1.minor, kg.2.length % 256]) ∧
    (post ≠ [] →
      ((cq_run (cq_init q0 tag) ops).cmdbuf.drop (enc_all pre).length).take 4
        = [kg.1.major, (4 + kg.2.length * kg.1.size) % 256, kg.1.minor, kg.2.length % 256]) ∧
    (((4 + kg.2.length * kg.1.size) % 256 = 4 + kg.2.length * kg.1.size ∧
        kg.2.length % 256 = kg.2.length) ↔ 4 + kg.2.length * kg.1.size ≤ 255) ∧
    (4 + 62 * cq_kind.write.size ≤ 255 ∧ ¬ (4 + 63 * cq_kind.write.size ≤ 255)) ∧
    (4 + 50 * cq_kind.mask.size ≤ 255 ∧ ¬ (4 + 51 * cq_kind.mask.size ≤ 255)) ∧
    ((cq_exec icc (cq_run (cq_init q0 tag) (ops_writes 64))).q.cmdbuf.take 4
      = [2, 4, 2, 64]) := by
  have hmem : kg ∈ runs ops := by rw [hruns]; simp
  have hlen : (group_operands kg.2).length = kg.2.length * kg.1.size := by
    rw [group_operands_length, uniform_size_sum kg.1 kg.2 (runs_uniform ops kg hmem).2]
  have hfield : u8 (CMD_HDR_SIZE + (group_operands kg.2).length)
      = (4 + kg.2.length * kg.1.size) % 256 := by
    rw [hlen]; rfl
  refine ⟨?_, ?_, ?_, by decide, by decide, ?_⟩
  · rw [run_header_exec q0 tag ops icc pre post kg hq0 hfit hruns, hfield]
    rfl
  · intro hpost
    rw [run_header_build q0 tag ops pre post kg hq0 hfit hruns, if_neg hpost, hfield]
    rfl
  · have hs : 4 ≤ kg.1.size := by cases kg.1 <;> simp [cq_kind.size]
    have hmul : kg.2.length * 4 ≤ kg.2.length * kg.1.size := Nat.mul_le_mul_left _ hs
    constructor
    · rintro ⟨h1, _⟩
      have := Nat.mod_lt (4 + kg.2.length * kg.1.size) (show 0 < 256 by decide)
      omega
    · intro h
      exact ⟨Nat.mod_eq_of_lt (by omega), Nat.mod_eq_of_lt (by omega)⟩
  · have hps : payload_size (ops_writes 64) = 260 :=
      payload_size_replicate (cq_op.writereg 0x7203 0) 63
    have hr : runs (ops_writes 64) = [] ++ (cq_kind.write, ops_writes 64) :: [] :=
      runs_replicate (cq_op.writereg 0x7203 0) 63
    have h := run_header_exec q0 tag (ops_writes 64) icc [] [] (cq_kind.write, ops_writes 64)
      hq0 (by rw [hps]; decide) hr
    have hl : (ops_writes 64).length = 64 := List.length_replicate _ _
    have hg : (group_operands (ops_writes 64)).length = 256 := by
      rw [group_operands_length,
        uniform_size_sum cq_kind.write (ops_writes 64)
          (fun o ho => by rw [List.eq_of_mem_replicate ho]; rfl), hl]
      rfl
    have e0 : (enc_all ([] : List cq_group)).length = 0 := rfl
    rw [e0, List.drop_zero] at h
    refine h.trans ?_
    have hf : ∀ a b : Nat, a = 256 → b = 64 →
        [cq_kind.write.major, u8 (CMD_HDR_SIZE + a), cq_kind.write.minor, u8 b]
          = [2, 4, 2, 64] := by
      intro a b ha hb
      subst ha hb
      rfl
    exact hf _ _ hg hl

/-- Witness for `C17_field_wrap`: the write group of the fixture, 2 writes, length 12. -/
theorem C17_field_wrap_witness :
    ((cq_exec (icc_reply 5 0 0 0 0 0) (cq_run (cq_init q_zero 4)
        [.writereg 0x7203 0, .writereg 0x7006 0x12, .wait_clear 0x7a84 1])).q.cmdbuf.drop
      (enc_all []).length).take 4
      = [cq_kind.write.major, (4 + 2 * cq_kind.write.size) % 256, cq_kind.write.minor,
         2 % 256] :=
  (C17_field_wrap q_zero 4 [.writereg 0x7203 0, .writereg 0x7006 0x12, .wait_clear 0x7a84 1]
    (icc_reply 5 0 0 0 0 0) [] [(cq_kind.wait_clear, [.wait_clear 0x7a84 1])]
    (cq_kind.write, [.writereg 0x7203 0, .writereg 0x7006 0x12])
    (by simp [q_zero]) (by decide) (by decide)).1

/-! ## The driver's own cycles (C18, C19, C20) -/

theorem kind_runs_cons_run (o : cq_op) (gs : List cq_group) :
    (cons_run o gs).map (fun kg => (kg.1, kg.2.length))
      = (match gs.map (fun kg => (kg.1, kg.2.length)) with
          | [] => [(o.kind, 1)]
          | (k2, n) :: rest =>
            if o.kind = k2 then (k2, n + 1) :: rest else (o.kind, 1) :: (k2, n) :: rest) := by
  match gs with
  | [] => rfl
  | (k, g) :: gs =>
    by_cases h : o.kind = k <;> simp [cons_run, h]

/-- The runs of a sequence have the shape `kind_runs` gives for its kinds. -/
theorem runs_shape (ops : List cq_op) :
    (runs ops).map (fun kg => (kg.1, kg.2.length)) = kind_runs (ops.map cq_op.kind) := by
  induction ops with
  | nil => rfl
  | cons o rest ih =>
    show (cons_run o (runs rest)).map _ = kind_runs (o.kind :: rest.map cq_op.kind)
    rw [kind_runs_cons_run, ih]
    rfl

/-- What the check on the kinds gives for the sequence itself. -/
theorem cycle_ok_sound (ops : List cq_op) (h : cycle_ok (ops.map cq_op.kind)) :
    payload_size ops ≤ CMDBUF_SIZE ∧
    ∀ kg ∈ runs ops,
      CMD_HDR_SIZE + (kg.2.map (fun o => o.kind.size)).sum ≤ 255 ∧ kg.2.length ≤ 255 := by
  obtain ⟨h1, h2⟩ := h
  have hshape := runs_shape ops
  constructor
  · have hl : (runs ops).length = (kind_runs (ops.map cq_op.kind)).length := by
      rw [← hshape, List.length_map]
    have hs : (ops.map (fun o => o.kind.size)) = (ops.map cq_op.kind).map cq_kind.size := by
      simp [List.map_map, Function.comp]
    rw [payload_size, hl, hs]
    exact h1
  · intro kg hkg
    have hmem : (kg.1, kg.2.length) ∈ kind_runs (ops.map cq_op.kind) := by
      rw [← hshape]
      exact List.mem_map.2 ⟨kg, hkg, rfl⟩
    have := h2 _ hmem
    rw [uniform_size_sum kg.1 kg.2 (runs_uniform ops kg hkg).2]
    exact this

theorem driver_cycles_ok (dp0 dp1 mode device : Nat) (S : List cq_op)
    (hS : S ∈ driver_cycles dp0 dp1 mode device) : cycle_ok (S.map cq_op.kind) := by
  simp only [driver_cycles, List.mem_cons, List.mem_singleton, List.not_mem_nil, or_false] at hS
  rcases hS with rfl | rfl | rfl | rfl | rfl | rfl | rfl | rfl | rfl | rfl
  · exact (by decide : cycle_ok [.write, .write, .write, .write, .wait_clear])
  · exact (by decide : cycle_ok [.read])
  · exact (by decide : cycle_ok
      [.wait_set, .wait_set, .wait_set,
       .write, .write, .write, .write, .write, .write, .write, .write, .write, .write,
       .write, .write, .write, .write, .write, .write, .write, .write, .write, .write,
       .write, .write, .write, .write, .write, .write, .write,
       .wait_set, .mask, .write, .write, .write, .write, .write, .write, .write,
       .wait_set, .write, .write, .write, .write, .write])
  · exact (by decide : cycle_ok
      [.write, .write, .write, .mask, .mask, .mask, .mask, .mask, .mask, .mask, .mask])
  · exact (by decide : cycle_ok
      [.write, .mask, .mask, .mask, .mask, .mask, .mask, .mask, .write, .write, .wait_set,
       .write, .mask, .write])
  · exact (by decide : cycle_ok
      [.mask, .write, .wait_set, .wait_set, .write, .wait_set, .mask, .mask, .delay, .write,
       .delay,
       .write, .write, .write, .write, .write, .write, .write, .write,
       .write, .write, .write, .write, .write, .write, .write, .write,
       .write, .write, .write, .write, .write, .write, .write, .write,
       .write, .write, .write, .write, .write,
       .wait_set, .mask, .mask, .delay, .write, .wait_clear, .write, .mask, .mask, .mask,
       .write, .write])
  · exact (by decide : cycle_ok
      [.write, .write, .write, .mask, .mask, .mask, .mask, .mask, .mask, .mask, .mask])
  · exact (by decide : cycle_ok
      [.write, .mask, .mask, .mask, .mask, .mask, .mask, .mask, .write, .write, .wait_set,
       .mask, .write, .wait_clear, .write, .mask, .write])
  · exact (by decide : cycle_ok [.write, .write])
  · exact (by decide : cycle_ok [.read])

/-- Claim C18. For every value of the DisplayPort status bytes, the matched mode and the
PCI device id, each init-to-exec cycle of `ps4_bridge_pre_enable`, `ps4_bridge_enable` (both
branches, audio cycles included), `ps4_bridge_disable` and `ps4_bridge_detect` stays within
the 2028-byte payload: after every append of the cycle the cursor is within the payload,
`cmdbuf` has its size and the reply buffer is untouched. Every group has at most 255 bytes
and at most 255 operations, so the payload `cq_exec` finalizes carries the exact group
lengths and counts. -/
theorem C18_driver_cycles_fit (q0 : i2c_cmdqueue) (icc : icc_fn)
    (dp0 dp1 mode device : Nat) (S : List cq_op)
    (hq0 : q0.cmdbuf.length = CMDBUF_SIZE) (hS : S ∈ driver_cycles dp0 dp1 mode device) :
    payload_size S ≤ CMDBUF_SIZE ∧
    (∀ n, (cq_run (cq_init q0 4) (S.take n)).p ≤ CMDBUF_SIZE ∧
      (cq_run (cq_init q0 4) (S.take n)).cmdbuf.length = CMDBUF_SIZE ∧
      (cq_run (cq_init q0 4) (S.take n)).reply = q0.reply) ∧
    (∀ kg ∈ runs S,
      CMD_HDR_SIZE + (kg.2.map (fun o => o.kind.size)).sum ≤ 255 ∧ kg.2.length ≤ 255) ∧
    (cq_exec icc (cq_run (cq_init q0 4) S)).q.cmdbuf.take (payload_size S)
      = (runs S).flatMap enc_exact := by
  obtain ⟨hfit, hgroups⟩ := cycle_ok_sound S (driver_cycles_ok dp0 dp1 mode device S hS)
  refine ⟨hfit, ?_, hgroups, ?_⟩
  · intro n
    have hfitn : payload_size (S.take n) ≤ CMDBUF_SIZE := by
      have := payload_size_le_append (S.take n) (S.drop n)
      rw [List.take_append_drop] at this
      exact Nat.le_trans this hfit
    have hb := built_run q0 4 (S.take n) hq0 hfitn
    have hlen : (enc_open (runs (S.take n))).length = payload_size (S.take n) := by
      rw [enc_open_length, enc_all_runs_length]
    refine ⟨?_, ?_, hb.reply⟩
    · rw [hb.cursor, hlen]; exact hfitn
    · rw [hb.buf, List.length_append, List.length_drop, hlen, hq0]
      omega
  · obtain ⟨_, hbuf⟩ := run_exec_payload q0 4 S icc hq0 hfit
    rw [hbuf, take_payload _ _ _ (enc_all_runs_length S)]
    exact flatMap_enc_exact _ (fun kg hkg => (hgroups kg hkg).1)

/-- Witness for `C18_driver_cycles_fit`: the configuration cycle of the MN864729 branch. -/
theorem C18_driver_cycles_fit_witness :
    payload_size (enable_b_ops 16 0x9923) ≤ CMDBUF_SIZE :=
  (C18_driver_cycles_fit q_zero (icc_reply 5 0 0 0 0 0) 0 0 16 0x9923 (enable_b_ops 16 0x9923)
    (by simp [q_zero]) (by simp [driver_cycles])).1

theorem puts_cmd (bs : List Nat) (q : i2c_cmdqueue) : (bs.foldl put q).cmd = q.cmd := by
  induction bs generalizing q with
  | nil => rfl
  | cons b bs ih =>
    rw [List.foldl_cons, ih]
    simp [put]

theorem cq_cmd_cmd_ne_none (q : i2c_cmdqueue) (major minor : Nat) :
    (cq_cmd q major minor).cmd ≠ none := by
  unfold cq_cmd
  split
  · simp [cq_cmd_open, cq_open_group]
  · rename_i c hc
    split_ifs
    · simp [cq_cmd_open, cq_open_group]
    · simp [hc]

/-- After an append a group is open, whatever the queue was. -/
theorem cq_apply_cmd_ne_none (q : i2c_cmdqueue) (o : cq_op) : (cq_apply q o).cmd ≠ none := by
  rw [cq_apply_eq, puts_cmd]
  exact cq_cmd_cmd_ne_none q _ _

theorem cq_run_cmd_ne_none (q : i2c_cmdqueue) (ops : List cq_op) (h : ops ≠ []) :
    (cq_run q ops).cmd ≠ none := by
  induction ops using List.reverseRecOn with
  | nil => exact absurd rfl h
  | append_singleton ops o _ =>
    rw [cq_run_snoc]
    exact cq_apply_cmd_ne_none _ o

/-- A cycle with at least one append makes exactly one transport call. -/
theorem cq_exec_run_calls_length (icc : icc_fn) (q : i2c_cmdqueue) (ops : List cq_op)
    (h : ops ≠ []) : (cq_exec icc (cq_run q ops)).calls.length = 1 := by
  have hne := cq_run_cmd_ne_none q ops h
  match hc : (cq_run q ops).cmd with
  | none => exact absurd hc hne
  | some c => rw [cq_exec_calls icc _ c hc]; rfl

/-- Claim C19, the code at the failing inputs. The vendor test of `ps4_bridge_enable`
compares `pdev->vendor` with `(PCI_VENDOR_ID_ATI || PCI_VENDOR_ID_AMD)`, which is the
integer 1. For the vendor ids 0x1002 (ATI) and 0x1022 (AMD) the test is true and the
function takes the "Invalid vendor" return: for every mode, device id and bridge state it
builds no queue and makes no transport call. With the vendor id 1 it passes the test: for
VIC 16 on a CUH-12xx device it runs its three cycles, one transport call each. -/
theorem C19_vendor_check (icc : icc_fn) (vic device : Nat) (b : ps4_bridge) :
    c_lor PCI_VENDOR_ID_ATI PCI_VENDOR_ID_AMD = 1 ∧
    ps4_bridge_enable icc vic PCI_VENDOR_ID_ATI device b = ({ b with mode := vic }, []) ∧
    ps4_bridge_enable icc vic PCI_VENDOR_ID_AMD device b = ({ b with mode := vic }, []) ∧
    ps4_bridge_enable icc 16 0x1002 PCI_DEVICE_ID_CUH_11XX b = ({ b with mode := 16 }, []) ∧
    (ps4_bridge_enable icc 16 1 PCI_DEVICE_ID_CUH_12XX b).2.length = 3 := by
  have hlor : c_lor PCI_VENDOR_ID_ATI PCI_VENDOR_ID_AMD = 1 := by decide
  have hati : ∀ v d, ps4_bridge_enable icc v PCI_VENDOR_ID_ATI d b = ({ b with mode := v }, []) := by
    intro v d
    unfold ps4_bridge_enable
    simp only [hlor]
    by_cases h1 : v = 0
    · rw [if_pos h1]
    · rw [if_neg h1, if_pos (by decide)]
  have hamd : ∀ v d, ps4_bridge_enable icc v PCI_VENDOR_ID_AMD d b = ({ b with mode := v }, []) := by
    intro v d
    unfold ps4_bridge_enable
    simp only [hlor]
    by_cases h1 : v = 0
    · rw [if_pos h1]
    · rw [if_neg h1, if_pos (by decide)]
  refine ⟨hlor, hati vic device, hamd vic device, hati 16 PCI_DEVICE_ID_CUH_11XX, ?_⟩
  have hdev : PCI_DEVICE_ID_CUH_12XX ≠ PCI_DEVICE_ID_CUH_11XX := by decide
  unfold ps4_bridge_enable
  simp only [hlor]
  rw [if_neg (by decide), if_neg (by simp), if_neg hdev]
  simp only [List.length_append]
  rw [cq_exec_run_calls_length icc _ (enable_b_ops 16 PCI_DEVICE_ID_CUH_12XX)
      (by simp [enable_b_ops]),
    cq_exec_run_calls_length icc _ enable_b_audio0_ops (by simp [enable_b_audio0_ops]),
    cq_exec_run_calls_length icc _ enable_b_audio1_ops (by simp [enable_b_audio1_ops])]

/-- Claim C20, the code at the failing input. `ps4_bridge_mode_valid` returns `MODE_OK`
exactly for the VICs 4, 16 and 63; for every other VIC, matched (nonzero) or not, it returns
`MODE_BAD`. VIC 1 is matched and rejected. -/
theorem C20_mode_valid (vic : Nat) :
    (ps4_bridge_mode_valid vic = drm_mode_status.MODE_OK ↔ (vic = 4 ∨ vic = 16 ∨ vic = 63)) ∧
    (ps4_bridge_mode_valid vic = drm_mode_status.MODE_BAD ↔ (vic ≠ 4 ∧ vic ≠ 16 ∧ vic ≠ 63)) ∧
    ps4_bridge_mode_valid 1 = drm_mode_status.MODE_BAD := by
  refine ⟨?_, ?_, by decide⟩
  · unfold ps4_bridge_mode_valid
    split_ifs with h
    · simp only [reduceCtorEq, false_iff]
      omega
    · simp only [true_iff]
      omega
  · unfold ps4_bridge_mode_valid
    split_ifs with h
    · simp only [true_iff]
      omega
    · simp only [reduceCtorEq, false_iff]
      omega

/-! ## The presence probe (C21) -/

/-- The test `reg & TMONREG_HPD` is the test of bit 3. -/
theorem and_hpd_ne_zero (reg : Nat) : reg &&& TMONREG_HPD ≠ 0 ↔ reg.testBit 3 = true := by
  have h : TMONREG_HPD = 2 ^ 3 := by decide
  rw [h, Nat.and_two_pow]
  cases reg.testBit 3 <;> simp

theorem detect_status (icc : icc_fn) (b : ps4_bridge) :
    (ps4_bridge_detect icc b).1 = drm_connector_status.connector_status_connected ↔
      (9 ≤ (cq_exec icc (cq_read (cq_init b.cq 4) TMONREG 1)).res ∧
        ((cq_exec icc (cq_read (cq_init b.cq 4) TMONREG 1)).q.reply.databuf.getD 3 0).testBit 3
          = true) := by
  have hrun : cq_run (cq_init b.cq 4) detect_ops = cq_read (cq_init b.cq 4) TMONREG 1 := rfl
  unfold ps4_bridge_detect
  simp only [hrun]
  by_cases h9 : (cq_exec icc (cq_read (cq_init b.cq 4) TMONREG 1)).res < 9
  · rw [if_pos h9]
    simp only [reduceCtorEq, false_iff]
    omega
  · rw [if_neg h9]
    by_cases hbit : (cq_exec icc (cq_read (cq_init b.cq 4) TMONREG 1)).q.reply.databuf.getD 3 0
        &&& TMONREG_HPD ≠ 0
    · rw [if_pos hbit]
      simp only [true_iff]
      exact ⟨by omega, (and_hpd_ne_zero _).1 hbit⟩
    · rw [if_neg hbit]
      simp only [reduceCtorEq, false_iff]
      intro hc
      exact hbit ((and_hpd_ne_zero _).2 hc.2)

theorem detect_calls (icc : icc_fn) (b : ps4_bridge) :
    (ps4_bridge_detect icc b).2.2 = (cq_exec icc (cq_read (cq_init b.cq 4) TMONREG 1)).calls := by
  have hrun : cq_run (cq_init b.cq 4) detect_ops = cq_read (cq_init b.cq 4) TMONREG 1 := rfl
  unfold ps4_bridge_detect
  simp only [hrun]
  split_ifs <;> rfl

/-- Claim C21. `ps4_bridge_detect` builds exactly one Read group, `cq_init(4);
cq_read(0x7008, 1)`, hands it to the transport in one call, and returns
`connector_status_connected` if and only if `cq_exec` returned at least 9 and bit 3
(`TMONREG_HPD`, 0x08) of `reply.databuf[3]` is set. Every failure of `cq_exec` (a transport
error, a reply of fewer than 5 bytes, a nonzero `res1` or `res2`) and every reply shorter
than 9 bytes gives `connector_status_disconnected`. -/
theorem C21_presence_probe (icc : icc_fn) (b : ps4_bridge)
    (hq : b.cq.cmdbuf.length = CMDBUF_SIZE) :
    (∃ c, (ps4_bridge_detect icc b).2.2 = [c] ∧ c.length = 12 ∧
      c.data.take c.length = [4, 12, 0, 1, 1, 8, 1, 1, 1, 0x70, 0x08, 0]) ∧
    runs detect_ops = [(cq_kind.read, [cq_op.read 0x7008 1])] ∧
    ((ps4_bridge_detect icc b).1 = drm_connector_status.connector_status_connected ↔
      (9 ≤ (cq_exec icc (cq_read (cq_init b.cq 4) TMONREG 1)).res ∧
        ((cq_exec icc (cq_read (cq_init b.cq 4) TMONREG 1)).q.reply.databuf.getD 3 0).testBit 3
          = true)) ∧
    ((ps4_bridge_detect icc b).1 = drm_connector_status.connector_status_disconnected ↔
      ¬ (9 ≤ (cq_exec icc (cq_read (cq_init b.cq 4) TMONREG 1)).res ∧
        ((cq_exec icc (cq_read (cq_init b.cq 4) TMONREG 1)).q.reply.databuf.getD 3 0).testBit 3
          = true)) ∧
    ((cq_exec icc (cq_read (cq_init b.cq 4) TMONREG 1)).res < 9 →
      (ps4_bridge_detect icc b).1 = drm_connector_status.connector_status_disconnected) ∧
    (((exec_icc icc (cq_read (cq_init b.cq 4) TMONREG 1) 0).1 < 5 ∨
        (exec_icc icc (cq_read (cq_init b.cq 4) TMONREG 1) 0).2.res1 ≠ 0 ∨
        (exec_icc icc (cq_read (cq_init b.cq 4) TMONREG 1) 0).2.res2 ≠ 0 ∨
        (exec_icc icc (cq_read (cq_init b.cq 4) TMONREG 1) 0).1 < 9) →
      (ps4_bridge_detect icc b).1 = drm_connector_status.connector_status_disconnected) ∧
    ((ps4_bridge_detect icc b).1 = drm_connector_status.connector_status_connected ↔
      (9 ≤ (exec_icc icc (cq_read (cq_init b.cq 4) TMONREG 1) 0).1 ∧
        (exec_icc icc (cq_read (cq_init b.cq 4) TMONREG 1) 0).2.res1 = 0 ∧
        (exec_icc icc (cq_read (cq_init b.cq 4) TMONREG 1) 0).2.res2 = 0 ∧
        ((exec_icc icc (cq_read (cq_init b.cq 4) TMONREG 1) 0).2.databuf.getD 3 0).testBit 3
          = true)) := by
  have hrun : cq_run (cq_init b.cq 4) detect_ops = cq_read (cq_init b.cq 4) TMONREG 1 := rfl
  have hfit : payload_size detect_ops ≤ CMDBUF_SIZE := by decide
  have hb := built_run b.cq 4 detect_ops hq hfit
  rw [hrun] at hb
  have hc : (cq_read (cq_init b.cq 4) TMONREG 1).cmd = some 0 := hb.cmd
  have hres := cq_exec_res icc _ 0 hc
  have hreply : (cq_exec icc (cq_read (cq_init b.cq 4) TMONREG 1)).q.reply
      = (exec_icc icc (cq_read (cq_init b.cq 4) TMONREG 1) 0).2 := by
    rw [cq_exec_q icc _ 0 hc]
  have hstat := detect_status icc b
  have hdis : (ps4_bridge_detect icc b).1 = drm_connector_status.connector_status_disconnected ↔
      ¬ (ps4_bridge_detect icc b).1 = drm_connector_status.connector_status_connected := by
    cases (ps4_bridge_detect icc b).1 <;> simp
  have hfail : ((exec_icc icc (cq_read (cq_init b.cq 4) TMONREG 1) 0).1 < 5 ∨
      (exec_icc icc (cq_read (cq_init b.cq 4) TMONREG 1) 0).2.res1 ≠ 0 ∨
      (exec_icc icc (cq_read (cq_init b.cq 4) TMONREG 1) 0).2.res2 ≠ 0 ∨
      (exec_icc icc (cq_read (cq_init b.cq 4) TMONREG 1) 0).1 < 9) →
      (cq_exec icc (cq_read (cq_init b.cq 4) TMONREG 1)).res < 9 := by
    intro h
    rw [hres]
    split_ifs with h1 h2
    · simp [EIO_val]
    · simp [EIO_val]
    · push_neg at h2
      rcases h with h | h | h | h
      · omega
      · exact absurd h2.1 h
      · exact absurd h2.2 h
      · exact h
  refine ⟨?_, by decide, hstat, ?_, ?_, ?_, ?_⟩
  · obtain ⟨c, r, _, _, hcalls⟩ := run_exec_q b.cq 4 detect_ops icc hq hfit (by simp [detect_ops])
    have hps : payload_size detect_ops = 8 := by decide
    have henc : enc_all (runs detect_ops) = [1, 8, 1, 1, 1, 0x70, 0x08, 0] := by decide
    have hlen : (runs detect_ops).length = 1 := by decide
    rw [hps, henc, hlen, hrun] at hcalls
    rw [detect_calls]
    refine ⟨_, hcalls, rfl, ?_⟩
    simp [REQ_HDR_SIZE, u8]
  · rw [hdis, hstat]
  · intro h9
    rw [hdis, hstat]
    omega
  · intro h
    have h9 := hfail h
    rw [hdis, hstat]
    omega
  · rw [hstat, hreply]
    constructor
    · rintro ⟨h9, hbit⟩
      rw [hres] at h9
      split_ifs at h9 with h1 h2
      · simp [EIO_val] at h9
      · simp [EIO_val] at h9
      · push_neg at h2
        exact ⟨h9, h2.1, h2.2, hbit⟩
    · rintro ⟨h9, h1, h2, hbit⟩
      refine ⟨?_, hbit⟩
      rw [hres, if_neg (by omega), if_neg (by simp [h1, h2])]
      exact h9

/-- Witness for `C21_presence_probe`: a zeroed bridge queue and a transport that fails
with `-19`; the probe reports the connector as disconnected. -/
theorem C21_presence_probe_witness :
    (ps4_bridge_detect (icc_fail (-19)) { cq := q_zero, mode := 0 }).1
      = drm_connector_status.connector_status_disconnected :=
  (C21_presence_probe (icc_fail (-19)) { cq := q_zero, mode := 0 }
    (by simp [q_zero])).2.2.2.2.2.1 (Or.inl (by simp [exec_icc, icc_fail]))

end MN8647xx
